import Mathlib

/-!
300B tube-amp sound effect: ring buffer, tube stage, signal chain, coefficient store.

A shallow embedding of the DSP core of the repository
(`src/core/AudioBuffer.cpp`, `src/dsp/TubeEmulator.cpp`, `src/dsp/DSPProcessor.cpp`,
`src/dsp/Parameters.cpp`, `src/dsp/FilterBank.cpp`) and of the setters of
`src/core/AudioEngine.cpp`, together with theorems about it.

Modelling conventions.
* A `float*` / `const float*` argument is a function `Nat → α` (the memory reachable from
  the pointer, indexed by offset); an operation that writes through the pointer returns the
  updated function.
* `std::vector<float>` is a `List`.
* `size_t` cursors are natural numbers.  A `std::vector<float>` cannot hold `2 ^ 62`
  elements, so with cursors below the capacity no cursor computation leaves the range of
  `size_t`; the product `frames * channels`, whose operands come from the caller, is
  reduced modulo `2 ^ 64` as the machine does.
* `float` / `double` arithmetic is exact arithmetic in a linear ordered field `K`; the
  library functions `std::log`, `std::exp`, `std::pow` are carried in a `MathFns K` record.
* An `int` frame count or sample rate is an integer; a loop `for (i = 0; i < n; ++i)` runs
  `n.toNat` iterations, none when `n` is negative, and array offsets are natural numbers.
* Atomics are read and written sequentially (one thread).
* `Parameters::parseIDAFormat` is modelled from the bytes of the `DCB` lines on; the text
  scanning that collects them (`QRegularExpression`, `parseHexLine`) is not modelled.  A
  `double` is decoded from its 8 bytes exactly.
-/

namespace TubeAmp

/-! ## AudioBuffer -/

/-- Number of values of a `size_t` (64-bit build). -/
def SIZE_MOD : Nat := 2 ^ 64

/-- The value of the C++ expression `frames * channels` with `frames : size_t` and
`channels : int`: the `int` is converted to `size_t` (modulo `2 ^ 64`) and the product is
taken modulo `2 ^ 64`. -/
def sampleCount (frames : Nat) (channels : Int) : Nat :=
  (frames * (channels % (SIZE_MOD : Int)).toNat) % SIZE_MOD

/-- Fields of `class AudioBuffer`. -/
structure AudioBuffer (α : Type) where
  m_buffer : List α
  m_capacity : Nat
  m_readPos : Nat
  m_writePos : Nat

namespace AudioBuffer

variable {α : Type} [Zero α]

/-- `AudioBuffer::AudioBuffer(capacity)`: storage of `capacity` zeros, both cursors 0. -/
def construct (capacity : Nat) : AudioBuffer α :=
  { m_buffer := List.replicate capacity 0
    m_capacity := capacity
    m_readPos := 0
    m_writePos := 0 }

/-- `AudioBuffer::availableRead`. -/
def availableRead (s : AudioBuffer α) : Nat :=
  let writePos := s.m_writePos
  let readPos := s.m_readPos
  if writePos ≥ readPos then writePos - readPos
  else s.m_capacity - readPos + writePos

/-- `AudioBuffer::availableWrite`. -/
def availableWrite (s : AudioBuffer α) : Nat :=
  s.m_capacity - s.availableRead - 1

/-- The copy loop of `write` after `i` iterations:
`m_buffer[(writePos + i) % m_capacity] = data[i]`. -/
def writeLoop (buf : List α) (cap writePos : Nat) (data : Nat → α) : Nat → List α
  | 0 => buf
  | i + 1 => (writeLoop buf cap writePos data i).set ((writePos + i) % cap) (data i)

/-- `AudioBuffer::write`: the returned flag and the buffer afterwards. -/
def write (s : AudioBuffer α) (data : Nat → α) (frames : Nat) (channels : Int) :
    Bool × AudioBuffer α :=
  let samplesToWrite := sampleCount frames channels
  if s.availableWrite < samplesToWrite then (false, s)
  else
    let writePos := s.m_writePos
    (true,
      { s with
        m_buffer := writeLoop s.m_buffer s.m_capacity writePos data samplesToWrite
        m_writePos := (writePos + samplesToWrite) % s.m_capacity })

/-- The copy loop of `read` after `i` iterations:
`data[i] = m_buffer[(readPos + i) % m_capacity]`. -/
def readLoop (buf : List α) (cap readPos : Nat) (data : Nat → α) : Nat → (Nat → α)
  | 0 => data
  | i + 1 =>
    Function.update (readLoop buf cap readPos data i) i (buf.getD ((readPos + i) % cap) 0)

/-- `AudioBuffer::read`: the returned flag, the buffer afterwards and the destination
array afterwards. -/
def read (s : AudioBuffer α) (data : Nat → α) (frames : Nat) (channels : Int) :
    Bool × AudioBuffer α × (Nat → α) :=
  let samplesToRead := sampleCount frames channels
  if s.availableRead < samplesToRead then (false, s, data)
  else
    let readPos := s.m_readPos
    (true,
      { s with m_readPos := (readPos + samplesToRead) % s.m_capacity },
      readLoop s.m_buffer s.m_capacity readPos data samplesToRead)

/-- `AudioBuffer::clear`. -/
def clear (s : AudioBuffer α) : AudioBuffer α :=
  { s with m_readPos := 0, m_writePos := 0 }

/-- `AudioBuffer::resize`: the storage is cut or padded with zeros to the new capacity,
then both cursors are cleared. -/
def resize (s : AudioBuffer α) (newCapacity : Nat) : AudioBuffer α :=
  clear
    { s with
      m_buffer :=
        s.m_buffer.take newCapacity ++ List.replicate (newCapacity - s.m_buffer.length) 0
      m_capacity := newCapacity }

end AudioBuffer

/-- One call made on an `AudioBuffer` by a client, with its arguments. -/
inductive BufferCall (α : Type) where
  | write (data : Nat → α) (frames : Nat) (channels : Int)
  | read (dest : Nat → α) (frames : Nat) (channels : Int)
  | clear

namespace AudioBuffer

variable {α : Type} [Zero α]

/-- The buffer after one call (the flag and the destination array are dropped). -/
def call (s : AudioBuffer α) : BufferCall α → AudioBuffer α
  | .write data frames channels => (s.write data frames channels).2
  | .read dest frames channels => (s.read dest frames channels).2.1
  | .clear => s.clear

/-- The buffer after a sequence of calls, made in list order. -/
def run (s : AudioBuffer α) (calls : List (BufferCall α)) : AudioBuffer α :=
  calls.foldl call s

/-- States reachable from construction with capacity `c` by write, read and clear calls. -/
def Reachable (c : Nat) (s : AudioBuffer α) : Prop :=
  ∃ calls : List (BufferCall α), s = run (construct c) calls

/-- Shape invariant of a buffer of capacity `c`. -/
structure WellFormed (c : Nat) (s : AudioBuffer α) : Prop where
  cap : s.m_capacity = c
  len : s.m_buffer.length = c
  rd : s.m_readPos < c
  wr : s.m_writePos < c

/-- A sample call sequence on integer samples: an accepted write of 2 samples, a rejected
write of 4, an accepted read of 2, a rejected read of 1, a clear. -/
def sampleCalls : List (BufferCall Int) :=
  [ .write (fun i => (i : Int) + 1) 1 2
  , .write (fun _ => 7) 2 2
  , .read (fun _ => 0) 2 1
  , .read (fun _ => 0) 1 1
  , .clear ]

/-- The samples currently stored: the `availableRead()` samples from the read cursor
onward, modulo the capacity. -/
def stored (s : AudioBuffer α) : List α :=
  (List.range s.availableRead).map fun i =>
    s.m_buffer.getD ((s.m_readPos + i) % s.m_capacity) 0

/-- A buffer together with the history of its client: the samples returned by the
successful reads so far and the samples accepted by the successful writes so far, both in
call order. -/
structure Trace (α : Type) where
  buffer : AudioBuffer α
  readOut : List α
  written : List α

/-- One call and its effect on the history: a write that returns `true` appends its
`frames * channels` samples to `written`, a read that returns `true` appends the samples it
stored in the destination array to `readOut`. -/
def traceCall (t : Trace α) : BufferCall α → Trace α
  | .write data frames channels =>
    let r := t.buffer.write data frames channels
    { buffer := r.2
      readOut := t.readOut
      written :=
        if r.1 then t.written ++ (List.range (sampleCount frames channels)).map data
        else t.written }
  | .read dest frames channels =>
    let r := t.buffer.read dest frames channels
    { buffer := r.2.1
      readOut :=
        if r.1 then t.readOut ++ (List.range (sampleCount frames channels)).map r.2.2
        else t.readOut
      written := t.written }
  | .clear => { t with buffer := t.buffer.clear }

/-- The history of a sequence of calls on a fresh buffer of capacity `c`. -/
def trace (c : Nat) (calls : List (BufferCall α)) : Trace α :=
  calls.foldl traceCall { buffer := construct c, readOut := [], written := [] }

/-- A sequence of writes and reads on a buffer of capacity 4: write 1, 2; read one sample;
write 3, 4 (accepted, wraps the write cursor to 0); write 5, 6, 7 (rejected); read two
samples; read two samples (rejected, one is stored). -/
def sampleStream : List (BufferCall Int) :=
  [ .write (fun i => (i : Int) + 1) 1 2
  , .read (fun _ => 0) 1 1
  , .write (fun i => (i : Int) + 3) 2 1
  , .write (fun i => (i : Int) + 5) 3 1
  , .read (fun _ => 0) 1 2
  , .read (fun _ => 0) 2 1 ]

/-- An empty buffer of capacity 4 whose cursors both sit at 3: a write of 2 samples wraps. -/
def sampleEmptyAt3 : AudioBuffer Int :=
  { m_buffer := [0, 0, 0, 0], m_capacity := 4, m_readPos := 3, m_writePos := 3 }

end AudioBuffer

/-! ## TubeEmulator -/

/-- The `<cmath>` functions the tube stage calls: `std::log`, `std::exp`, `std::pow`. -/
structure MathFns (K : Type) where
  log : K → K
  exp : K → K
  pow : K → K → K

/-- A row of `kRateTable`: a sample rate and its 14 values. -/
structure RateEntry (K : Type) where
  rate : Int
  coeffs : Fin 14 → K

/-- The table `kRateTable` of `TubeEmulator.cpp`. -/
def kRateTable (K : Type) [Field K] : List (RateEntry K) :=
  [ ⟨44100, ![0.848837734156434, -2.879886361821670, 2.725585256735570, 0.930839365623406,
             -3.079589350505240, 1.770725087918830, -0.316511731835608, 1.000000000000000,
             -3.483284779450430, 3.477549116048100, 0.933540396458836, -3.832907894267460,
             2.371422474712170, -0.466319313229480]⟩
  , ⟨48000, ![0.859613953341805, -2.881262866479970, 2.716760030674950, 0.764865085654241,
             -2.676598511921890, 1.440192350820560, -0.223570041868478, 1.000000000000000,
             -3.441768540626980, 3.415464677676710, 0.767170485973692, -3.376459849090420,
             1.998392624648130, -0.362799398359903]⟩
  , ⟨88200, ![0.867388389271491, -3.568372014755150, 5.446137758181810, -3.445401648026590,
             0.332293626439954, 0.524596404405209, -0.156642515506745, 1.000000000000000,
             -4.098256690320620, 6.107478187022560, -3.444212228440640, -0.329642119552943,
             1.053291660384730, -0.288658809083111]⟩
  , ⟨96000, ![0.859562598352408, -3.598222595366990, 5.574911775924850, -3.506393779647540,
             0.158511343920126, 0.736248938801894, -0.224618281979237, 1.000000000000000,
             -4.159415663760060, 6.275407359110680, -3.505236268570930, -0.542563394277778,
             1.296284496118340, -0.364476528614760]⟩
  , ⟨176400, ![0.898810453231595, -4.361647014994980, 8.575765118892219, -8.662152351049730,
              4.666181822924430, -1.233594712287200, 0.116636683283928, 1.000000000000000,
              -4.766184829159850, 9.081044865157910, -8.661697742636489, 4.160674710632680,
              -0.829511506535580, 0.015674502541581]⟩
  , ⟨192000, ![0.887929471244264, -4.271530571680550, 8.229258617877781, -7.959864259669550,
              3.900406089953790, -0.808177841238952, 0.021978493513359, 1.000000000000000,
              -4.719585961357560, 8.788926590382619, -7.959401737733720, 3.340506816466110,
              -0.360584973497765, -0.089860734259541]⟩ ]

/-- One pass of a nearest-by-absolute-difference search for `r` over items with an integer
key: keep the pair (best item, its distance) unless the item `x` is strictly nearer. -/
def nearerStep {β : Type} (key : β → Int) (r : Int) (acc : β × Int) (x : β) : β × Int :=
  if |r - key x| < acc.2 then (x, |r - key x|) else acc

/-- One pass of the nearest-rate loop of `pickRate`: keep `(best, bestDiff)` unless the
entry is strictly nearer. -/
def pickNearer {K : Type} (rate : Int) (acc : RateEntry K × Int) (entry : RateEntry K) :
    RateEntry K × Int :=
  let diff := |rate - entry.rate|
  if diff < acc.2 then (entry, diff) else acc

/-- `pickRate`: the row whose rate is `rate` if there is one, else the nearest row, the
earliest row winning a tie.  (`int` subtraction is taken in `Int`.) -/
def pickRate (K : Type) [Field K] (rate : Int) : RateEntry K :=
  match (kRateTable K).find? (fun entry => entry.rate == rate) with
  | some entry => entry
  | none =>
    let first := (kRateTable K).headD ⟨0, fun _ => 0⟩
    ((kRateTable K).foldl (pickNearer rate) (first, |rate - first.rate|)).1

/-- `TubeEmulator::Coefficients`: `b[7]` and `a[6]` (`a0` is 1 and not stored). -/
structure Coefficients (K : Type) where
  b : Fin 7 → K
  a : Fin 6 → K

/-- `TubeEmulator::FilterState`: `z[6]`. -/
structure FilterState (K : Type) where
  z : Fin 6 → K

/-- The value-initialised state `FilterState{}`. -/
def FilterState.zero (K : Type) [Zero K] : FilterState K := ⟨fun _ => 0⟩

/-- Fields of `class TubeEmulator`. -/
structure TubeEmulator (K : Type) where
  m_coeffs : Coefficients K
  m_stateL : FilterState K
  m_stateR : FilterState K
  m_outputGainDb : K
  m_sampleRate : Int

/-- `TubeEmulator::kOutputScale`. -/
def kOutputScale (K : Type) [Field K] : K := 1.33

/-- The coefficient set `loadCoefficients(sampleRate)` stores: `b[i]` is value `i` and
`a[i]` is value `8 + i` of the row picked for the rate. -/
def coefficientsFor (K : Type) [Field K] (sampleRate : Int) : Coefficients K :=
  let entry := pickRate K sampleRate
  { b := fun i => entry.coeffs ⟨i.val, by have := i.isLt; omega⟩
    a := fun i => entry.coeffs ⟨8 + i.val, by have := i.isLt; omega⟩ }

namespace TubeEmulator

/-- `TubeEmulator::loadCoefficients`. -/
def loadCoefficients {K : Type} [Field K] (t : TubeEmulator K) (sampleRate : Int) :
    TubeEmulator K :=
  { t with m_coeffs := coefficientsFor K sampleRate }

/-- `TubeEmulator::reset`. -/
def reset {K : Type} [Field K] (t : TubeEmulator K) : TubeEmulator K :=
  { t with m_stateL := FilterState.zero K, m_stateR := FilterState.zero K }

/-- `TubeEmulator::TubeEmulator()`: the member initialisers (gain 0 dB, rate 48000, zero
arrays), then `loadCoefficients(m_sampleRate)` and `reset()`. -/
def construct (K : Type) [Field K] : TubeEmulator K :=
  let t0 : TubeEmulator K :=
    { m_coeffs := ⟨fun _ => 0, fun _ => 0⟩
      m_stateL := FilterState.zero K
      m_stateR := FilterState.zero K
      m_outputGainDb := 0
      m_sampleRate := 48000 }
  (t0.loadCoefficients t0.m_sampleRate).reset

/-- `TubeEmulator::setSampleRate`. -/
def setSampleRate {K : Type} [Field K] (t : TubeEmulator K) (sampleRate : Int) :
    TubeEmulator K :=
  if sampleRate ≠ t.m_sampleRate then
    ({ t with m_sampleRate := sampleRate }.loadCoefficients sampleRate).reset
  else t

/-- `TubeEmulator::shapeSample`. -/
def shapeSample {K : Type} [LinearOrderedField K] (M : MathFns K) (x : K) : K :=
  let scaled := x * 0.75
  let shaped := scaled * 0.85 - M.log (1 - scaled) * 0.15
  let comp := scaled * 0.9
  let absComp := |comp|
  if absComp < shaped then
    let diff := shaped - absComp
    let expv := M.exp (-diff)
    absComp + diff / (expv + 1)
  else if -absComp > shaped then
    let sum := absComp + shaped
    let expv := M.exp (-sum)
    (sum / (expv + 1)) - absComp
  else shaped

/-- The argument `1.0f - scaled` that `shapeSample` passes to `std::log`. -/
def logArgument {K : Type} [LinearOrderedField K] (x : K) : K :=
  1 - x * 0.75

/-- Math functions that tell whether and where `log` is called: `log` returns `c` at the
argument `a` and 0 at every other argument, `exp` and `pow` are constant 1. -/
def logProbe {K : Type} [LinearOrderedField K] (a c : K) : MathFns K :=
  { log := fun y => if y = a then c else 0, exp := fun _ => 1, pow := fun _ _ => 1 }

/-- `TubeEmulator::processFilter`: the output sample and the state afterwards.  Each
`z[k]` is assigned from the not yet overwritten `z[k+1]`. -/
def processFilter {K : Type} [Field K] (c : Coefficients K) (x : K) (state : FilterState K) :
    K × FilterState K :=
  let y := c.b 0 * x + state.z 0
  let z0 := c.b 1 * x - c.a 0 * y + state.z 1
  let z1 := c.b 2 * x - c.a 1 * y + state.z 2
  let z2 := c.b 3 * x - c.a 2 * y + state.z 3
  let z3 := c.b 4 * x - c.a 3 * y + state.z 4
  let z4 := c.b 5 * x - c.a 4 * y + state.z 5
  let z5 := c.b 6 * x - c.a 5 * y
  (y, ⟨![z0, z1, z2, z3, z4, z5]⟩)

/-- The output gain `std::pow(10.0, m_outputGainDb / 20.0)`. -/
def gain {K : Type} [Field K] (M : MathFns K) (t : TubeEmulator K) : K :=
  M.pow 10 (t.m_outputGainDb / 20)

/-- Iteration `i` of the loop of `TubeEmulator::process` on the emulator and the two
channel arrays. -/
def processStep {K : Type} [LinearOrderedField K] (M : MathFns K) (g : K)
    (acc : TubeEmulator K × (Nat → K) × (Nat → K)) (i : Nat) :
    TubeEmulator K × (Nat → K) × (Nat → K) :=
  let shapedL := shapeSample M (acc.2.1 i)
  let shapedR := shapeSample M (acc.2.2 i)
  let filteredL := processFilter acc.1.m_coeffs shapedL acc.1.m_stateL
  let filteredR := processFilter acc.1.m_coeffs shapedR acc.1.m_stateR
  ({ acc.1 with m_stateL := filteredL.2, m_stateR := filteredR.2 },
    Function.update acc.2.1 i (filteredL.1 * kOutputScale K * g),
    Function.update acc.2.2 i (filteredR.1 * kOutputScale K * g))

/-- The first `n` iterations (`i = 0, ..., n - 1`) of the loop of `process`. -/
def processLoop {K : Type} [LinearOrderedField K] (M : MathFns K) (g : K)
    (acc : TubeEmulator K × (Nat → K) × (Nat → K)) : Nat → TubeEmulator K × (Nat → K) × (Nat → K)
  | 0 => acc
  | n + 1 => processStep M g (processLoop M g acc n) n

/-- `TubeEmulator::process(left, right, numSamples)`: the emulator and the two arrays
afterwards.  The two arrays are distinct objects. -/
def process {K : Type} [LinearOrderedField K] (M : MathFns K) (t : TubeEmulator K)
    (left right : Nat → K) (numSamples : Int) : TubeEmulator K × (Nat → K) × (Nat → K) :=
  processLoop M (gain M t) (t, left, right) numSamples.toNat

/-- Iteration `i` of the loop of `TubeEmulator::processMono`. -/
def processMonoStep {K : Type} [LinearOrderedField K] (M : MathFns K) (g : K)
    (acc : TubeEmulator K × (Nat → K)) (i : Nat) : TubeEmulator K × (Nat → K) :=
  let shaped := shapeSample M (acc.2 i)
  let filtered := processFilter acc.1.m_coeffs shaped acc.1.m_stateL
  ({ acc.1 with m_stateL := filtered.2 },
    Function.update acc.2 i (filtered.1 * kOutputScale K * g))

/-- The first `n` iterations of the loop of `processMono`. -/
def processMonoLoop {K : Type} [LinearOrderedField K] (M : MathFns K) (g : K)
    (acc : TubeEmulator K × (Nat → K)) : Nat → TubeEmulator K × (Nat → K)
  | 0 => acc
  | n + 1 => processMonoStep M g (processMonoLoop M g acc n) n

/-- `TubeEmulator::processMono(buffer, numSamples)`. -/
def processMono {K : Type} [LinearOrderedField K] (M : MathFns K) (t : TubeEmulator K)
    (buffer : Nat → K) (numSamples : Int) : TubeEmulator K × (Nat → K) :=
  processMonoLoop M (gain M t) (t, buffer) numSamples.toNat

end TubeEmulator

/-! ## DSPProcessor -/

/-- Fields of `class DSPProcessor`. -/
structure DSPProcessor (K : Type) where
  m_tubeEmulator : TubeEmulator K
  m_bypass : Bool
  m_sampleRate : Int

namespace DSPProcessor

/-- `DSPProcessor::DSPProcessor()`: a fresh tube stage, bypass off, rate 48000. -/
def construct (K : Type) [Field K] : DSPProcessor K :=
  { m_tubeEmulator := TubeEmulator.construct K, m_bypass := false, m_sampleRate := 48000 }

/-- `DSPProcessor::reset`. -/
def reset {K : Type} [Field K] (d : DSPProcessor K) : DSPProcessor K :=
  { d with m_tubeEmulator := d.m_tubeEmulator.reset }

/-- `DSPProcessor::setSampleRate`. -/
def setSampleRate {K : Type} [Field K] (d : DSPProcessor K) (rate : Int) : DSPProcessor K :=
  if rate ≠ d.m_sampleRate then
    ({ d with
        m_sampleRate := rate
        m_tubeEmulator := d.m_tubeEmulator.setSampleRate rate } : DSPProcessor K).reset
  else d

/-- `DSPProcessor::setBypass`. -/
def setBypass {K : Type} (d : DSPProcessor K) (bypass : Bool) : DSPProcessor K :=
  { d with m_bypass := bypass }

/-- `STACK_THRESHOLD` of `processInterleaved`. -/
def STACK_THRESHOLD : Int := 1024

/-- The de-interleave loop after `n` iterations: `left[i] = buffer[i * 2]`,
`right[i] = buffer[i * 2 + 1]`. -/
def deinterleave {K : Type} (buffer : Nat → K) (scratch : (Nat → K) × (Nat → K)) :
    Nat → (Nat → K) × (Nat → K)
  | 0 => scratch
  | i + 1 =>
    (Function.update (deinterleave buffer scratch i).1 i (buffer (i * 2)),
     Function.update (deinterleave buffer scratch i).2 i (buffer (i * 2 + 1)))

/-- The re-interleave loop after `n` iterations: `buffer[i * 2] = left[i]`,
`buffer[i * 2 + 1] = right[i]`. -/
def reinterleave {K : Type} (left right : Nat → K) (buffer : Nat → K) : Nat → (Nat → K)
  | 0 => buffer
  | i + 1 =>
    Function.update (Function.update (reinterleave left right buffer i) (i * 2) (left i))
      (i * 2 + 1) (right i)

/-- `DSPProcessor::processInterleaved`.  The two scratch arrays live on the stack up to
`STACK_THRESHOLD` frames and on the heap above; their contents before the de-interleave
loop are taken as zero in both cases. -/
def processInterleaved {K : Type} [LinearOrderedField K] (M : MathFns K) (d : DSPProcessor K)
    (buffer : Nat → K) (numFrames : Int) : DSPProcessor K × (Nat → K) :=
  let useHeap : Bool := decide (numFrames > STACK_THRESHOLD)
  let scratch : (Nat → K) × (Nat → K) :=
    if useHeap then (fun _ => 0, fun _ => 0) else (fun _ => 0, fun _ => 0)
  let split := deinterleave buffer scratch numFrames.toNat
  let out := d.m_tubeEmulator.process M split.1 split.2 numFrames
  ({ d with m_tubeEmulator := out.1 },
    reinterleave out.2.1 out.2.2 buffer numFrames.toNat)

/-- `DSPProcessor::process`: the processor and the buffer afterwards. -/
def process {K : Type} [LinearOrderedField K] (M : MathFns K) (d : DSPProcessor K)
    (buffer : Nat → K) (numFrames numChannels : Int) : DSPProcessor K × (Nat → K) :=
  if d.m_bypass then (d, buffer)
  else if numChannels = 2 then d.processInterleaved M buffer numFrames
  else if numChannels = 1 then
    let out := d.m_tubeEmulator.processMono M buffer numFrames
    ({ d with m_tubeEmulator := out.1 }, out.2)
  else (d, buffer)

/-- States a `DSPProcessor` can be in: reached from construction by its public
operations with any arguments. -/
inductive Reachable {K : Type} [LinearOrderedField K] (M : MathFns K) : DSPProcessor K → Prop
  | construct : Reachable M (construct K)
  | setSampleRate (d : DSPProcessor K) (rate : Int) :
      Reachable M d → Reachable M (d.setSampleRate rate)
  | setBypass (d : DSPProcessor K) (bypass : Bool) :
      Reachable M d → Reachable M (d.setBypass bypass)
  | reset (d : DSPProcessor K) : Reachable M d → Reachable M d.reset
  | process (d : DSPProcessor K) (buffer : Nat → K) (numFrames numChannels : Int) :
      Reachable M d → Reachable M (d.process M buffer numFrames numChannels).1

/-- What every reachable processor satisfies: the tube stage carries the processor's rate,
the coefficient set of that rate, and the default output gain. -/
structure Consistent {K : Type} [Field K] (d : DSPProcessor K) : Prop where
  rate : d.m_tubeEmulator.m_sampleRate = d.m_sampleRate
  coeffs : d.m_tubeEmulator.m_coeffs = coefficientsFor K d.m_sampleRate
  gainDb : d.m_tubeEmulator.m_outputGainDb = 0

/-- Stand-ins for the `<cmath>` functions over the rationals, for evaluating examples:
`log x = x - 1` (so `log 1 = 0`), `exp x = 1`, `pow x y = 1` (so `pow 10 0 = 1`). -/
def sampleMath : MathFns ℚ :=
  { log := fun x => x - 1, exp := fun _ => 1, pow := fun _ _ => 1 }

/-- A stereo buffer holding a unit impulse on both channels of frame 0. -/
def sampleImpulse : Nat → ℚ := fun i => if i < 2 then 1 else 0

/-- The freshly constructed processor after one mono frame of value 1: its left filter
state is no longer zero. -/
def sampleAfterImpulse : DSPProcessor ℚ :=
  ((construct ℚ).process sampleMath sampleImpulse ((1 : Nat) : Int) 1).1

end DSPProcessor

/-! ## Parameters -/

/-- `Parameters::FilterCoeffs`: one biquad stage `(b0, b1, b2, a1, a2)`. -/
structure FilterCoeffs (K : Type) where
  b0 : K
  b1 : K
  b2 : K
  a1 : K
  a2 : K
deriving DecidableEq

/-- The range check both stage loops of `parseIDAFormat` apply:
`std::abs(fc.a1) < 2.0 && std::abs(fc.a2) < 1.0`. -/
def FilterCoeffs.Stable {K : Type} [LinearOrderedField K] (fc : FilterCoeffs K) : Prop :=
  |fc.a1| < 2 ∧ |fc.a2| < 1

instance {K : Type} [LinearOrderedField K] (fc : FilterCoeffs K) : Decidable fc.Stable :=
  inferInstanceAs (Decidable (_ ∧ _))

/-- A `QMap<int, V>`: its entries, kept in increasing key order by `insert`. -/
abbrev QMap (V : Type) := List (Int × V)

namespace QMap

/-- `QMap::contains`. -/
def contains {V : Type} (m : QMap V) (key : Int) : Bool :=
  m.any (fun e => e.1 == key)

/-- The const `operator[]` / `value`: the value stored for the key, else a
default-constructed value. -/
def value {V : Type} (m : QMap V) (key : Int) (dflt : V) : V :=
  match m.find? (fun e => e.1 == key) with
  | some e => e.2
  | none => dflt

/-- The assignment `m[key] = v`: replace the value of an existing key, else add the entry
at its place in key order. -/
def insert {V : Type} : QMap V → Int → V → QMap V
  | [], key, v => [(key, v)]
  | e :: rest, key, v =>
    if key < e.1 then (key, v) :: e :: rest
    else if key = e.1 then (key, v) :: rest
    else e :: insert rest key v

/-- `QMap::first`: the value of the smallest key (a default-constructed value when the map
is empty). -/
def first {V : Type} (m : QMap V) (dflt : V) : V :=
  match m with
  | [] => dflt
  | e :: _ => e.2

/-- The shape `QMap` keeps: keys strictly increasing, so each key occurs once and the first
entry has the smallest key. -/
def Sorted {V : Type} (m : QMap V) : Prop :=
  List.Pairwise (fun a b => a.1 < b.1) m

/-- The lookup order of the specification for a request `r` on a map `m` with result
`out`: the table of `r` if `r` is a key; else the table of 48000 if that is a key; else the
table of the first, smallest-key entry if there is one; else the empty list. -/
def LookupOrder {T : Type} (m : QMap (List T)) (r : Int) (out : List T) : Prop :=
  (∀ t, (r, t) ∈ m → out = t) ∧
  ((∀ t, (r, t) ∉ m) → ∀ t, ((48000 : Int), t) ∈ m → out = t) ∧
  ((∀ t, (r, t) ∉ m) → (∀ t, ((48000 : Int), t) ∉ m) →
    ∀ e rest, m = e :: rest → out = e.2 ∧ ∀ other ∈ m, e.1 ≤ other.1) ∧
  (m = [] → out = [])

end QMap

/-- Fields of `class Parameters`. -/
structure Parameters (K : Type) where
  m_preFilterCoeffs : QMap (List (FilterCoeffs K))
  m_postFilterCoeffs : QMap (List (FilterCoeffs K))
  m_rawCoeffs : List K
  m_tubeBias : K
  m_tubeDrive : K
  m_tubeAsymmetry : K
  m_loaded : Bool

/-- A `double` as read from memory: not finite (an infinity or a NaN), or a finite
value. -/
inductive Double (K : Type) where
  | nonFinite : Double K
  | finite (v : K) : Double K
deriving DecidableEq

/-- The IEEE 754 binary64 value of a 64-bit pattern (what the `memcpy` of
`bytesToDouble` yields): bit 63 is the sign, bits 62..52 the biased exponent, bits 51..0
the fraction. -/
def decodeDouble (K : Type) [Field K] (bits : Nat) : Double K :=
  let sign : Nat := (bits >>> 63) % 2
  let expo : Nat := (bits >>> 52) % 2048
  let frac : Nat := bits % 2 ^ 52
  if expo = 2047 then Double.nonFinite
  else
    let mag : K :=
      if expo = 0 then (frac : K) * (2 : K) ^ (-1074 : Int)
      else (((2 ^ 52 + frac : Nat)) : K) * (2 : K) ^ ((expo : Int) - 1075)
    Double.finite (if sign = 1 then -mag else mag)

namespace Parameters

/-- The sample rates both `loadDefaultCoefficients` and `parseIDAFormat` store tables
for (`rates`), also `getSupportedSampleRates`. -/
def rates : List Int := [44100, 48000, 88200, 96000, 176400, 192000]

/-- `Parameters::getSupportedSampleRates`. -/
def getSupportedSampleRates {K : Type} (_p : Parameters K) : List Int :=
  [44100, 48000, 88200, 96000, 176400, 192000]

/-- The built-in pre-filter table of `loadDefaultCoefficients` (`pre1`, `pre2`). -/
def defaultPreCoeffs (K : Type) [Field K] : List (FilterCoeffs K) :=
  [ { b0 := 1.0306, b1 := -1.9692, b2 := 0.9398, a1 := -1.9692, a2 := 0.9704 }
  , { b0 := 1.0158, b1 := -1.9839, b2 := 0.9685, a1 := -1.9839, a2 := 0.9843 } ]

/-- The built-in post-filter table of `loadDefaultCoefficients` (`post1`, `post2`). -/
def defaultPostCoeffs (K : Type) [Field K] : List (FilterCoeffs K) :=
  [ { b0 := 0.0675, b1 := 0.1349, b2 := 0.0675, a1 := -1.1430, a2 := 0.4128 }
  , { b0 := 0.9826, b1 := -1.9321, b2 := 0.9507, a1 := -1.9321, a2 := 0.9333 } ]

/-- `Parameters::loadDefaultCoefficients`: for each rate in turn store both built-in
tables. -/
def loadDefaultCoefficients {K : Type} [Field K] (p : Parameters K) : Parameters K :=
  rates.foldl
    (fun q rate =>
      { q with
        m_preFilterCoeffs := q.m_preFilterCoeffs.insert rate (defaultPreCoeffs K)
        m_postFilterCoeffs := q.m_postFilterCoeffs.insert rate (defaultPostCoeffs K) })
    p

/-- `Parameters::Parameters()`: the member initialisers, then `loadDefaultCoefficients`. -/
def construct (K : Type) [Field K] : Parameters K :=
  loadDefaultCoefficients
    { m_preFilterCoeffs := []
      m_postFilterCoeffs := []
      m_rawCoeffs := []
      m_tubeBias := 0.0
      m_tubeDrive := 0.5
      m_tubeAsymmetry := 0.1
      m_loaded := false }

/-- `Parameters::bytesToDouble`: 0.0 unless there are exactly 8 bytes, else the double
whose little-endian representation they are.  A byte is a `uint8_t`. -/
def bytesToDouble (K : Type) [Field K] (bytes : List Nat) : Double K :=
  if bytes.length ≠ 8 then Double.finite 0
  else
    let value := (List.range 8).foldl
      (fun value i => value ||| ((bytes.getD i 0 % 256) <<< (i * 8))) 0
    decodeDouble K value

/-- The byte-to-double loop of `parseIDAFormat`
(`for (i = 0; i + 7 < allBytes.size(); i += 8)`) run from index `i` for at most `fuel`
iterations: the values appended to `m_rawCoeffs`, those that are finite and of magnitude
below `1e10`. -/
def convertLoop {K : Type} [LinearOrderedField K] (allBytes : List Nat) :
    Nat → Nat → List K
  | 0, _ => []
  | fuel + 1, i =>
    if i + 7 < allBytes.length then
      let doubleBytes := (List.range 8).map (fun j => allBytes.getD (i + j) 0)
      match bytesToDouble K doubleBytes with
      | Double.finite value =>
        if |value| < 10000000000 then value :: convertLoop allBytes fuel (i + 8)
        else convertLoop allBytes fuel (i + 8)
      | Double.nonFinite => convertLoop allBytes fuel (i + 8)
    else []

/-- The test of the byte-to-double loop on one decoded value:
`std::isfinite(value) && std::abs(value) < 1e10`; the value when it passes. -/
def keepValue {K : Type} [LinearOrderedField K] : Double K → Option K
  | Double.finite value => if |value| < 10000000000 then some value else none
  | Double.nonFinite => none

/-- The values `parseIDAFormat` leaves in `m_rawCoeffs` for the bytes `allBytes`.  The loop
index grows by 8 each round, so `allBytes.length` rounds are never used up. -/
def keptValues (K : Type) [LinearOrderedField K] (allBytes : List Nat) : List K :=
  convertLoop allBytes allBytes.length 0

/-- A stage loop of `parseIDAFormat` (`for (i = start; i + 4 < limit; i += 5)`) run from
index `i` for at most `fuel` iterations: the stages appended, those that pass the range
check. -/
def stageLoop {K : Type} [LinearOrderedField K] (raw : List K) (limit : Nat) :
    Nat → Nat → List (FilterCoeffs K)
  | 0, _ => []
  | fuel + 1, i =>
    if i + 4 < limit then
      let fc : FilterCoeffs K :=
        { b0 := raw.getD i 0
          b1 := raw.getD (i + 1) 0
          b2 := raw.getD (i + 2) 0
          a1 := raw.getD (i + 3) 0
          a2 := raw.getD (i + 4) 0 }
      if fc.Stable then fc :: stageLoop raw limit fuel (i + 5)
      else stageLoop raw limit fuel (i + 5)
    else []

/-- The list `preCoeffs` of `parseIDAFormat`: the loop from 0 up to `size / 2`. -/
def parsedPre {K : Type} [LinearOrderedField K] (raw : List K) : List (FilterCoeffs K) :=
  stageLoop raw (raw.length / 2) (raw.length / 2) 0

/-- The list `postCoeffs` of `parseIDAFormat`: the loop from `offset = size / 2` up to
`size`. -/
def parsedPost {K : Type} [LinearOrderedField K] (raw : List K) : List (FilterCoeffs K) :=
  stageLoop raw raw.length raw.length (raw.length / 2)

/-- The body of the `for (int rate : rates)` loop of `parseIDAFormat`. -/
def storeParsed {K : Type} (preCoeffs postCoeffs : List (FilterCoeffs K))
    (q : Parameters K) (rate : Int) : Parameters K :=
  let q1 :=
    if !preCoeffs.isEmpty then
      { q with m_preFilterCoeffs := q.m_preFilterCoeffs.insert rate preCoeffs }
    else q
  if !postCoeffs.isEmpty then
    { q1 with m_postFilterCoeffs := q1.m_postFilterCoeffs.insert rate postCoeffs }
  else q1

/-- `Parameters::parseIDAFormat`, from the point where the bytes of the `DCB` lines of
`content` have been collected in `allBytes` (the text scanning that produces them is not
modelled): the returned flag and the object afterwards. -/
def parseIDAFormat {K : Type} [LinearOrderedField K] (p : Parameters K)
    (allBytes : List Nat) : Bool × Parameters K :=
  let p1 := { p with m_rawCoeffs := [] }
  if allBytes.isEmpty then (false, p1)
  else
    let raw := keptValues K allBytes
    let p2 := { p1 with m_rawCoeffs := raw }
    let p3 :=
      if raw.length ≥ 30 then
        let preCoeffs := parsedPre raw
        let postCoeffs := parsedPost raw
        if !preCoeffs.isEmpty || !postCoeffs.isEmpty then
          rates.foldl (storeParsed preCoeffs postCoeffs) p2
        else p2
      else p2
    (!raw.isEmpty, p3)

/-- `Parameters::loadFromFile`: `file` is `none` when the file cannot be opened, else the
bytes of the `DCB` lines of its content. -/
def loadFromFile {K : Type} [LinearOrderedField K] (p : Parameters K)
    (file : Option (List Nat)) : Bool × Parameters K :=
  match file with
  | none => (false, p)
  | some allBytes =>
    let r := p.parseIDAFormat allBytes
    if r.1 then (true, { r.2 with m_loaded := true })
    else (false, r.2)

/-- `Parameters::getPreFilterCoeffs`. -/
def getPreFilterCoeffs {K : Type} (p : Parameters K) (sampleRate : Int) :
    List (FilterCoeffs K) :=
  if p.m_preFilterCoeffs.contains sampleRate then p.m_preFilterCoeffs.value sampleRate []
  else if p.m_preFilterCoeffs.contains 48000 then p.m_preFilterCoeffs.value 48000 []
  else if p.m_preFilterCoeffs.isEmpty then [] else p.m_preFilterCoeffs.first []

/-- `Parameters::getPostFilterCoeffs`. -/
def getPostFilterCoeffs {K : Type} (p : Parameters K) (sampleRate : Int) :
    List (FilterCoeffs K) :=
  if p.m_postFilterCoeffs.contains sampleRate then p.m_postFilterCoeffs.value sampleRate []
  else if p.m_postFilterCoeffs.contains 48000 then p.m_postFilterCoeffs.value 48000 []
  else if p.m_postFilterCoeffs.isEmpty then [] else p.m_postFilterCoeffs.first []

/-- The object after a sequence of `loadFromFile` calls, made in list order. -/
def runLoads {K : Type} [LinearOrderedField K] (p : Parameters K)
    (loads : List (Option (List Nat))) : Parameters K :=
  loads.foldl (fun q file => (q.loadFromFile file).2) p

/-- States reachable from construction by loads with arbitrary content. -/
def Reachable {K : Type} [LinearOrderedField K] (p : Parameters K) : Prop :=
  ∃ loads : List (Option (List Nat)), p = runLoads (construct K) loads

/-- Every stage of every table of a map passes the range check. -/
def AllStable {K : Type} [LinearOrderedField K] (m : QMap (List (FilterCoeffs K))) : Prop :=
  ∀ e ∈ m, ∀ fc ∈ e.2, fc.Stable

/-- The stages of a half as the specification words them: group the values into
consecutive 5-tuples `(b0, b1, b2, a1, a2)`, drop an incomplete last group, keep the tuples
with `|a1| < 2.0` and `|a2| < 1.0`. -/
def stableStages {K : Type} [LinearOrderedField K] : List K → List (FilterCoeffs K)
  | b0 :: b1 :: b2 :: a1 :: a2 :: rest =>
    if (FilterCoeffs.mk b0 b1 b2 a1 a2).Stable then
      FilterCoeffs.mk b0 b1 b2 a1 a2 :: stableStages rest
    else stableStages rest
  | _ => []

/-- Candidate `k` of a half that starts at index `start` of the kept values `v`: the tuple
`(v[start+5k], ..., v[start+5k+4])` read as `(b0, b1, b2, a1, a2)`. -/
def candidateAt {K : Type} [Zero K] (v : List K) (start k : Nat) : FilterCoeffs K :=
  { b0 := v.getD (start + 5 * k) 0
    b1 := v.getD (start + 5 * k + 1) 0
    b2 := v.getD (start + 5 * k + 2) 0
    a1 := v.getD (start + 5 * k + 3) 0
    a2 := v.getD (start + 5 * k + 4) 0 }

/-- The stable candidates of the half from `start` up to `limit`, in order: candidate `k`
for every `k` with `start + 5k + 4 < limit` (such `k` are below `limit`), kept when
`|a1| < 2.0` and `|a2| < 1.0`. -/
def stableCandidates {K : Type} [LinearOrderedField K] (v : List K) (start limit : Nat) :
    List (FilterCoeffs K) :=
  (((List.range limit).filter fun k => decide (start + 5 * k + 4 < limit)).map
    (candidateAt v start)).filter fun fc => decide fc.Stable

/-- The 8 bytes of the double 2.0 (`0x4000000000000000`), least significant first. -/
def bytesOfTwo : List Nat := [0, 0, 0, 0, 0, 0, 0, 64]

/-- The bytes of 30 doubles: fifteen times 2.0, then fifteen times 0.0.  Every 5-tuple of
the first half has `a1 = 2.0`; every 5-tuple of the second half is all zero. -/
def bytesUnstablePre : List Nat :=
  (List.replicate 15 bytesOfTwo ++ List.replicate 15 (List.replicate 8 0)).flatten

/-- The bytes of 30 doubles 0.0. -/
def bytesAllZero : List Nat := (List.replicate 30 (List.replicate 8 0)).flatten

/-- The bytes of a single double 0.0. -/
def bytesOneZero : List Nat := (List.replicate 1 (List.replicate 8 0)).flatten

/-- The supported rate nearest to `r` by absolute difference, as the specification words
the fall-back; of two equally near rates the lower. -/
def nearestSupported (r : Int) : Int :=
  (rates.foldl (nearerStep id r) (44100, |r - 44100|)).1

/-- Both maps hold one table under each of the six supported rates and nothing else: what
construction and every load leave behind. -/
def Uniform {K : Type} (p : Parameters K) : Prop :=
  ∃ tpre tpost : List (FilterCoeffs K),
    p.m_preFilterCoeffs = rates.map (fun rate => (rate, tpre)) ∧
    p.m_postFilterCoeffs = rates.map (fun rate => (rate, tpost))

/-- Both maps hold one non-empty table under each of the six supported rates and nothing
else. -/
def Populated {K : Type} (p : Parameters K) : Prop :=
  ∃ tpre tpost : List (FilterCoeffs K), tpre ≠ [] ∧ tpost ≠ [] ∧
    p.m_preFilterCoeffs = rates.map (fun rate => (rate, tpre)) ∧
    p.m_postFilterCoeffs = rates.map (fun rate => (rate, tpost))

/-- The store after two loads: a file of thirty doubles 0.0, then a file that cannot be
opened. -/
def sampleLoaded : Parameters ℚ :=
  runLoads (construct ℚ) [some bytesAllZero, none]

/-- A store whose pre-filter map has the keys 44100 and 88200 only and whose post-filter
map is empty: a request for 96000 finds neither 96000 nor 48000. -/
def sampleSparse : Parameters ℚ :=
  { m_preFilterCoeffs := [(44100, defaultPreCoeffs ℚ), (88200, defaultPostCoeffs ℚ)]
    m_postFilterCoeffs := []
    m_rawCoeffs := []
    m_tubeBias := 0
    m_tubeDrive := 0.5
    m_tubeAsymmetry := 0.1
    m_loaded := false }

/-- The load replaced stored tables: at least 30 values were kept and at least one stable
5-tuple resulted (in either half), the condition under which `parseIDAFormat` runs its
`for (int rate : rates)` loop. -/
def Replaces (K : Type) [LinearOrderedField K] (allBytes : List Nat) : Prop :=
  30 ≤ (keptValues K allBytes).length ∧
    (stableStages ((keptValues K allBytes).take ((keptValues K allBytes).length / 2)) ≠ []
      ∨ stableStages ((keptValues K allBytes).drop ((keptValues K allBytes).length / 2)) ≠ [])

end Parameters

/-! ## FilterBank -/

/-- `FilterBank::BiquadState`: the coefficients of one stage and its delay state for the
left and the right channel. -/
structure BiquadState (K : Type) where
  b0 : K
  b1 : K
  b2 : K
  a1 : K
  a2 : K
  z1L : K
  z2L : K
  z1R : K
  z2R : K

/-- `BiquadState::reset`. -/
def BiquadState.reset {K : Type} [Zero K] (state : BiquadState K) : BiquadState K :=
  { state with z1L := 0, z2L := 0, z1R := 0, z2R := 0 }

/-- What the left channel sees of a stage: coefficients and `(z1L, z2L)`. -/
def BiquadState.leftPart {K : Type} (state : BiquadState K) : K × K × K × K × K × K × K :=
  (state.b0, state.b1, state.b2, state.a1, state.a2, state.z1L, state.z2L)

/-- What the right channel sees of a stage: coefficients and `(z1R, z2R)`. -/
def BiquadState.rightPart {K : Type} (state : BiquadState K) : K × K × K × K × K × K × K :=
  (state.b0, state.b1, state.b2, state.a1, state.a2, state.z1R, state.z2R)

/-- Fields of `class FilterBank`. -/
structure FilterBank (K : Type) where
  m_stages : List (BiquadState K)

namespace FilterBank

/-- `FilterBank::FilterBank()`. -/
def construct (K : Type) : FilterBank K := ⟨[]⟩

/-- `FilterBank::setCoefficients`: one stage per coefficient set, in order, each with its
state reset. -/
def setCoefficients {K : Type} [Zero K] (_fb : FilterBank K) (coeffs : List (FilterCoeffs K)) :
    FilterBank K :=
  ⟨coeffs.map fun fc =>
    BiquadState.reset
      { b0 := fc.b0, b1 := fc.b1, b2 := fc.b2, a1 := fc.a1, a2 := fc.a2
        z1L := 0, z2L := 0, z1R := 0, z2R := 0 }⟩

/-- `FilterBank::getStageCount`. -/
def getStageCount {K : Type} (fb : FilterBank K) : Nat := fb.m_stages.length

/-- `FilterBank::reset`. -/
def reset {K : Type} [Zero K] (fb : FilterBank K) : FilterBank K :=
  ⟨fb.m_stages.map BiquadState.reset⟩

/-- `FilterBank::processBiquadSample(state, input, z1, z2)`: the returned output and the
values left in the two references `z1`, `z2`. -/
def processBiquadSample {K : Type} [Field K] (state : BiquadState K) (input z1 z2 : K) :
    K × K × K :=
  let output := state.b0 * input + z1
  let z1' := state.b1 * input - state.a1 * output + z2
  let z2' := state.b2 * input - state.a2 * output
  (output, z1', z2')

/-- One round of `for (auto& stage : m_stages)` in `processMono`: the running sample and
the stages passed so far, with the stage just passed updated in place. -/
def monoStage {K : Type} [Field K] (acc : K × List (BiquadState K)) (stage : BiquadState K) :
    K × List (BiquadState K) :=
  let r := processBiquadSample stage acc.1 stage.z1L stage.z2L
  (r.1, acc.2 ++ [{ stage with z1L := r.2.1, z2L := r.2.2 }])

/-- Iteration `i` of the sample loop of `processMono` on the stages and the buffer. -/
def monoSample {K : Type} [Field K] (acc : List (BiquadState K) × (Nat → K)) (i : Nat) :
    List (BiquadState K) × (Nat → K) :=
  let sample := acc.2 i
  let r := acc.1.foldl monoStage (sample, [])
  (r.2, Function.update acc.2 i r.1)

/-- The first `n` iterations of the sample loop of `processMono`. -/
def monoLoop {K : Type} [Field K] (acc : List (BiquadState K) × (Nat → K)) :
    Nat → List (BiquadState K) × (Nat → K)
  | 0 => acc
  | n + 1 => monoSample (monoLoop acc n) n

/-- `FilterBank::processMono(buffer, numSamples)`: the bank and the buffer afterwards. -/
def processMono {K : Type} [Field K] (fb : FilterBank K) (buffer : Nat → K)
    (numSamples : Int) : FilterBank K × (Nat → K) :=
  if fb.m_stages.isEmpty then (fb, buffer)
  else
    let r := monoLoop (fb.m_stages, buffer) numSamples.toNat
    (⟨r.1⟩, r.2)

/-- One round of `for (auto& stage : m_stages)` in `process`: the two running samples and
the stages passed so far. -/
def stereoStage {K : Type} [Field K] (acc : K × K × List (BiquadState K))
    (stage : BiquadState K) : K × K × List (BiquadState K) :=
  let rL := processBiquadSample stage acc.1 stage.z1L stage.z2L
  let rR := processBiquadSample stage acc.2.1 stage.z1R stage.z2R
  (rL.1, rR.1,
    acc.2.2 ++ [{ stage with z1L := rL.2.1, z2L := rL.2.2, z1R := rR.2.1, z2R := rR.2.2 }])

/-- Iteration `i` of the sample loop of `process` on the stages and the two buffers. -/
def stereoSample {K : Type} [Field K]
    (acc : List (BiquadState K) × (Nat → K) × (Nat → K)) (i : Nat) :
    List (BiquadState K) × (Nat → K) × (Nat → K) :=
  let sampleL := acc.2.1 i
  let sampleR := acc.2.2 i
  let r := acc.1.foldl stereoStage (sampleL, sampleR, [])
  (r.2.2, Function.update acc.2.1 i r.1, Function.update acc.2.2 i r.2.1)

/-- The first `n` iterations of the sample loop of `process`. -/
def stereoLoop {K : Type} [Field K] (acc : List (BiquadState K) × (Nat → K) × (Nat → K)) :
    Nat → List (BiquadState K) × (Nat → K) × (Nat → K)
  | 0 => acc
  | n + 1 => stereoSample (stereoLoop acc n) n

/-- `FilterBank::process(left, right, numSamples)`: the bank and the two buffers
afterwards.  The two buffers are distinct objects. -/
def process {K : Type} [Field K] (fb : FilterBank K) (left right : Nat → K)
    (numSamples : Int) : FilterBank K × (Nat → K) × (Nat → K) :=
  if fb.m_stages.isEmpty then (fb, left, right)
  else
    let r := stereoLoop (fb.m_stages, left, right) numSamples.toNat
    (⟨r.1⟩, r.2.1, r.2.2)

/-- The cascade as the specification words it, for one sample `x`: the first stage yields
`y = b0*x + z1` and its new state `z1 = b1*x - a1*y + z2`, `z2 = b2*x - a2*y`; `y` is the
input of the next stage; the output of the last stage is the result. -/
def cascade {K : Type} [Field K] : List (BiquadState K) → K → K × List (BiquadState K)
  | [], x => (x, [])
  | stage :: rest, x =>
    let y := stage.b0 * x + stage.z1L
    let stage' :=
      { stage with
        z1L := stage.b1 * x - stage.a1 * y + stage.z2L
        z2L := stage.b2 * x - stage.a2 * y }
    ((cascade rest y).1, stage' :: (cascade rest y).2)

/-- The term `f[k - d]` of a difference equation, taken as 0 when the index is negative. -/
def delayed {K : Type} [Zero K] (f : Nat → K) (k d : Nat) : K :=
  if d ≤ k then f (k - d) else 0

/-- A coefficient tuple over the rationals, for evaluating examples. -/
def sampleCoeffs : FilterCoeffs ℚ :=
  { b0 := 1, b1 := 2, b2 := 3, a1 := 1 / 2, a2 := 1 / 4 }

/-- The input 1, 2, 3, ... over the rationals. -/
def sampleRamp : Nat → ℚ := fun i => (i : ℚ) + 1

/-- A stage with its two channel states exchanged. -/
def swapChannels {K : Type} (stage : BiquadState K) : BiquadState K :=
  { stage with z1L := stage.z1R, z2L := stage.z2R, z1R := stage.z1L, z2R := stage.z2L }

/-- A two-stage bank with non-zero state in both channels, over the rationals. -/
def sampleBank : FilterBank ℚ :=
  ⟨[ { b0 := 1, b1 := 2, b2 := 3, a1 := 1 / 2, a2 := 1 / 4
       z1L := 1, z2L := -1, z1R := 5, z2R := 7 }
   , { b0 := 2, b1 := 0, b2 := 1, a1 := -1 / 2, a2 := 1 / 8
       z1L := 0, z2L := 3, z1R := -2, z2R := 1 } ]⟩

end FilterBank

/-! ## AudioEngine -/

/-- The configuration and state fields of `class AudioEngine` that its setters read or
write.  The processor behind the pointer `m_dspProcessor` is carried inside (`none` is the
null pointer); the PortAudio stream handle, the latencies, the level meters and the
visualisation buffers are left out. -/
structure AudioEngine (K : Type) where
  m_dspProcessor : Option (DSPProcessor K)
  m_inputDeviceIndex : Int
  m_outputDeviceIndex : Int
  m_sampleRate : Int
  m_bufferSize : Int
  m_channels : Int
  m_initialized : Bool
  m_running : Bool

namespace AudioEngine

/-- `AudioEngine::AudioEngine()`: the member initialisers. -/
def construct (K : Type) : AudioEngine K :=
  { m_dspProcessor := none
    m_inputDeviceIndex := -1
    m_outputDeviceIndex := -1
    m_sampleRate := 48000
    m_bufferSize := 512
    m_channels := 2
    m_initialized := false
    m_running := false }

/-- `AudioEngine::setSampleRate`. -/
def setSampleRate {K : Type} [Field K] (e : AudioEngine K) (rate : Int) : AudioEngine K :=
  if e.m_running then e
  else
    { e with
      m_sampleRate := rate
      m_dspProcessor := e.m_dspProcessor.map fun d => d.setSampleRate rate }

/-- `AudioEngine::setBufferSize`. -/
def setBufferSize {K : Type} (e : AudioEngine K) (frames : Int) : AudioEngine K :=
  if e.m_running then e else { e with m_bufferSize := frames }

/-- `AudioEngine::setChannels`: the count is clamped to `[1, 2]`. -/
def setChannels {K : Type} (e : AudioEngine K) (channels : Int) : AudioEngine K :=
  if e.m_running then e else { e with m_channels := max 1 (min channels 2) }

/-- `AudioEngine::setDSPProcessor`. -/
def setDSPProcessor {K : Type} [Field K] (e : AudioEngine K)
    (processor : Option (DSPProcessor K)) : AudioEngine K :=
  { e with m_dspProcessor := processor.map fun d => d.setSampleRate e.m_sampleRate }

/-- A running engine at 48000 Hz with a freshly constructed processor attached. -/
def sampleRunning : AudioEngine ℚ :=
  { (construct ℚ) with
    m_dspProcessor := some (DSPProcessor.construct ℚ)
    m_initialized := true
    m_running := true }

end AudioEngine

/-! ## Lemmas: AudioBuffer -/

namespace AudioBuffer

set_option linter.unusedSectionVars false

variable {α : Type} [Zero α]

theorem sampleCount_of_nonneg (frames : Nat) (channels : Nat)
    (h : frames * channels < SIZE_MOD) (hc : channels < SIZE_MOD) :
    sampleCount frames (channels : Int) = frames * channels := by
  unfold sampleCount
  have h1 : ((channels : Int) % (SIZE_MOD : Int)).toNat = channels := by
    rw [Int.emod_eq_of_lt (by positivity) (by exact_mod_cast hc)]
    simp
  rw [h1, Nat.mod_eq_of_lt h]

theorem writeLoop_length (buf : List α) (cap w : Nat) (data : Nat → α) (n : Nat) :
    (writeLoop buf cap w data n).length = buf.length := by
  induction n with
  | zero => rfl
  | succ n ih => simp [writeLoop, ih]

theorem wellFormed_construct (c : Nat) (hc : 1 ≤ c) :
    WellFormed c (construct c : AudioBuffer α) :=
  ⟨rfl, by simp [construct], hc, hc⟩

theorem wellFormed_write {c : Nat} {s : AudioBuffer α} (h : WellFormed c s)
    (data : Nat → α) (frames : Nat) (channels : Int) :
    WellFormed c (s.write data frames channels).2 := by
  unfold write
  by_cases hlt : s.availableWrite < sampleCount frames channels
  · simpa [hlt] using h
  · simp only [hlt, if_false]
    refine ⟨h.cap, ?_, h.rd, ?_⟩
    · simp [writeLoop_length, h.len]
    · simp only [h.cap]
      exact Nat.mod_lt _ (lt_of_le_of_lt (Nat.zero_le _) h.rd)

theorem wellFormed_read {c : Nat} {s : AudioBuffer α} (h : WellFormed c s)
    (dest : Nat → α) (frames : Nat) (channels : Int) :
    WellFormed c (s.read dest frames channels).2.1 := by
  unfold read
  by_cases hlt : s.availableRead < sampleCount frames channels
  · simpa [hlt] using h
  · simp only [hlt, if_false]
    refine ⟨h.cap, h.len, ?_, h.wr⟩
    simp only [h.cap]
    exact Nat.mod_lt _ (lt_of_le_of_lt (Nat.zero_le _) h.rd)

theorem wellFormed_clear {c : Nat} {s : AudioBuffer α} (h : WellFormed c s) :
    WellFormed c s.clear :=
  ⟨h.cap, h.len, lt_of_le_of_lt (Nat.zero_le _) h.rd, lt_of_le_of_lt (Nat.zero_le _) h.rd⟩

theorem wellFormed_call {c : Nat} {s : AudioBuffer α} (h : WellFormed c s)
    (k : BufferCall α) : WellFormed c (s.call k) := by
  cases k with
  | write data frames channels => exact wellFormed_write h data frames channels
  | read dest frames channels => exact wellFormed_read h dest frames channels
  | clear => exact wellFormed_clear h

theorem wellFormed_run {c : Nat} (calls : List (BufferCall α)) :
    ∀ {s : AudioBuffer α}, WellFormed c s → WellFormed c (s.run calls) := by
  induction calls with
  | nil => intro s h; exact h
  | cons k ks ih => intro s h; exact ih (wellFormed_call h k)

theorem wellFormed_of_reachable {c : Nat} (hc : 1 ≤ c) {s : AudioBuffer α}
    (h : Reachable c s) : WellFormed c s := by
  obtain ⟨calls, rfl⟩ := h
  exact wellFormed_run calls (wellFormed_construct c hc)

theorem availableRead_le {c : Nat} {s : AudioBuffer α} (h : WellFormed c s) :
    s.availableRead ≤ c - 1 := by
  have h1 := h.cap
  have h2 := h.rd
  have h3 := h.wr
  unfold availableRead
  simp only [h1]
  split <;> omega

theorem available_sum {c : Nat} {s : AudioBuffer α} (h : WellFormed c s) :
    s.availableRead + s.availableWrite = c - 1 := by
  have h0 := availableRead_le h
  have h1 := h.cap
  have h2 := h.rd
  unfold availableWrite
  omega

theorem mod_index_ne {c p i n : Nat} (hin : i < n) (hn : n < c) :
    (p + i) % c ≠ (p + n) % c := by
  intro h
  have h1 : i % c = n % c := Nat.ModEq.add_left_cancel' p h
  rw [Nat.mod_eq_of_lt (lt_trans hin hn), Nat.mod_eq_of_lt hn] at h1
  omega

theorem writeLoop_getD (buf : List α) (c p : Nat) (data : Nat → α) (hlen : buf.length = c) :
    ∀ n, n < c → ∀ i, i < n →
      (writeLoop buf c p data n).getD ((p + i) % c) 0 = data i := by
  intro n
  induction n with
  | zero => intro _ i hi; exact absurd hi (Nat.not_lt_zero i)
  | succ n ih =>
    intro hn i hi
    have hc : 0 < c := by omega
    have hidx : (p + n) % c < (writeLoop buf c p data n).length := by
      rw [writeLoop_length, hlen]; exact Nat.mod_lt _ hc
    simp only [writeLoop, List.getD_eq_getElem?_getD]
    by_cases hin : i = n
    · subst hin
      rw [List.getElem?_set_self hidx]
      rfl
    · have hlt : i < n := by omega
      rw [List.getElem?_set_ne (Ne.symm (mod_index_ne hlt (by omega)))]
      rw [← List.getD_eq_getElem?_getD]
      exact ih (by omega) i hlt

theorem readLoop_lt (buf : List α) (c r : Nat) (dest : Nat → α) :
    ∀ n i, i < n → readLoop buf c r dest n i = buf.getD ((r + i) % c) 0 := by
  intro n
  induction n with
  | zero => intro i hi; exact absurd hi (Nat.not_lt_zero i)
  | succ n ih =>
    intro i hi
    simp only [readLoop]
    by_cases hin : i = n
    · subst hin; simp
    · rw [Function.update_noteq hin]
      exact ih i (by omega)

theorem availableRead_eq (s : AudioBuffer α) (c r m : Nat) (hcap : s.m_capacity = c)
    (hr : s.m_readPos = r) (hw : s.m_writePos = (r + m) % c) (hrc : r < c) (hm : m < c) :
    s.availableRead = m := by
  unfold availableRead
  simp only [hcap, hr, hw]
  by_cases h : r + m < c
  · rw [Nat.mod_eq_of_lt h]
    split <;> omega
  · have he : (r + m) % c = r + m - c := by
      rw [Nat.mod_eq_sub_mod (by omega), Nat.mod_eq_of_lt (by omega)]
    rw [he]
    split <;> omega

theorem readLoop_ge (buf : List α) (c r : Nat) (dest : Nat → α) :
    ∀ n i, n ≤ i → readLoop buf c r dest n i = dest i := by
  intro n
  induction n with
  | zero => intro i _; rfl
  | succ n ih =>
    intro i hi
    simp only [readLoop]
    rw [Function.update_noteq (by omega)]
    exact ih i (by omega)

theorem sampleCount_eq (frames n : Nat) (channels : Int)
    (h : (frames : Int) * channels = (n : Int)) (hn : n < SIZE_MOD) :
    sampleCount frames channels = n := by
  unfold sampleCount
  have hM : (0 : Int) < (SIZE_MOD : Int) := by unfold SIZE_MOD; norm_num
  have h1 : (((channels % (SIZE_MOD : Int)).toNat : Nat) : Int) = channels % (SIZE_MOD : Int) :=
    Int.toNat_of_nonneg (Int.emod_nonneg _ (ne_of_gt hM))
  apply Int.ofNat_inj.mp
  push_cast
  rw [h1, Int.mul_emod, Int.emod_emod, ← Int.mul_emod, h]
  exact Int.emod_eq_of_lt (Int.ofNat_nonneg n) (by exact_mod_cast hn)

/-- Write then read on an empty buffer, counted in the `size_t` value the code computes. -/
theorem write_then_read_count (s : AudioBuffer α) (c p : Nat)
    (hc : 1 ≤ c) (hcap : s.m_capacity = c) (hlen : s.m_buffer.length = c)
    (hr : s.m_readPos = p) (hw : s.m_writePos = p) (hp : p < c)
    (data dest : Nat → α) (frames : Nat) (channels : Int)
    (hn : sampleCount frames channels ≤ c - 1) :
    (s.write data frames channels).1 = true ∧
    ((s.write data frames channels).2.read dest frames channels).1 = true ∧
    (∀ i, i < sampleCount frames channels →
      ((s.write data frames channels).2.read dest frames channels).2.2 i = data i) ∧
    (∀ i, sampleCount frames channels ≤ i →
      ((s.write data frames channels).2.read dest frames channels).2.2 i = dest i) := by
  have hAR : s.availableRead = 0 := by simp [availableRead, hr, hw]
  have hAW : ¬ s.availableWrite < sampleCount frames channels := by
    simp only [availableWrite, hAR, hcap]; omega
  have hwrite : s.write data frames channels = (true,
      { s with
        m_buffer := writeLoop s.m_buffer s.m_capacity s.m_writePos data
          (sampleCount frames channels)
        m_writePos := (s.m_writePos + sampleCount frames channels) % s.m_capacity }) := by
    simp only [write, hAW, if_false]
  rw [hwrite]
  have hmod : (p + sampleCount frames channels) % c < c := Nat.mod_lt _ (by omega)
  have hAR2 : ¬ availableRead
      ({ s with
        m_buffer := writeLoop s.m_buffer s.m_capacity s.m_writePos data
          (sampleCount frames channels)
        m_writePos := (s.m_writePos + sampleCount frames channels) % s.m_capacity } :
        AudioBuffer α) < sampleCount frames channels := by
    simp only [availableRead, hr, hw, hcap]
    by_cases hwrap : p + sampleCount frames channels < c
    · rw [Nat.mod_eq_of_lt hwrap]
      simp
    · have hsub : (p + sampleCount frames channels) % c = p + sampleCount frames channels - c := by
        rw [Nat.mod_eq_sub_mod (by omega), Nat.mod_eq_of_lt (by omega)]
      rw [hsub]
      split <;> omega
  refine ⟨rfl, ?_, ?_, ?_⟩
  · simp only [read, hAR2, if_false]
  · intro i hi
    simp only [read, hAR2, if_false]
    rw [readLoop_lt _ _ _ _ _ i hi]
    simp only [hcap, hr, hw]
    exact writeLoop_getD s.m_buffer c p data hlen _ (by omega) i hi
  · intro i hi
    simp only [read, hAR2, if_false]
    exact readLoop_ge _ _ _ _ _ i hi

theorem sampleStream_trace :
    (trace 4 sampleStream).written = [1, 2, 3, 4] ∧
    (trace 4 sampleStream).readOut = [1, 2, 3] ∧
    stored (trace 4 sampleStream).buffer = [4] ∧
    (trace 4 sampleStream).buffer.m_writePos = 0 := by
  refine ⟨?_, ?_, ?_, ?_⟩ <;> decide

end AudioBuffer

/-! ## Lemmas: TubeEmulator and DSPProcessor -/

namespace TubeEmulator

theorem shapeSample_zero {K : Type} [LinearOrderedField K] (M : MathFns K)
    (hlog : M.log 1 = 0) : shapeSample M 0 = 0 := by
  simp [shapeSample, hlog]

/-- The value of `shapeSample` under the probe, for a value `c` of the logarithm that
takes the first branch. -/
theorem shapeSample_logProbe {K : Type} [LinearOrderedField K] (x c : K)
    (h : |x * 0.75 * 0.9| < x * 0.75 * 0.85 - c * 0.15) :
    shapeSample (logProbe (logArgument x) c) x =
      |x * 0.75 * 0.9| + (x * 0.75 * 0.85 - c * 0.15 - |x * 0.75 * 0.9|) / 2 := by
  have hlog : (logProbe (logArgument x) c).log (1 - x * 0.75) = c := by
    simp [logProbe, logArgument]
  have hexp : ∀ y, (logProbe (logArgument x) c).exp y = 1 := fun _ => rfl
  simp only [shapeSample, hlog, hexp, if_pos h]
  norm_num

theorem shapeSample_logProbe_branch {K : Type} [LinearOrderedField K] (x c : K)
    (hc : c ≤ -(10 * |x|) - 1) :
    |x * 0.75 * 0.9| < x * 0.75 * 0.85 - c * 0.15 := by
  have habs : |x * 0.75 * 0.9| = |x| * 0.675 := by
    rw [abs_mul, abs_mul, abs_of_pos (by norm_num : (0 : K) < 0.75),
      abs_of_pos (by norm_num : (0 : K) < 0.9)]
    ring
  have h1 := neg_abs_le x
  have h2 := abs_nonneg x
  rw [habs]
  norm_num at hc ⊢
  linarith

theorem processFilter_zero {K : Type} [Field K] (c : Coefficients K) :
    processFilter c 0 (FilterState.zero K) = (0, FilterState.zero K) := by
  simp only [processFilter, FilterState.zero, mul_zero, add_zero, sub_zero]
  refine Prod.ext rfl ?_
  show (⟨_⟩ : FilterState K) = ⟨_⟩
  congr 1
  funext i
  fin_cases i <;> rfl

theorem processLoop_static {K : Type} [LinearOrderedField K] (M : MathFns K) (g : K)
    (acc : TubeEmulator K × (Nat → K) × (Nat → K)) :
    ∀ n, (processLoop M g acc n).1.m_coeffs = acc.1.m_coeffs ∧
      (processLoop M g acc n).1.m_outputGainDb = acc.1.m_outputGainDb ∧
      (processLoop M g acc n).1.m_sampleRate = acc.1.m_sampleRate := by
  intro n
  induction n with
  | zero => exact ⟨rfl, rfl, rfl⟩
  | succ n ih => simpa [processLoop, processStep] using ih

theorem processMonoLoop_static {K : Type} [LinearOrderedField K] (M : MathFns K) (g : K)
    (acc : TubeEmulator K × (Nat → K)) :
    ∀ n, (processMonoLoop M g acc n).1.m_coeffs = acc.1.m_coeffs ∧
      (processMonoLoop M g acc n).1.m_outputGainDb = acc.1.m_outputGainDb ∧
      (processMonoLoop M g acc n).1.m_sampleRate = acc.1.m_sampleRate := by
  intro n
  induction n with
  | zero => exact ⟨rfl, rfl, rfl⟩
  | succ n ih => simpa [processMonoLoop, processMonoStep] using ih

theorem processLoop_silence {K : Type} [LinearOrderedField K] (M : MathFns K) (g : K)
    (hlog : M.log 1 = 0) (t : TubeEmulator K)
    (hL : t.m_stateL = FilterState.zero K) (hR : t.m_stateR = FilterState.zero K) :
    ∀ n, processLoop M g (t, fun _ => 0, fun _ => 0) n = (t, fun _ => 0, fun _ => 0) := by
  intro n
  induction n with
  | zero => rfl
  | succ n ih =>
    simp only [processLoop, ih, processStep, shapeSample_zero M hlog, hL, hR,
      processFilter_zero, zero_mul, Function.update_eq_self_iff]
    cases t
    simp_all

theorem processMonoLoop_silence {K : Type} [LinearOrderedField K] (M : MathFns K) (g : K)
    (hlog : M.log 1 = 0) (t : TubeEmulator K) (hL : t.m_stateL = FilterState.zero K)
    (buffer : Nat → K) (N : Nat) (hbuf : ∀ j, j < N → buffer j = 0) :
    ∀ n, n ≤ N → processMonoLoop M g (t, buffer) n = (t, buffer) := by
  intro n
  induction n with
  | zero => intro _; rfl
  | succ n ih =>
    intro hn
    simp only [processMonoLoop, ih (by omega), processMonoStep, hbuf n (by omega),
      shapeSample_zero M hlog, hL, processFilter_zero, zero_mul]
    rw [← hbuf n (by omega), Function.update_eq_self]
    cases t
    simp_all

theorem processMonoLoop_untouched {K : Type} [LinearOrderedField K] (M : MathFns K) (g : K)
    (acc : TubeEmulator K × (Nat → K)) :
    ∀ n j, n ≤ j → (processMonoLoop M g acc n).2 j = acc.2 j := by
  intro n
  induction n with
  | zero => intro j _; rfl
  | succ n ih =>
    intro j hj
    simp only [processMonoLoop, processMonoStep]
    rw [Function.update_noteq (by omega)]
    exact ih j (by omega)

theorem processMonoLoop_settled {K : Type} [LinearOrderedField K] (M : MathFns K) (g : K)
    (acc : TubeEmulator K × (Nat → K)) :
    ∀ n i, i < n → (processMonoLoop M g acc n).2 i = (processMonoLoop M g acc (i + 1)).2 i := by
  intro n
  induction n with
  | zero => intro i hi; exact absurd hi (Nat.not_lt_zero i)
  | succ n ih =>
    intro i hi
    by_cases hin : i = n
    · subst hin; rfl
    · have hlt : i < n := by omega
      rw [← ih i hlt]
      simp only [processMonoLoop, processMonoStep]
      rw [Function.update_noteq hin]

theorem processMonoLoop_sample {K : Type} [LinearOrderedField K] (M : MathFns K) (g : K)
    (t : TubeEmulator K) (buffer : Nat → K) (n i : Nat) (hi : i < n) :
    (processMonoLoop M g (t, buffer) n).2 i =
      (processFilter t.m_coeffs (shapeSample M (buffer i))
        (processMonoLoop M g (t, buffer) i).1.m_stateL).1 * kOutputScale K * g := by
  rw [processMonoLoop_settled M g (t, buffer) n i hi]
  simp only [processMonoLoop, processMonoStep, Function.update_same]
  rw [processMonoLoop_untouched M g (t, buffer) i i (le_refl _),
    (processMonoLoop_static M g (t, buffer) i).1]

theorem processLoop_untouched {K : Type} [LinearOrderedField K] (M : MathFns K) (g : K)
    (acc : TubeEmulator K × (Nat → K) × (Nat → K)) :
    ∀ n j, n ≤ j → (processLoop M g acc n).2.1 j = acc.2.1 j ∧
      (processLoop M g acc n).2.2 j = acc.2.2 j := by
  intro n
  induction n with
  | zero => intro j _; exact ⟨rfl, rfl⟩
  | succ n ih =>
    intro j hj
    simp only [processLoop, processStep]
    rw [Function.update_noteq (by omega), Function.update_noteq (by omega)]
    exact ih j (by omega)

theorem processLoop_settled {K : Type} [LinearOrderedField K] (M : MathFns K) (g : K)
    (acc : TubeEmulator K × (Nat → K) × (Nat → K)) :
    ∀ n i, i < n → (processLoop M g acc n).2.1 i = (processLoop M g acc (i + 1)).2.1 i ∧
      (processLoop M g acc n).2.2 i = (processLoop M g acc (i + 1)).2.2 i := by
  intro n
  induction n with
  | zero => intro i hi; exact absurd hi (Nat.not_lt_zero i)
  | succ n ih =>
    intro i hi
    by_cases hin : i = n
    · subst hin; exact ⟨rfl, rfl⟩
    · have hlt : i < n := by omega
      rw [← (ih i hlt).1, ← (ih i hlt).2]
      simp only [processLoop, processStep]
      rw [Function.update_noteq hin, Function.update_noteq hin]
      exact ⟨rfl, rfl⟩

theorem processLoop_sample {K : Type} [LinearOrderedField K] (M : MathFns K) (g : K)
    (t : TubeEmulator K) (left right : Nat → K) (n i : Nat) (hi : i < n) :
    (processLoop M g (t, left, right) n).2.1 i =
      (processFilter t.m_coeffs (shapeSample M (left i))
        (processLoop M g (t, left, right) i).1.m_stateL).1 * kOutputScale K * g ∧
    (processLoop M g (t, left, right) n).2.2 i =
      (processFilter t.m_coeffs (shapeSample M (right i))
        (processLoop M g (t, left, right) i).1.m_stateR).1 * kOutputScale K * g := by
  rw [(processLoop_settled M g (t, left, right) n i hi).1,
    (processLoop_settled M g (t, left, right) n i hi).2]
  simp only [processLoop, processStep, Function.update_same]
  rw [(processLoop_untouched M g (t, left, right) i i (le_refl _)).1,
    (processLoop_untouched M g (t, left, right) i i (le_refl _)).2,
    (processLoop_static M g (t, left, right) i).1]
  exact ⟨rfl, rfl⟩

theorem processLoop_congr {K : Type} [LinearOrderedField K] (M : MathFns K) (g : K)
    (t : TubeEmulator K) (l l' r r' : Nat → K) (N : Nat)
    (hl : ∀ i, i < N → l i = l' i) (hr : ∀ i, i < N → r i = r' i) :
    ∀ n, n ≤ N →
      (processLoop M g (t, l, r) n).1 = (processLoop M g (t, l', r') n).1 ∧
      (∀ i, i < N →
        (processLoop M g (t, l, r) n).2.1 i = (processLoop M g (t, l', r') n).2.1 i) ∧
      (∀ i, i < N →
        (processLoop M g (t, l, r) n).2.2 i = (processLoop M g (t, l', r') n).2.2 i) := by
  intro n
  induction n with
  | zero => intro _; exact ⟨rfl, hl, hr⟩
  | succ n ih =>
    intro hn
    obtain ⟨h1, h2, h3⟩ := ih (by omega)
    have e1 := h2 n (by omega)
    have e2 := h3 n (by omega)
    simp only [processLoop, processStep, h1, e1, e2]
    refine ⟨trivial, ?_, ?_⟩
    · intro i hi
      by_cases hin : i = n
      · subst hin; simp
      · rw [Function.update_noteq hin, Function.update_noteq hin]
        exact h2 i hi
    · intro i hi
      by_cases hin : i = n
      · subst hin; simp
      · rw [Function.update_noteq hin, Function.update_noteq hin]
        exact h3 i hi

theorem processMonoLoop_congr {K : Type} [LinearOrderedField K] (M : MathFns K) (g : K)
    (t : TubeEmulator K) (b b' : Nat → K) (N : Nat) (hb : ∀ i, i < N → b i = b' i) :
    ∀ n, n ≤ N →
      (processMonoLoop M g (t, b) n).1 = (processMonoLoop M g (t, b') n).1 ∧
      (∀ i, i < N →
        (processMonoLoop M g (t, b) n).2 i = (processMonoLoop M g (t, b') n).2 i) := by
  intro n
  induction n with
  | zero => intro _; exact ⟨rfl, hb⟩
  | succ n ih =>
    intro hn
    obtain ⟨h1, h2⟩ := ih (by omega)
    have e1 := h2 n (by omega)
    simp only [processMonoLoop, processMonoStep, h1, e1]
    refine ⟨trivial, ?_⟩
    intro i hi
    by_cases hin : i = n
    · subst hin; simp
    · rw [Function.update_noteq hin, Function.update_noteq hin]
      exact h2 i hi

/-- Running `n1 + m` iterations is running `n1` and then `m` on the rest of the array. -/
theorem processMonoLoop_split {K : Type} [LinearOrderedField K] (M : MathFns K) (g : K)
    (t : TubeEmulator K) (buf : Nat → K) (n1 : Nat) :
    ∀ m,
      (processMonoLoop M g (t, buf) (n1 + m)).1 =
        (processMonoLoop M g
          ((processMonoLoop M g (t, buf) n1).1, fun j => buf (n1 + j)) m).1 ∧
      ∀ j, (processMonoLoop M g (t, buf) (n1 + m)).2 (n1 + j) =
        (processMonoLoop M g
          ((processMonoLoop M g (t, buf) n1).1, fun j => buf (n1 + j)) m).2 j := by
  intro m
  induction m with
  | zero =>
    exact ⟨rfl, fun j => processMonoLoop_untouched M g (t, buf) n1 (n1 + j) (by omega)⟩
  | succ m ih =>
    obtain ⟨h1, h2⟩ := ih
    have e := h2 m
    have hs : processMonoLoop M g (t, buf) (n1 + (m + 1)) =
        processMonoStep M g (processMonoLoop M g (t, buf) (n1 + m)) (n1 + m) := rfl
    have hs' : processMonoLoop M g
          ((processMonoLoop M g (t, buf) n1).1, fun j => buf (n1 + j)) (m + 1) =
        processMonoStep M g (processMonoLoop M g
          ((processMonoLoop M g (t, buf) n1).1, fun j => buf (n1 + j)) m) m := rfl
    rw [hs, hs']
    simp only [processMonoStep, h1, e]
    refine ⟨trivial, ?_⟩
    intro j
    by_cases hjm : j = m
    · subst hjm; simp
    · rw [Function.update_noteq (by omega), Function.update_noteq hjm]
      exact h2 j

/-- Running `n1 + m` iterations is running `n1` and then `m` on the rest of the arrays. -/
theorem processLoop_split {K : Type} [LinearOrderedField K] (M : MathFns K) (g : K)
    (t : TubeEmulator K) (l r : Nat → K) (n1 : Nat) :
    ∀ m,
      (processLoop M g (t, l, r) (n1 + m)).1 =
        (processLoop M g
          ((processLoop M g (t, l, r) n1).1, fun j => l (n1 + j), fun j => r (n1 + j)) m).1 ∧
      (∀ j, (processLoop M g (t, l, r) (n1 + m)).2.1 (n1 + j) =
        (processLoop M g
          ((processLoop M g (t, l, r) n1).1, fun j => l (n1 + j),
            fun j => r (n1 + j)) m).2.1 j) ∧
      ∀ j, (processLoop M g (t, l, r) (n1 + m)).2.2 (n1 + j) =
        (processLoop M g
          ((processLoop M g (t, l, r) n1).1, fun j => l (n1 + j),
            fun j => r (n1 + j)) m).2.2 j := by
  intro m
  induction m with
  | zero =>
    exact ⟨rfl,
      fun j => (processLoop_untouched M g (t, l, r) n1 (n1 + j) (by omega)).1,
      fun j => (processLoop_untouched M g (t, l, r) n1 (n1 + j) (by omega)).2⟩
  | succ m ih =>
    obtain ⟨h1, h2, h3⟩ := ih
    have e2 := h2 m
    have e3 := h3 m
    have hs : processLoop M g (t, l, r) (n1 + (m + 1)) =
        processStep M g (processLoop M g (t, l, r) (n1 + m)) (n1 + m) := rfl
    have hs' : processLoop M g
          ((processLoop M g (t, l, r) n1).1, fun j => l (n1 + j), fun j => r (n1 + j))
          (m + 1) =
        processStep M g (processLoop M g
          ((processLoop M g (t, l, r) n1).1, fun j => l (n1 + j), fun j => r (n1 + j)) m)
          m := rfl
    rw [hs, hs']
    simp only [processStep, h1, e2, e3]
    refine ⟨trivial, ?_, ?_⟩
    · intro j
      by_cases hjm : j = m
      · subst hjm; simp
      · rw [Function.update_noteq (by omega), Function.update_noteq hjm]
        exact h2 j
    · intro j
      by_cases hjm : j = m
      · subst hjm; simp
      · rw [Function.update_noteq (by omega), Function.update_noteq hjm]
        exact h3 j

theorem processMonoLoop_stream {K : Type} [LinearOrderedField K] (M : MathFns K) (g : K)
    (t : TubeEmulator K) (A B C : Nat → K) (n1 n2 : Nat)
    (hA : ∀ j, j < n1 → C j = A j) (hB : ∀ j, j < n2 → C (n1 + j) = B j) :
    (processMonoLoop M g (t, C) (n1 + n2)).1 =
      (processMonoLoop M g ((processMonoLoop M g (t, A) n1).1, B) n2).1 ∧
    (∀ j, j < n1 →
      (processMonoLoop M g (t, C) (n1 + n2)).2 j = (processMonoLoop M g (t, A) n1).2 j) ∧
    ∀ j, j < n2 →
      (processMonoLoop M g (t, C) (n1 + n2)).2 (n1 + j) =
        (processMonoLoop M g ((processMonoLoop M g (t, A) n1).1, B) n2).2 j := by
  have hs := processMonoLoop_split M g t C n1 n2
  have hc1 := processMonoLoop_congr M g t C A n1 hA n1 (le_refl _)
  have hc2 := processMonoLoop_congr M g (processMonoLoop M g (t, A) n1).1
    (fun j => C (n1 + j)) B n2 hB n2 (le_refl _)
  refine ⟨?_, ?_, ?_⟩
  · rw [hs.1, hc1.1, hc2.1]
  · intro j hj
    rw [processMonoLoop_settled M g (t, C) (n1 + n2) j (by omega),
      ← processMonoLoop_settled M g (t, C) n1 j hj]
    exact hc1.2 j hj
  · intro j hj
    rw [hs.2 j, hc1.1]
    exact hc2.2 j hj

theorem processLoop_stream {K : Type} [LinearOrderedField K] (M : MathFns K) (g : K)
    (t : TubeEmulator K) (Al Ar Bl Br Cl Cr : Nat → K) (n1 n2 : Nat)
    (hAl : ∀ j, j < n1 → Cl j = Al j) (hAr : ∀ j, j < n1 → Cr j = Ar j)
    (hBl : ∀ j, j < n2 → Cl (n1 + j) = Bl j) (hBr : ∀ j, j < n2 → Cr (n1 + j) = Br j) :
    (processLoop M g (t, Cl, Cr) (n1 + n2)).1 =
      (processLoop M g ((processLoop M g (t, Al, Ar) n1).1, Bl, Br) n2).1 ∧
    (∀ j, j < n1 →
      (processLoop M g (t, Cl, Cr) (n1 + n2)).2.1 j = (processLoop M g (t, Al, Ar) n1).2.1 j ∧
      (processLoop M g (t, Cl, Cr) (n1 + n2)).2.2 j
        = (processLoop M g (t, Al, Ar) n1).2.2 j) ∧
    ∀ j, j < n2 →
      (processLoop M g (t, Cl, Cr) (n1 + n2)).2.1 (n1 + j) =
        (processLoop M g ((processLoop M g (t, Al, Ar) n1).1, Bl, Br) n2).2.1 j ∧
      (processLoop M g (t, Cl, Cr) (n1 + n2)).2.2 (n1 + j) =
        (processLoop M g ((processLoop M g (t, Al, Ar) n1).1, Bl, Br) n2).2.2 j := by
  have hs := processLoop_split M g t Cl Cr n1 n2
  have hc1 := processLoop_congr M g t Cl Al Cr Ar n1 hAl hAr n1 (le_refl _)
  have hc2 := processLoop_congr M g (processLoop M g (t, Al, Ar) n1).1
    (fun j => Cl (n1 + j)) Bl (fun j => Cr (n1 + j)) Br n2 hBl hBr n2 (le_refl _)
  refine ⟨?_, ?_, ?_⟩
  · rw [hs.1, hc1.1, hc2.1]
  · intro j hj
    rw [(processLoop_settled M g (t, Cl, Cr) (n1 + n2) j (by omega)).1,
      (processLoop_settled M g (t, Cl, Cr) (n1 + n2) j (by omega)).2,
      ← (processLoop_settled M g (t, Cl, Cr) n1 j hj).1,
      ← (processLoop_settled M g (t, Cl, Cr) n1 j hj).2]
    exact ⟨hc1.2.1 j hj, hc1.2.2 j hj⟩
  · intro j hj
    rw [hs.2.1 j, hs.2.2 j, hc1.1]
    exact ⟨hc2.2.1 j hj, hc2.2.2 j hj⟩

theorem processLoop_left_mono {K : Type} [LinearOrderedField K] (M : MathFns K) (g : K)
    (t : TubeEmulator K) (l r : Nat → K) :
    ∀ n, (processLoop M g (t, l, r) n).1.m_stateL = (processMonoLoop M g (t, l) n).1.m_stateL ∧
      (processLoop M g (t, l, r) n).2.1 = (processMonoLoop M g (t, l) n).2 := by
  intro n
  induction n with
  | zero => exact ⟨rfl, rfl⟩
  | succ n ih =>
    obtain ⟨h1, h2⟩ := ih
    have hc := (processLoop_static M g (t, l, r) n).1
    have hm := (processMonoLoop_static M g (t, l) n).1
    simp only [processLoop, processStep, processMonoLoop, processMonoStep, h1, h2, hc, hm]
    exact ⟨trivial, trivial⟩

end TubeEmulator

namespace DSPProcessor

theorem deinterleave_spec {K : Type} (buffer : Nat → K) (scratch : (Nat → K) × (Nat → K)) :
    ∀ n i, i < n → (deinterleave buffer scratch n).1 i = buffer (i * 2) ∧
      (deinterleave buffer scratch n).2 i = buffer (i * 2 + 1) := by
  intro n
  induction n with
  | zero => intro i hi; exact absurd hi (Nat.not_lt_zero i)
  | succ n ih =>
    intro i hi
    simp only [deinterleave]
    by_cases hin : i = n
    · subst hin; simp
    · rw [Function.update_noteq hin, Function.update_noteq hin]
      exact ih i (by omega)

theorem reinterleave_spec {K : Type} (left right buffer : Nat → K) :
    ∀ n, (∀ i, i < n → reinterleave left right buffer n (i * 2) = left i ∧
        reinterleave left right buffer n (i * 2 + 1) = right i) ∧
      (∀ j, n * 2 ≤ j → reinterleave left right buffer n j = buffer j) := by
  intro n
  induction n with
  | zero =>
    exact ⟨fun i hi => absurd hi (Nat.not_lt_zero i), fun j _ => rfl⟩
  | succ n ih =>
    obtain ⟨ih1, ih2⟩ := ih
    constructor
    · intro i hi
      simp only [reinterleave]
      by_cases hin : i = n
      · subst hin
        constructor
        · rw [Function.update_noteq (by omega), Function.update_same]
        · rw [Function.update_same]
      · constructor
        · rw [Function.update_noteq (by omega), Function.update_noteq (by omega)]
          exact (ih1 i (by omega)).1
        · rw [Function.update_noteq (by omega), Function.update_noteq (by omega)]
          exact (ih1 i (by omega)).2
    · intro j hj
      simp only [reinterleave]
      rw [Function.update_noteq (by omega), Function.update_noteq (by omega)]
      exact ih2 j (by omega)

theorem deinterleave_silence {K : Type} [Zero K] (buffer : Nat → K) (N : Nat)
    (hbuf : ∀ j, j < 2 * N → buffer j = 0) :
    ∀ n, n ≤ N →
      deinterleave buffer (fun _ => 0, fun _ => 0) n = (fun _ => 0, fun _ => 0) := by
  intro n
  induction n with
  | zero => intro _; rfl
  | succ n ih =>
    intro hn
    simp only [deinterleave, ih (by omega), hbuf (n * 2) (by omega),
      hbuf (n * 2 + 1) (by omega)]
    refine Prod.ext ?_ ?_ <;> exact Function.update_eq_self_iff.mpr rfl

theorem reinterleave_silence {K : Type} [Zero K] (buffer : Nat → K) (N : Nat)
    (hbuf : ∀ j, j < 2 * N → buffer j = 0) :
    ∀ n, n ≤ N → reinterleave (fun _ => 0) (fun _ => 0) buffer n = buffer := by
  intro n
  induction n with
  | zero => intro _; rfl
  | succ n ih =>
    intro hn
    have h0 : buffer (n * 2) = 0 := hbuf (n * 2) (by omega)
    have h1 : buffer (n * 2 + 1) = 0 := hbuf (n * 2 + 1) (by omega)
    simp only [reinterleave, ih (by omega)]
    rw [← h0, Function.update_eq_self, h0, ← h1, Function.update_eq_self]

theorem consistent_construct (K : Type) [Field K] : Consistent (construct K) :=
  ⟨rfl, rfl, rfl⟩

theorem consistent_setSampleRate {K : Type} [Field K] {d : DSPProcessor K}
    (h : Consistent d) (rate : Int) : Consistent (d.setSampleRate rate) := by
  unfold setSampleRate
  by_cases hr : rate = d.m_sampleRate
  · simpa [hr] using h
  · have hr2 : rate ≠ d.m_tubeEmulator.m_sampleRate := by rw [h.rate]; exact hr
    simp only [ne_eq, hr, not_false_eq_true, if_true]
    refine ⟨?_, ?_, ?_⟩ <;>
      simp [reset, TubeEmulator.setSampleRate, TubeEmulator.reset,
        TubeEmulator.loadCoefficients, hr2, h.gainDb]

theorem consistent_process {K : Type} [LinearOrderedField K] (M : MathFns K)
    {d : DSPProcessor K} (h : Consistent d) (buffer : Nat → K) (numFrames numChannels : Int) :
    Consistent (d.process M buffer numFrames numChannels).1 := by
  unfold process
  by_cases hb : d.m_bypass = true
  · simpa [hb] using h
  · by_cases h2 : numChannels = 2
    · have hs := TubeEmulator.processLoop_static M (TubeEmulator.gain M d.m_tubeEmulator)
        (d.m_tubeEmulator,
          (deinterleave buffer (fun _ => 0, fun _ => 0) numFrames.toNat).1,
          (deinterleave buffer (fun _ => 0, fun _ => 0) numFrames.toNat).2) numFrames.toNat
      simp only [hb, h2, if_true, processInterleaved, TubeEmulator.process, ite_self]
      exact ⟨hs.2.2.trans h.rate, hs.1.trans h.coeffs, hs.2.1.trans h.gainDb⟩
    · by_cases h1 : numChannels = 1
      · have hs := TubeEmulator.processMonoLoop_static M
          (TubeEmulator.gain M d.m_tubeEmulator) (d.m_tubeEmulator, buffer) numFrames.toNat
        simp only [hb, h2, h1, if_true, TubeEmulator.processMono]
        exact ⟨hs.2.2.trans h.rate, hs.1.trans h.coeffs, hs.2.1.trans h.gainDb⟩
      · simpa [hb, h2, h1] using h

theorem consistent_of_reachable {K : Type} [LinearOrderedField K] (M : MathFns K)
    {d : DSPProcessor K} (h : Reachable M d) : Consistent d := by
  induction h with
  | construct => exact consistent_construct K
  | setSampleRate d rate _ ih => exact consistent_setSampleRate ih rate
  | setBypass d bypass _ ih => exact ⟨ih.rate, ih.coeffs, ih.gainDb⟩
  | reset d _ ih => exact ⟨ih.rate, ih.coeffs, ih.gainDb⟩
  | process d buffer numFrames numChannels _ ih =>
    exact consistent_process M ih buffer numFrames numChannels

theorem setSampleRate_eq_fresh {K : Type} [Field K] {d : DSPProcessor K}
    (h : Consistent d) (r : Int) (hr : d.m_sampleRate ≠ r) :
    d.setSampleRate r = ((construct K).setSampleRate r).setBypass d.m_bypass := by
  have hr1 : r ≠ d.m_sampleRate := fun e => hr e.symm
  have hr2 : r ≠ d.m_tubeEmulator.m_sampleRate := by rw [h.rate]; exact hr1
  have hg := h.gainDb
  by_cases h48 : r = 48000
  · subst h48
    simp [setSampleRate, hr1, hr2, reset, setBypass, construct, TubeEmulator.setSampleRate,
      TubeEmulator.reset, TubeEmulator.loadCoefficients, TubeEmulator.construct, hg]
  · simp [setSampleRate, hr1, hr2, h48, reset, setBypass, construct,
      TubeEmulator.setSampleRate, TubeEmulator.reset, TubeEmulator.loadCoefficients,
      TubeEmulator.construct, hg]

theorem process_mono_eq {K : Type} [LinearOrderedField K] (M : MathFns K)
    (d : DSPProcessor K) (hb : d.m_bypass = false) (buffer : Nat → K) (n : Nat) :
    d.process M buffer (n : Int) 1 =
      ({ d with m_tubeEmulator :=
          (TubeEmulator.processMonoLoop M (TubeEmulator.gain M d.m_tubeEmulator)
            (d.m_tubeEmulator, buffer) n).1 },
        (TubeEmulator.processMonoLoop M (TubeEmulator.gain M d.m_tubeEmulator)
          (d.m_tubeEmulator, buffer) n).2) := by
  have h12 : ¬ ((1 : Int) = 2) := by decide
  simp only [process, hb, Bool.false_eq_true, if_false, if_true, h12,
    TubeEmulator.processMono, Int.toNat_ofNat]

theorem process_stereo_eq {K : Type} [LinearOrderedField K] (M : MathFns K)
    (d : DSPProcessor K) (hb : d.m_bypass = false) (buffer : Nat → K) (n : Nat) :
    (d.process M buffer (n : Int) 2).1 =
      { d with m_tubeEmulator :=
        (TubeEmulator.processLoop M (TubeEmulator.gain M d.m_tubeEmulator)
          (d.m_tubeEmulator, fun k => buffer (k * 2), fun k => buffer (k * 2 + 1)) n).1 } ∧
    (∀ i, i < n →
      (d.process M buffer (n : Int) 2).2 (i * 2) =
        (TubeEmulator.processLoop M (TubeEmulator.gain M d.m_tubeEmulator)
          (d.m_tubeEmulator, fun k => buffer (k * 2), fun k => buffer (k * 2 + 1)) n).2.1 i ∧
      (d.process M buffer (n : Int) 2).2 (i * 2 + 1) =
        (TubeEmulator.processLoop M (TubeEmulator.gain M d.m_tubeEmulator)
          (d.m_tubeEmulator, fun k => buffer (k * 2), fun k => buffer (k * 2 + 1)) n).2.2 i) ∧
    (∀ j, n * 2 ≤ j → (d.process M buffer (n : Int) 2).2 j = buffer j) := by
  have hsplit := deinterleave_spec buffer (fun _ => 0, fun _ => 0) n
  have hcongr := TubeEmulator.processLoop_congr M (TubeEmulator.gain M d.m_tubeEmulator)
    d.m_tubeEmulator
    (deinterleave buffer (fun _ => 0, fun _ => 0) n).1 (fun k => buffer (k * 2))
    (deinterleave buffer (fun _ => 0, fun _ => 0) n).2 (fun k => buffer (k * 2 + 1)) n
    (fun i hi => (hsplit i hi).1) (fun i hi => (hsplit i hi).2) n (le_refl _)
  have hre := reinterleave_spec
    (TubeEmulator.processLoop M (TubeEmulator.gain M d.m_tubeEmulator)
      (d.m_tubeEmulator, (deinterleave buffer (fun _ => 0, fun _ => 0) n).1,
        (deinterleave buffer (fun _ => 0, fun _ => 0) n).2) n).2.1
    (TubeEmulator.processLoop M (TubeEmulator.gain M d.m_tubeEmulator)
      (d.m_tubeEmulator, (deinterleave buffer (fun _ => 0, fun _ => 0) n).1,
        (deinterleave buffer (fun _ => 0, fun _ => 0) n).2) n).2.2
    buffer n
  have hstereo : d.process M buffer (n : Int) 2 =
      ({ d with m_tubeEmulator :=
          (TubeEmulator.processLoop M (TubeEmulator.gain M d.m_tubeEmulator)
            (d.m_tubeEmulator, (deinterleave buffer (fun _ => 0, fun _ => 0) n).1,
              (deinterleave buffer (fun _ => 0, fun _ => 0) n).2) n).1 },
        reinterleave
          (TubeEmulator.processLoop M (TubeEmulator.gain M d.m_tubeEmulator)
            (d.m_tubeEmulator, (deinterleave buffer (fun _ => 0, fun _ => 0) n).1,
              (deinterleave buffer (fun _ => 0, fun _ => 0) n).2) n).2.1
          (TubeEmulator.processLoop M (TubeEmulator.gain M d.m_tubeEmulator)
            (d.m_tubeEmulator, (deinterleave buffer (fun _ => 0, fun _ => 0) n).1,
              (deinterleave buffer (fun _ => 0, fun _ => 0) n).2) n).2.2
          buffer n) := by
    simp only [process, hb, Bool.false_eq_true, if_false, if_true, processInterleaved,
      ite_self, TubeEmulator.process, Int.toNat_ofNat]
  rw [hstereo]
  refine ⟨?_, ?_, ?_⟩
  · show DSPProcessor.mk _ _ _ = DSPProcessor.mk _ _ _
    rw [hcongr.1]
  · intro i hi
    constructor
    · rw [← hcongr.2.1 i hi]; exact (hre.1 i hi).1
    · rw [← hcongr.2.2 i hi]; exact (hre.1 i hi).2
  · intro j hj
    exact hre.2 j hj

theorem process_stream_mono {K : Type} [LinearOrderedField K] (M : MathFns K)
    (d : DSPProcessor K) (hb : d.m_bypass = false) (A B C : Nat → K) (n1 n2 : Nat)
    (hA : ∀ j, j < n1 → C j = A j) (hB : ∀ j, j < n2 → C (n1 + j) = B j) :
    (d.process M C ((n1 + n2 : Nat) : Int) 1).1 =
      ((d.process M A (n1 : Int) 1).1.process M B (n2 : Int) 1).1 ∧
    (∀ j, j < n1 →
      (d.process M C ((n1 + n2 : Nat) : Int) 1).2 j = (d.process M A (n1 : Int) 1).2 j) ∧
    ∀ j, j < n2 →
      (d.process M C ((n1 + n2 : Nat) : Int) 1).2 (n1 + j) =
        ((d.process M A (n1 : Int) 1).1.process M B (n2 : Int) 1).2 j := by
  have hst := TubeEmulator.processMonoLoop_stream M (TubeEmulator.gain M d.m_tubeEmulator)
    d.m_tubeEmulator A B C n1 n2 hA hB
  have e1 := process_mono_eq M d hb A n1
  have hd1t : (d.process M A (n1 : Int) 1).1.m_tubeEmulator =
      (TubeEmulator.processMonoLoop M (TubeEmulator.gain M d.m_tubeEmulator)
        (d.m_tubeEmulator, A) n1).1 := by rw [e1]
  have hd1b : (d.process M A (n1 : Int) 1).1.m_bypass = d.m_bypass := by rw [e1]
  have hd1r : (d.process M A (n1 : Int) 1).1.m_sampleRate = d.m_sampleRate := by rw [e1]
  have hg : TubeEmulator.gain M (TubeEmulator.processMonoLoop M
      (TubeEmulator.gain M d.m_tubeEmulator) (d.m_tubeEmulator, A) n1).1 =
      TubeEmulator.gain M d.m_tubeEmulator := by
    unfold TubeEmulator.gain
    rw [(TubeEmulator.processMonoLoop_static M _ (d.m_tubeEmulator, A) n1).2.1]
  have e2 := process_mono_eq M (d.process M A (n1 : Int) 1).1 (hd1b.trans hb) B n2
  rw [hd1t, hg] at e2
  rw [process_mono_eq M d hb C (n1 + n2), e2]
  refine ⟨?_, ?_, hst.2.2⟩
  · show DSPProcessor.mk _ _ _ = DSPProcessor.mk _ _ _
    rw [hst.1, hd1b, hd1r]
  · intro j hj
    rw [e1]
    exact hst.2.1 j hj

theorem process_stream_stereo {K : Type} [LinearOrderedField K] (M : MathFns K)
    (d : DSPProcessor K) (hb : d.m_bypass = false) (A B C : Nat → K) (n1 n2 : Nat)
    (hA : ∀ j, j < n1 * 2 → C j = A j) (hB : ∀ j, j < n2 * 2 → C (n1 * 2 + j) = B j) :
    (d.process M C ((n1 + n2 : Nat) : Int) 2).1 =
      ((d.process M A (n1 : Int) 2).1.process M B (n2 : Int) 2).1 ∧
    (∀ j, j < n1 * 2 →
      (d.process M C ((n1 + n2 : Nat) : Int) 2).2 j = (d.process M A (n1 : Int) 2).2 j) ∧
    ∀ j, j < n2 * 2 →
      (d.process M C ((n1 + n2 : Nat) : Int) 2).2 (n1 * 2 + j) =
        ((d.process M A (n1 : Int) 2).1.process M B (n2 : Int) 2).2 j := by
  have hst := TubeEmulator.processLoop_stream M (TubeEmulator.gain M d.m_tubeEmulator)
    d.m_tubeEmulator (fun k => A (k * 2)) (fun k => A (k * 2 + 1))
    (fun k => B (k * 2)) (fun k => B (k * 2 + 1))
    (fun k => C (k * 2)) (fun k => C (k * 2 + 1)) n1 n2
    (fun j hj => hA (j * 2) (by omega)) (fun j hj => hA (j * 2 + 1) (by omega))
    (fun j hj => by
      show C ((n1 + j) * 2) = B (j * 2)
      rw [Nat.add_mul]; exact hB (j * 2) (by omega))
    (fun j hj => by
      show C ((n1 + j) * 2 + 1) = B (j * 2 + 1)
      rw [Nat.add_mul, Nat.add_assoc]; exact hB (j * 2 + 1) (by omega))
  have sA := process_stereo_eq M d hb A n1
  have sC := process_stereo_eq M d hb C (n1 + n2)
  have hd1t : (d.process M A (n1 : Int) 2).1.m_tubeEmulator =
      (TubeEmulator.processLoop M (TubeEmulator.gain M d.m_tubeEmulator)
        (d.m_tubeEmulator, fun k => A (k * 2), fun k => A (k * 2 + 1)) n1).1 := by
    rw [sA.1]
  have hd1b : (d.process M A (n1 : Int) 2).1.m_bypass = d.m_bypass := by rw [sA.1]
  have hd1r : (d.process M A (n1 : Int) 2).1.m_sampleRate = d.m_sampleRate := by rw [sA.1]
  have hg : TubeEmulator.gain M (TubeEmulator.processLoop M
      (TubeEmulator.gain M d.m_tubeEmulator)
      (d.m_tubeEmulator, fun k => A (k * 2), fun k => A (k * 2 + 1)) n1).1 =
      TubeEmulator.gain M d.m_tubeEmulator := by
    unfold TubeEmulator.gain
    rw [(TubeEmulator.processLoop_static M _
      (d.m_tubeEmulator, fun k => A (k * 2), fun k => A (k * 2 + 1)) n1).2.1]
  have sB := process_stereo_eq M (d.process M A (n1 : Int) 2).1 (hd1b.trans hb) B n2
  rw [hd1t, hg] at sB
  refine ⟨?_, ?_, ?_⟩
  · rw [sC.1, sB.1]
    show DSPProcessor.mk _ _ _ = DSPProcessor.mk _ _ _
    rw [hst.1, hd1b, hd1r]
  · intro j hj
    obtain ⟨i, hi⟩ : ∃ i, j = i * 2 ∨ j = i * 2 + 1 := ⟨j / 2, by omega⟩
    rcases hi with rfl | rfl
    · rw [(sC.2.1 i (by omega)).1, (sA.2.1 i (by omega)).1]
      exact (hst.2.1 i (by omega)).1
    · rw [(sC.2.1 i (by omega)).2, (sA.2.1 i (by omega)).2]
      exact (hst.2.1 i (by omega)).2
  · intro j hj
    obtain ⟨i, hi⟩ : ∃ i, j = i * 2 ∨ j = i * 2 + 1 := ⟨j / 2, by omega⟩
    rcases hi with rfl | rfl
    · have e : n1 * 2 + i * 2 = (n1 + i) * 2 := by ring
      rw [e, (sC.2.1 (n1 + i) (by omega)).1, (sB.2.1 i (by omega)).1]
      exact (hst.2.2 i (by omega)).1
    · have e : n1 * 2 + (i * 2 + 1) = (n1 + i) * 2 + 1 := by ring
      rw [e, (sC.2.1 (n1 + i) (by omega)).2, (sB.2.1 i (by omega)).2]
      exact (hst.2.2 i (by omega)).2

theorem process_zero_state {K : Type} [LinearOrderedField K] (M : MathFns K)
    (hlog : M.log 1 = 0) (d : DSPProcessor K)
    (hL : d.m_tubeEmulator.m_stateL = FilterState.zero K)
    (hb : d.m_bypass = false) (buffer : Nat → K) (n : Nat) (numChannels : Int)
    (hc : numChannels = 1 ∨
      (numChannels = 2 ∧ d.m_tubeEmulator.m_stateR = FilterState.zero K))
    (hbuf : ∀ i, i < n * numChannels.toNat → buffer i = 0) :
    d.process M buffer (n : Int) numChannels = (d, buffer) := by
  rcases hc with h1 | ⟨h2, hR⟩
  · subst h1
    have hbuf1 : ∀ j, j < n → buffer j = 0 := by
      intro j hj; exact hbuf j (by simpa using hj)
    rw [process_mono_eq M d hb buffer n,
      TubeEmulator.processMonoLoop_silence M _ hlog d.m_tubeEmulator hL buffer n hbuf1 n
        (le_refl _)]
  · subst h2
    have hbuf2 : ∀ j, j < 2 * n → buffer j = 0 := by
      intro j hj
      refine hbuf j ?_
      have : (2 : Int).toNat = 2 := rfl
      rw [this]; omega
    simp only [process, hb, Bool.false_eq_true, if_false, if_true, processInterleaved,
      ite_self, TubeEmulator.process, Int.toNat_ofNat,
      deinterleave_silence buffer n hbuf2 n (le_refl _),
      TubeEmulator.processLoop_silence M _ hlog d.m_tubeEmulator hL hR,
      reinterleave_silence buffer n hbuf2 n (le_refl _)]
    rw [← hb]

theorem shapeSample_sampleMath_one : TubeEmulator.shapeSample sampleMath (1 : ℚ) = 57 / 80 := by
  simp only [TubeEmulator.shapeSample, sampleMath]
  norm_num [abs_of_pos]

theorem sampleAfterImpulse_state : sampleAfterImpulse.m_tubeEmulator.m_stateL.z 0 ≠ 0 := by
  have h := process_mono_eq sampleMath (construct ℚ) rfl sampleImpulse 1
  unfold sampleAfterImpulse
  rw [h]
  have hx : sampleImpulse 0 = 1 := rfl
  have hb1 : (construct ℚ).m_tubeEmulator.m_coeffs.b 1 = -2.881262866479970 := rfl
  have ha0 : (construct ℚ).m_tubeEmulator.m_coeffs.a 0 = -3.441768540626980 := rfl
  have hb0 : (construct ℚ).m_tubeEmulator.m_coeffs.b 0 = 0.859613953341805 := rfl
  have hz0 : (construct ℚ).m_tubeEmulator.m_stateL.z 0 = 0 := rfl
  have hz1 : (construct ℚ).m_tubeEmulator.m_stateL.z 1 = 0 := rfl
  simp only [TubeEmulator.processMonoLoop, TubeEmulator.processMonoStep,
    TubeEmulator.processFilter, hx, shapeSample_sampleMath_one, Matrix.cons_val_zero, hb1,
    ha0, hb0, hz0, hz1]
  norm_num

theorem sampleAfterImpulse_reachable : Reachable sampleMath sampleAfterImpulse :=
  Reachable.process _ _ _ _ Reachable.construct

theorem zero_input_first_mono {K : Type} [LinearOrderedField K] (M : MathFns K)
    (hlog : M.log 1 = 0) (g : K) (t : TubeEmulator K) (buffer : Nat → K) (n : Nat)
    (hn : 0 < n) (h0 : buffer 0 = 0) :
    (TubeEmulator.processMonoLoop M g (t, buffer) n).2 0 = t.m_stateL.z 0 * 1.33 * g := by
  rw [TubeEmulator.processMonoLoop_sample M g t buffer n 0 hn, h0,
    TubeEmulator.shapeSample_zero M hlog]
  simp [TubeEmulator.processFilter, TubeEmulator.processMonoLoop, kOutputScale]

theorem zero_input_first_stereo {K : Type} [LinearOrderedField K] (M : MathFns K)
    (hlog : M.log 1 = 0) (g : K) (t : TubeEmulator K) (left right : Nat → K) (n : Nat)
    (hn : 0 < n) (hl : left 0 = 0) (hr : right 0 = 0) :
    (TubeEmulator.processLoop M g (t, left, right) n).2.1 0 = t.m_stateL.z 0 * 1.33 * g ∧
    (TubeEmulator.processLoop M g (t, left, right) n).2.2 0 = t.m_stateR.z 0 * 1.33 * g := by
  rw [(TubeEmulator.processLoop_sample M g t left right n 0 hn).1,
    (TubeEmulator.processLoop_sample M g t left right n 0 hn).2, hl, hr,
    TubeEmulator.shapeSample_zero M hlog]
  simp [TubeEmulator.processFilter, TubeEmulator.processLoop, kOutputScale]

end DSPProcessor

/-! ## Lemmas: nearest-rate search -/

theorem nearer_fold {β : Type} (key : β → Int) (r : Int) (l : List β) :
    ∀ b : β,
      (l.foldl (nearerStep key r) (b, |r - key b|)).2
          = |r - key (l.foldl (nearerStep key r) (b, |r - key b|)).1| ∧
      ((l.foldl (nearerStep key r) (b, |r - key b|)).1 = b ∨
        (l.foldl (nearerStep key r) (b, |r - key b|)).1 ∈ l) ∧
      (l.foldl (nearerStep key r) (b, |r - key b|)).2 ≤ |r - key b| ∧
      (∀ x ∈ l, (l.foldl (nearerStep key r) (b, |r - key b|)).2 ≤ |r - key x|) ∧
      ((l.foldl (nearerStep key r) (b, |r - key b|)).1 = b ∨
        (l.foldl (nearerStep key r) (b, |r - key b|)).2 < |r - key b|) := by
  induction l with
  | nil => intro b; simp
  | cons x xs ih =>
    intro b
    simp only [List.foldl_cons, nearerStep]
    by_cases hlt : |r - key x| < |r - key b|
    · simp only [hlt, if_true]
      obtain ⟨h1, h2, h3, h4, _⟩ := ih x
      refine ⟨h1, Or.inr ?_, le_of_lt (lt_of_le_of_lt h3 hlt), ?_, Or.inr (lt_of_le_of_lt h3 hlt)⟩
      · rcases h2 with h | h
        · rw [h]; exact List.mem_cons_self _ _
        · exact List.mem_cons_of_mem _ h
      · intro y hy
        rcases List.mem_cons.mp hy with h | h
        · rw [h]; exact h3
        · exact h4 y h
    · simp only [hlt, if_false]
      obtain ⟨h1, h2, h3, h4, h5⟩ := ih b
      refine ⟨h1, ?_, h3, ?_, h5⟩
      · rcases h2 with h | h
        · exact Or.inl h
        · exact Or.inr (List.mem_cons_of_mem _ h)
      · intro y hy
        rcases List.mem_cons.mp hy with h | h
        · rw [h]; exact le_trans h3 (not_lt.mp hlt)
        · exact h4 y h

theorem nearer_fold_lowest {β : Type} (key : β → Int) (r : Int) (l : List β) :
    ∀ b : β, List.Pairwise (fun x y => key x ≤ key y) (b :: l) →
      ∀ x ∈ b :: l, |r - key x| = (l.foldl (nearerStep key r) (b, |r - key b|)).2 →
        key (l.foldl (nearerStep key r) (b, |r - key b|)).1 ≤ key x := by
  induction l with
  | nil =>
    intro b _ x hx _
    simp only [List.mem_singleton] at hx
    simp [hx]
  | cons y ys ih =>
    intro b hp x hx hd
    have hpb := (List.pairwise_cons.mp hp).1
    have hpt := (List.pairwise_cons.mp hp).2
    simp only [List.foldl_cons, nearerStep] at hd ⊢
    by_cases hlt : |r - key y| < |r - key b|
    · simp only [hlt, if_true] at hd ⊢
      have hf := nearer_fold key r ys y
      rcases List.mem_cons.mp hx with h | h
      · subst h
        have : (ys.foldl (nearerStep key r) (y, |r - key y|)).2 ≤ |r - key y| := hf.2.2.1
        omega
      · exact ih y hpt x h hd
    · simp only [hlt, if_false] at hd ⊢
      have hf := nearer_fold key r ys b
      have hp2 : List.Pairwise (fun x y => key x ≤ key y) (b :: ys) := by
        refine List.pairwise_cons.mpr ⟨?_, (List.pairwise_cons.mp hpt).2⟩
        intro z hz
        exact hpb z (List.mem_cons_of_mem _ hz)
      rcases List.mem_cons.mp hx with h | h
      · exact ih b hp2 x (by rw [h]; exact List.mem_cons_self _ _) hd
      · rcases List.mem_cons.mp h with h | h
        · subst h
          rcases hf.2.2.2.2 with h5 | h5
          · rw [h5]; exact hpb x (List.mem_cons_self _ _)
          · omega
        · exact ih b hp2 x (List.mem_cons_of_mem _ h) hd

theorem pickNearer_eq_nearerStep {K : Type} (rate : Int) :
    pickNearer (K := K) rate = nearerStep RateEntry.rate rate := by
  funext acc entry
  rfl

theorem kRateTable_rates (K : Type) [Field K] :
    (kRateTable K).map RateEntry.rate = [44100, 48000, 88200, 96000, 176400, 192000] := by
  rfl

theorem kRateTable_sorted (K : Type) [Field K] :
    List.Pairwise (fun x y : RateEntry K => x.rate ≤ y.rate)
      ((kRateTable K).headD ⟨0, fun _ => 0⟩ :: kRateTable K) := by
  simp [kRateTable]

theorem kRateTable_head_mem (K : Type) [Field K] :
    (kRateTable K).headD ⟨0, fun _ => 0⟩ ∈ kRateTable K := by
  simp [kRateTable]

theorem pickRate_exact (K : Type) [Field K] (r : Int) (e : RateEntry K)
    (h : (kRateTable K).find? (fun entry => entry.rate == r) = some e) :
    pickRate K r = e := by
  simp only [pickRate, h]

theorem pickRate_fallback (K : Type) [Field K] (r : Int)
    (h : (kRateTable K).find? (fun entry => entry.rate == r) = none) :
    pickRate K r =
      ((kRateTable K).foldl (nearerStep RateEntry.rate r)
        ((kRateTable K).headD ⟨0, fun _ => 0⟩,
          |r - ((kRateTable K).headD ⟨0, fun _ => 0⟩).rate|)).1 := by
  simp only [pickRate, h, pickNearer_eq_nearerStep]

theorem tube_pickRate_none_case (K : Type) [Field K] (r : Int)
    (hfind : (kRateTable K).find? (fun entry => entry.rate == r) = none) :
    pickRate K r ∈ kRateTable K ∧
    (r ∈ (kRateTable K).map RateEntry.rate → (pickRate K r).rate = r) ∧
    (∀ e ∈ kRateTable K, |r - (pickRate K r).rate| ≤ |r - e.rate|) ∧
    (∀ e ∈ kRateTable K, |r - e.rate| = |r - (pickRate K r).rate| →
      (pickRate K r).rate ≤ e.rate) := by
  have hf := nearer_fold RateEntry.rate r (kRateTable K)
    ((kRateTable K).headD ⟨0, fun _ => 0⟩)
  have hl := nearer_fold_lowest RateEntry.rate r (kRateTable K)
    ((kRateTable K).headD ⟨0, fun _ => 0⟩) (kRateTable_sorted K)
  rw [pickRate_fallback K r hfind]
  refine ⟨?_, ?_, ?_, ?_⟩
  · rcases hf.2.1 with h | h
    · rw [h]; exact kRateTable_head_mem K
    · exact h
  · intro hmem
    obtain ⟨e, he, hre⟩ := List.mem_map.mp hmem
    have := List.find?_eq_none.mp hfind e he
    simp [hre] at this
  · intro e he
    rw [← hf.1]
    exact hf.2.2.2.1 e he
  · intro e he hd
    exact hl e (List.mem_cons_of_mem _ he) (by rw [hf.1]; exact hd)

/-! ## Lemmas: QMap and Parameters -/

namespace QMap

theorem mem_insert {V : Type} (m : QMap V) (key : Int) (v : V) (e : Int × V)
    (h : e ∈ insert m key v) : e = (key, v) ∨ e ∈ m := by
  induction m with
  | nil => simpa [insert] using h
  | cons x rest ih =>
    simp only [insert] at h
    split_ifs at h with h1 h2
    · rcases List.mem_cons.mp h with h | h
      · exact Or.inl h
      · exact Or.inr h
    · rcases List.mem_cons.mp h with h | h
      · exact Or.inl h
      · exact Or.inr (List.mem_cons_of_mem _ h)
    · rcases List.mem_cons.mp h with h | h
      · exact Or.inr (h ▸ List.mem_cons_self _ _)
      · rcases ih h with h | h
        · exact Or.inl h
        · exact Or.inr (List.mem_cons_of_mem _ h)

theorem value_insert_self {V : Type} (m : QMap V) (key : Int) (v dflt : V) :
    value (insert m key v) key dflt = v := by
  induction m with
  | nil => simp [insert, value]
  | cons x rest ih =>
    simp only [insert]
    split_ifs with h1 h2
    · simp [value]
    · simp [value]
    · have hne : (x.1 == key) = false := by
        simp only [beq_eq_false_iff_ne, ne_eq]
        exact fun e => h2 e.symm
      simp only [value, List.find?, hne] at ih ⊢
      exact ih

theorem value_insert_other {V : Type} (m : QMap V) (key other : Int) (v dflt : V)
    (hne : other ≠ key) : value (insert m key v) other dflt = value m other dflt := by
  have hk : (key == other) = false := by
    simp only [beq_eq_false_iff_ne, ne_eq]
    exact fun e => hne e.symm
  induction m with
  | nil => simp [insert, value, hk]
  | cons x rest ih =>
    simp only [insert]
    split_ifs with h1 h2
    · simp [value, List.find?, hk]
    · have hx : (x.1 == other) = false := by
        simp only [beq_eq_false_iff_ne, ne_eq]
        rw [← h2]; exact fun e => hne e.symm
      simp [value, List.find?, hk, hx]
    · by_cases hx : (x.1 == other) = true
      · simp [value, List.find?, hx]
      · simp only [Bool.not_eq_true] at hx
        simp only [value, List.find?, hx] at ih ⊢
        exact ih

theorem sorted_insert {V : Type} (m : QMap V) (key : Int) (v : V) (h : Sorted m) :
    Sorted (insert m key v) := by
  induction m with
  | nil => simp [insert, Sorted]
  | cons x rest ih =>
    have hx := (List.pairwise_cons.mp h).1
    have hrest : Sorted rest := (List.pairwise_cons.mp h).2
    simp only [insert]
    split_ifs with h1 h2
    · refine List.pairwise_cons.mpr ⟨?_, h⟩
      intro e he
      rcases List.mem_cons.mp he with he | he
      · rw [he]; exact h1
      · exact lt_trans h1 (hx e he)
    · refine List.pairwise_cons.mpr ⟨?_, hrest⟩
      intro e he
      show key < e.1
      rw [h2]; exact hx e he
    · refine List.pairwise_cons.mpr ⟨?_, ih hrest⟩
      intro e he
      rcases mem_insert rest key v e he with he | he
      · rw [he]; show x.1 < key; omega
      · exact hx e he

theorem value_of_mem {V : Type} (m : QMap V) (key : Int) (t dflt : V) (h : Sorted m)
    (hmem : (key, t) ∈ m) : value m key dflt = t := by
  induction m with
  | nil => simp at hmem
  | cons x rest ih =>
    have hx := (List.pairwise_cons.mp h).1
    have hrest : Sorted rest := (List.pairwise_cons.mp h).2
    rcases List.mem_cons.mp hmem with he | he
    · subst he; simp [value]
    · have hlt := hx _ he
      have hb : (x.1 == key) = false := by
        simp only [beq_eq_false_iff_ne, ne_eq]
        intro e; simp only at hlt; omega
      have := ih hrest he
      simp only [value, List.find?, hb] at this ⊢
      exact this

theorem contains_iff_mem {V : Type} (m : QMap V) (key : Int) :
    contains m key = true ↔ ∃ t, (key, t) ∈ m := by
  induction m with
  | nil => simp [contains]
  | cons x rest ih =>
    simp only [contains, List.any_cons, Bool.or_eq_true, beq_iff_eq, List.mem_cons] at ih ⊢
    rw [ih]
    constructor
    · rintro (h | ⟨t, ht⟩)
      · exact ⟨x.2, Or.inl (by rw [← h])⟩
      · exact ⟨t, Or.inr ht⟩
    · rintro ⟨t, h | h⟩
      · left; rw [← h]
      · exact Or.inr ⟨t, h⟩

theorem lookup_order {T : Type} (m : QMap (List T)) (h : Sorted m) (r : Int) :
    LookupOrder m r
      (if contains m r then value m r []
       else if contains m 48000 then value m 48000 []
       else if m.isEmpty then [] else first m []) := by
  refine ⟨?_, ?_, ?_, ?_⟩
  · intro t ht
    rw [if_pos ((contains_iff_mem m r).mpr ⟨t, ht⟩)]
    exact value_of_mem m r t [] h ht
  · intro hno t ht
    have hc : ¬ contains m r = true := fun hc =>
      let ⟨t', ht'⟩ := (contains_iff_mem m r).mp hc
      hno t' ht'
    rw [if_neg hc, if_pos ((contains_iff_mem m 48000).mpr ⟨t, ht⟩)]
    exact value_of_mem m 48000 t [] h ht
  · intro hno hno48 e rest hm
    have hc : ¬ contains m r = true := fun hc =>
      let ⟨t', ht'⟩ := (contains_iff_mem m r).mp hc
      hno t' ht'
    have hc48 : ¬ contains m 48000 = true := fun hc =>
      let ⟨t', ht'⟩ := (contains_iff_mem m 48000).mp hc
      hno48 t' ht'
    rw [if_neg hc, if_neg hc48]
    subst hm
    refine ⟨by simp [first], ?_⟩
    intro other hother
    rcases List.mem_cons.mp hother with ho | ho
    · rw [ho]
    · exact le_of_lt ((List.pairwise_cons.mp h).1 other ho)
  · intro hm
    subst hm
    simp [contains]

end QMap

namespace Parameters

theorem allStable_insert {K : Type} [LinearOrderedField K]
    (m : QMap (List (FilterCoeffs K))) (key : Int) (v : List (FilterCoeffs K))
    (hm : AllStable m) (hv : ∀ fc ∈ v, fc.Stable) : AllStable (m.insert key v) := by
  intro e he fc hfc
  rcases QMap.mem_insert m key v e he with h | h
  · subst h; exact hv fc hfc
  · exact hm e h fc hfc

theorem defaultPreCoeffs_stable (K : Type) [LinearOrderedField K] :
    ∀ fc ∈ defaultPreCoeffs K, fc.Stable := by
  intro fc hfc
  simp only [defaultPreCoeffs, List.mem_cons, List.mem_singleton, List.not_mem_nil,
    or_false] at hfc
  rcases hfc with h | h <;> subst h <;> simp only [FilterCoeffs.Stable, abs_lt] <;>
    norm_num

theorem defaultPostCoeffs_stable (K : Type) [LinearOrderedField K] :
    ∀ fc ∈ defaultPostCoeffs K, fc.Stable := by
  intro fc hfc
  simp only [defaultPostCoeffs, List.mem_cons, List.mem_singleton, List.not_mem_nil,
    or_false] at hfc
  rcases hfc with h | h <;> subst h <;> simp only [FilterCoeffs.Stable, abs_lt] <;>
    norm_num

theorem stageLoop_stable {K : Type} [LinearOrderedField K] (raw : List K) (limit : Nat) :
    ∀ fuel i, ∀ fc ∈ stageLoop raw limit fuel i, fc.Stable := by
  intro fuel
  induction fuel with
  | zero => intro i fc hfc; simp [stageLoop] at hfc
  | succ fuel ih =>
    intro i fc hfc
    simp only [stageLoop] at hfc
    split_ifs at hfc with h1 h2
    · rcases List.mem_cons.mp hfc with h | h
      · subst h; exact h2
      · exact ih _ fc h
    · exact ih _ fc hfc
    · simp at hfc

theorem loadDefault_fold_stable {K : Type} [LinearOrderedField K] (rs : List Int) :
    ∀ p : Parameters K, AllStable p.m_preFilterCoeffs → AllStable p.m_postFilterCoeffs →
      AllStable (rs.foldl
        (fun q rate =>
          { q with
            m_preFilterCoeffs := q.m_preFilterCoeffs.insert rate (defaultPreCoeffs K)
            m_postFilterCoeffs := q.m_postFilterCoeffs.insert rate (defaultPostCoeffs K) })
        p).m_preFilterCoeffs ∧
      AllStable (rs.foldl
        (fun q rate =>
          { q with
            m_preFilterCoeffs := q.m_preFilterCoeffs.insert rate (defaultPreCoeffs K)
            m_postFilterCoeffs := q.m_postFilterCoeffs.insert rate (defaultPostCoeffs K) })
        p).m_postFilterCoeffs := by
  induction rs with
  | nil => intro p h1 h2; exact ⟨h1, h2⟩
  | cons r rs ih =>
    intro p h1 h2
    simp only [List.foldl_cons]
    exact ih _ (allStable_insert _ _ _ h1 (defaultPreCoeffs_stable K))
      (allStable_insert _ _ _ h2 (defaultPostCoeffs_stable K))

theorem construct_stable (K : Type) [LinearOrderedField K] :
    AllStable (construct K).m_preFilterCoeffs ∧ AllStable (construct K).m_postFilterCoeffs := by
  unfold construct loadDefaultCoefficients
  exact loadDefault_fold_stable rates _ (by intro e he; simp at he) (by intro e he; simp at he)

theorem storeParsed_stable {K : Type} [LinearOrderedField K]
    (preCoeffs postCoeffs : List (FilterCoeffs K))
    (hpre : ∀ fc ∈ preCoeffs, fc.Stable) (hpost : ∀ fc ∈ postCoeffs, fc.Stable)
    (q : Parameters K) (rate : Int)
    (h1 : AllStable q.m_preFilterCoeffs) (h2 : AllStable q.m_postFilterCoeffs) :
    AllStable (storeParsed preCoeffs postCoeffs q rate).m_preFilterCoeffs ∧
    AllStable (storeParsed preCoeffs postCoeffs q rate).m_postFilterCoeffs := by
  unfold storeParsed
  by_cases ha : preCoeffs.isEmpty = true <;> by_cases hb : postCoeffs.isEmpty = true <;>
    simp only [ha, hb, Bool.not_true, Bool.not_false, Bool.false_eq_true, if_false, if_true]
  · exact ⟨h1, h2⟩
  · exact ⟨h1, allStable_insert _ _ _ h2 hpost⟩
  · exact ⟨allStable_insert _ _ _ h1 hpre, h2⟩
  · exact ⟨allStable_insert _ _ _ h1 hpre, allStable_insert _ _ _ h2 hpost⟩

theorem storeParsed_fold_stable {K : Type} [LinearOrderedField K]
    (preCoeffs postCoeffs : List (FilterCoeffs K))
    (hpre : ∀ fc ∈ preCoeffs, fc.Stable) (hpost : ∀ fc ∈ postCoeffs, fc.Stable)
    (rs : List Int) :
    ∀ q : Parameters K, AllStable q.m_preFilterCoeffs → AllStable q.m_postFilterCoeffs →
      AllStable (rs.foldl (storeParsed preCoeffs postCoeffs) q).m_preFilterCoeffs ∧
      AllStable (rs.foldl (storeParsed preCoeffs postCoeffs) q).m_postFilterCoeffs := by
  induction rs with
  | nil => intro q h1 h2; exact ⟨h1, h2⟩
  | cons r rs ih =>
    intro q h1 h2
    simp only [List.foldl_cons]
    have h := storeParsed_stable preCoeffs postCoeffs hpre hpost q r h1 h2
    exact ih _ h.1 h.2

theorem parseIDAFormat_stable {K : Type} [LinearOrderedField K] (p : Parameters K)
    (allBytes : List Nat)
    (h1 : AllStable p.m_preFilterCoeffs) (h2 : AllStable p.m_postFilterCoeffs) :
    AllStable (p.parseIDAFormat allBytes).2.m_preFilterCoeffs ∧
    AllStable (p.parseIDAFormat allBytes).2.m_postFilterCoeffs := by
  unfold parseIDAFormat
  by_cases he : allBytes.isEmpty = true
  · simp only [he, if_true]; exact ⟨h1, h2⟩
  · simp only [he, Bool.false_eq_true, if_false]
    split_ifs with h30 hne
    · exact storeParsed_fold_stable _ _ (stageLoop_stable _ _ _ _) (stageLoop_stable _ _ _ _)
        rates _ h1 h2
    · exact ⟨h1, h2⟩
    · exact ⟨h1, h2⟩

theorem loadFromFile_stable {K : Type} [LinearOrderedField K] (p : Parameters K)
    (file : Option (List Nat))
    (h1 : AllStable p.m_preFilterCoeffs) (h2 : AllStable p.m_postFilterCoeffs) :
    AllStable (p.loadFromFile file).2.m_preFilterCoeffs ∧
    AllStable (p.loadFromFile file).2.m_postFilterCoeffs := by
  cases file with
  | none => exact ⟨h1, h2⟩
  | some allBytes =>
    have h := parseIDAFormat_stable p allBytes h1 h2
    simp only [loadFromFile]
    split_ifs
    · exact h
    · exact h

theorem runLoads_stable {K : Type} [LinearOrderedField K] (loads : List (Option (List Nat))) :
    ∀ p : Parameters K, AllStable p.m_preFilterCoeffs → AllStable p.m_postFilterCoeffs →
      AllStable (runLoads p loads).m_preFilterCoeffs ∧
      AllStable (runLoads p loads).m_postFilterCoeffs := by
  induction loads with
  | nil => intro p h1 h2; exact ⟨h1, h2⟩
  | cons f fs ih =>
    intro p h1 h2
    have h := loadFromFile_stable p f h1 h2
    exact ih _ h.1 h.2

theorem stableStages_short {K : Type} [LinearOrderedField K] (l : List K)
    (h : l.length < 5) : stableStages l = [] := by
  rcases l with _ | ⟨x0, _ | ⟨x1, _ | ⟨x2, _ | ⟨x3, _ | ⟨x4, rest⟩⟩⟩⟩⟩
  · rfl
  · rfl
  · rfl
  · rfl
  · rfl
  · simp only [List.length_cons] at h
    omega

theorem drop_five {K : Type} [Zero K] (l : List K) (i : Nat) (h : i + 4 < l.length) :
    l.drop i = l.getD i 0 :: l.getD (i + 1) 0 :: l.getD (i + 2) 0 :: l.getD (i + 3) 0 ::
      l.getD (i + 4) 0 :: l.drop (i + 5) := by
  rw [List.getD_eq_getElem l 0 (by omega : i < l.length),
    List.getD_eq_getElem l 0 (by omega : i + 1 < l.length),
    List.getD_eq_getElem l 0 (by omega : i + 2 < l.length),
    List.getD_eq_getElem l 0 (by omega : i + 3 < l.length),
    List.getD_eq_getElem l 0 (by omega : i + 4 < l.length)]
  rw [List.drop_eq_getElem_cons (by omega : i < l.length),
    List.drop_eq_getElem_cons (by omega : i + 1 < l.length),
    List.drop_eq_getElem_cons (by omega : i + 1 + 1 < l.length),
    List.drop_eq_getElem_cons (by omega : i + 1 + 1 + 1 < l.length),
    List.drop_eq_getElem_cons (by omega : i + 1 + 1 + 1 + 1 < l.length)]

theorem getD_take {K : Type} [Zero K] (raw : List K) (limit j : Nat) (h : j < limit) :
    (raw.take limit).getD j 0 = raw.getD j 0 := by
  simp only [List.getD_eq_getElem?_getD, List.getElem?_take_of_lt h]

theorem stageLoop_eq_stableStages {K : Type} [LinearOrderedField K] (raw : List K)
    (limit : Nat) (hl : limit ≤ raw.length) :
    ∀ fuel i, limit - i ≤ fuel →
      stageLoop raw limit fuel i = stableStages ((raw.take limit).drop i) := by
  have hlen : (raw.take limit).length = limit := by simp [hl]
  intro fuel
  induction fuel with
  | zero =>
    intro i hi
    have : (raw.take limit).drop i = [] := by
      apply List.drop_eq_nil_of_le; omega
    rw [this]; rfl
  | succ fuel ih =>
    intro i hi
    simp only [stageLoop]
    by_cases h : i + 4 < limit
    · rw [drop_five (raw.take limit) i (by omega)]
      simp only [h, if_true, stableStages, getD_take raw limit i (by omega),
        getD_take raw limit (i + 1) (by omega), getD_take raw limit (i + 2) (by omega),
        getD_take raw limit (i + 3) (by omega), getD_take raw limit (i + 4) (by omega),
        ih (i + 5) (by omega)]
    · simp only [h, if_false]
      rw [stableStages_short]
      rw [List.length_drop]; omega

theorem parsedPre_eq {K : Type} [LinearOrderedField K] (raw : List K) :
    parsedPre raw = stableStages (raw.take (raw.length / 2)) := by
  unfold parsedPre
  rw [stageLoop_eq_stableStages raw _ (Nat.div_le_self _ _) _ 0 (by omega)]
  rfl

theorem parsedPost_eq {K : Type} [LinearOrderedField K] (raw : List K) :
    parsedPost raw = stableStages (raw.drop (raw.length / 2)) := by
  unfold parsedPost
  rw [stageLoop_eq_stableStages raw _ (le_refl _) _ _ (by omega), List.take_length]

theorem storeParsed_fold_pre {K : Type} (preCoeffs postCoeffs : List (FilterCoeffs K))
    (hpre : preCoeffs ≠ []) (rs : List Int) :
    ∀ (q : Parameters K) (rate : Int),
      (rs.foldl (storeParsed preCoeffs postCoeffs) q).m_preFilterCoeffs.value rate [] =
        if rate ∈ rs then preCoeffs else q.m_preFilterCoeffs.value rate [] := by
  have hE : preCoeffs.isEmpty = false := by
    cases preCoeffs with
    | nil => exact absurd rfl hpre
    | cons _ _ => rfl
  induction rs with
  | nil => intro q rate; simp
  | cons r rs ih =>
    intro q rate
    simp only [List.foldl_cons, ih, List.mem_cons]
    have hstep : (storeParsed preCoeffs postCoeffs q r).m_preFilterCoeffs
        = q.m_preFilterCoeffs.insert r preCoeffs := by
      unfold storeParsed
      simp only [hE, Bool.not_false, if_true]
      split_ifs <;> rfl
    rw [hstep]
    by_cases h1 : rate ∈ rs
    · simp [h1]
    · by_cases h2 : rate = r
      · subst h2; simp [QMap.value_insert_self]
      · simp [h1, h2, QMap.value_insert_other _ _ _ _ _ h2]

theorem storeParsed_fold_post {K : Type} (preCoeffs postCoeffs : List (FilterCoeffs K))
    (hpost : postCoeffs ≠ []) (rs : List Int) :
    ∀ (q : Parameters K) (rate : Int),
      (rs.foldl (storeParsed preCoeffs postCoeffs) q).m_postFilterCoeffs.value rate [] =
        if rate ∈ rs then postCoeffs else q.m_postFilterCoeffs.value rate [] := by
  have hE : postCoeffs.isEmpty = false := by
    cases postCoeffs with
    | nil => exact absurd rfl hpost
    | cons _ _ => rfl
  induction rs with
  | nil => intro q rate; simp
  | cons r rs ih =>
    intro q rate
    simp only [List.foldl_cons, ih, List.mem_cons]
    have hstep : (storeParsed preCoeffs postCoeffs q r).m_postFilterCoeffs
        = q.m_postFilterCoeffs.insert r postCoeffs := by
      unfold storeParsed
      simp only [hE, Bool.not_false, if_true]
      split_ifs <;> rfl
    rw [hstep]
    by_cases h1 : rate ∈ rs
    · simp [h1]
    · by_cases h2 : rate = r
      · subst h2; simp [QMap.value_insert_self]
      · simp [h1, h2, QMap.value_insert_other _ _ _ _ _ h2]

theorem storeParsed_fold_pre_kept {K : Type} (postCoeffs : List (FilterCoeffs K))
    (rs : List Int) :
    ∀ q : Parameters K,
      (rs.foldl (storeParsed [] postCoeffs) q).m_preFilterCoeffs = q.m_preFilterCoeffs := by
  induction rs with
  | nil => intro q; rfl
  | cons r rs ih =>
    intro q
    simp only [List.foldl_cons, ih]
    unfold storeParsed
    simp only [List.isEmpty_nil, Bool.not_true, Bool.false_eq_true, if_false]
    split_ifs <;> rfl

theorem storeParsed_fold_post_kept {K : Type} (preCoeffs : List (FilterCoeffs K))
    (rs : List Int) :
    ∀ q : Parameters K,
      (rs.foldl (storeParsed preCoeffs []) q).m_postFilterCoeffs = q.m_postFilterCoeffs := by
  induction rs with
  | nil => intro q; rfl
  | cons r rs ih =>
    intro q
    simp only [List.foldl_cons, ih]
    unfold storeParsed
    simp only [List.isEmpty_nil, Bool.not_true, Bool.false_eq_true, if_false]
    split_ifs <;> rfl

theorem keptValues_nil (K : Type) [LinearOrderedField K] : keptValues K [] = [] := rfl

theorem range_map_getD_chunk (pre c rest : List Nat) (hc : c.length = 8) :
    (List.range 8).map (fun j => (pre ++ (c ++ rest)).getD (pre.length + j) 0) = c := by
  rcases c with _ | ⟨a0, _ | ⟨a1, _ | ⟨a2, _ | ⟨a3, _ | ⟨a4, _ | ⟨a5, _ | ⟨a6, _ | ⟨a7, c⟩⟩⟩⟩⟩⟩⟩⟩ <;>
    simp only [List.length_cons, List.length_nil] at hc <;> try omega
  have hnil : c = [] := List.length_eq_zero.mp (by omega)
  subst hnil
  have hr : List.range 8 = [0, 1, 2, 3, 4, 5, 6, 7] := rfl
  simp [hr, List.getElem?_append_right]

theorem convertLoop_chunks {K : Type} [LinearOrderedField K] (chunks : List (List Nat))
    (tail : List Nat) (hch : ∀ c ∈ chunks, c.length = 8) (ht : tail.length < 8) :
    ∀ (pre : List Nat) (fuel : Nat), chunks.length ≤ fuel →
      convertLoop (pre ++ (chunks.flatten ++ tail)) fuel pre.length
        = chunks.filterMap (fun c => keepValue (bytesToDouble K c)) := by
  induction chunks with
  | nil =>
    intro pre fuel _
    cases fuel with
    | zero => rfl
    | succ fuel =>
      have : ¬ (pre.length + 7 < (pre ++ ([].flatten ++ tail)).length) := by
        simp only [List.flatten_nil, List.nil_append, List.length_append]; omega
      simp only [convertLoop, this, if_false, List.filterMap_nil]
  | cons c cs ih =>
    intro pre fuel hfuel
    have hc : c.length = 8 := hch c (List.mem_cons_self _ _)
    cases fuel with
    | zero => simp at hfuel
    | succ fuel =>
      have hcond : pre.length + 7 < (pre ++ ((c :: cs).flatten ++ tail)).length := by
        simp only [List.flatten_cons, List.length_append, hc]; omega
      have hlist : pre ++ ((c :: cs).flatten ++ tail) = pre ++ (c ++ (cs.flatten ++ tail)) := by
        simp
      have hlist2 : pre ++ ((c :: cs).flatten ++ tail)
          = (pre ++ c) ++ (cs.flatten ++ tail) := by simp
      have hidx : pre.length + 8 = (pre ++ c).length := by simp [hc]
      have hrec := ih (fun c' hc' => hch c' (List.mem_cons_of_mem _ hc')) (pre ++ c) fuel
        (by simp at hfuel; omega)
      simp only [convertLoop, hcond, if_true]
      rw [hlist, range_map_getD_chunk pre c _ hc, ← hlist, hidx, hlist2, hrec]
      cases hd : bytesToDouble K c with
      | nonFinite => simp [List.filterMap_cons, keepValue, hd]
      | finite v =>
        by_cases hv : |v| < 10000000000
        · simp [List.filterMap_cons, keepValue, hd, hv]
        · simp [List.filterMap_cons, keepValue, hd, hv]

theorem keptValues_chunks (K : Type) [LinearOrderedField K] (chunks : List (List Nat))
    (hch : ∀ c ∈ chunks, c.length = 8) :
    keptValues K chunks.flatten = chunks.filterMap (fun c => keepValue (bytesToDouble K c)) := by
  have h := convertLoop_chunks (K := K) chunks [] hch (by simp) [] chunks.flatten.length (by
    rw [List.length_flatten]
    have : ∀ l : List (List Nat), (∀ c ∈ l, c.length = 8) →
        l.length ≤ (l.map List.length).sum := by
      intro l
      induction l with
      | nil => intro _; simp
      | cons x xs ihx =>
        intro hx
        have h1 := hx x (List.mem_cons_self _ _)
        have h2 := ihx (fun c hc => hx c (List.mem_cons_of_mem _ hc))
        simp only [List.map_cons, List.sum_cons, List.length_cons]
        omega
    exact this chunks hch)
  simpa [keptValues] using h

theorem bytesToDouble_two (K : Type) [LinearOrderedField K] :
    bytesToDouble K bytesOfTwo = Double.finite 2 := by
  have hv : (List.range 8).foldl
      (fun value i => value ||| ((bytesOfTwo.getD i 0 % 256) <<< (i * 8))) 0 = 2 ^ 62 := by
    decide
  have h1 : ((2 ^ 62 : Nat) >>> 63) % 2 = 0 := by decide
  have h2 : ((2 ^ 62 : Nat) >>> 52) % 2048 = 1024 := by decide
  have h3 : (2 ^ 62 : Nat) % 2 ^ 52 = 0 := by decide
  simp only [bytesToDouble, bytesOfTwo, List.length_cons, List.length_nil]
  simp only [bytesOfTwo] at hv
  rw [if_neg (by decide), hv]
  simp only [decodeDouble, h1, h2, h3]
  norm_num

theorem bytesToDouble_zero (K : Type) [LinearOrderedField K] :
    bytesToDouble K (List.replicate 8 0) = Double.finite 0 := by
  have hv : (List.range 8).foldl
      (fun value i => value ||| (((List.replicate 8 0).getD i 0 % 256) <<< (i * 8))) 0 = 0 := by
    decide
  simp only [bytesToDouble, List.length_replicate]
  rw [if_neg (by decide), hv]
  simp [decodeDouble]

theorem keptValues_bytesUnstablePre (K : Type) [LinearOrderedField K] :
    keptValues K bytesUnstablePre = List.replicate 15 2 ++ List.replicate 15 0 := by
  have hb : bytesUnstablePre
      = (List.replicate 15 bytesOfTwo ++ List.replicate 15 (List.replicate 8 0)).flatten := by
    rfl
  rw [hb, keptValues_chunks K _ (by
    intro c hc
    rcases List.mem_append.mp hc with h | h
    · rw [List.eq_of_mem_replicate h]; rfl
    · rw [List.eq_of_mem_replicate h]; rfl)]
  simp only [List.filterMap_append, List.filterMap_replicate, bytesToDouble_two,
    bytesToDouble_zero, keepValue]
  norm_num

theorem keptValues_bytesAllZero (K : Type) [LinearOrderedField K] :
    keptValues K bytesAllZero = List.replicate 30 0 := by
  have hb : bytesAllZero = (List.replicate 30 (List.replicate 8 0)).flatten := by
    rfl
  rw [hb, keptValues_chunks K _ (by
    intro c hc
    rw [List.eq_of_mem_replicate hc]; rfl)]
  simp only [List.filterMap_replicate, bytesToDouble_zero, keepValue]
  norm_num

theorem parseIDAFormat_replaced {K : Type} [LinearOrderedField K] (p : Parameters K)
    (allBytes : List Nat) (h30 : 30 ≤ (keptValues K allBytes).length)
    (hst : stableStages ((keptValues K allBytes).take ((keptValues K allBytes).length / 2)) ≠ []
      ∨ stableStages ((keptValues K allBytes).drop ((keptValues K allBytes).length / 2)) ≠ []) :
    (p.parseIDAFormat allBytes).2 =
      rates.foldl
        (storeParsed
          (stableStages ((keptValues K allBytes).take ((keptValues K allBytes).length / 2)))
          (stableStages ((keptValues K allBytes).drop ((keptValues K allBytes).length / 2))))
        { p with m_rawCoeffs := keptValues K allBytes } := by
  have hne : allBytes.isEmpty = false := by
    cases allBytes with
    | nil => rw [keptValues_nil] at h30; simp at h30
    | cons _ _ => rfl
  have hcond : (!(stableStages ((keptValues K allBytes).take
        ((keptValues K allBytes).length / 2))).isEmpty
      || !(stableStages ((keptValues K allBytes).drop
        ((keptValues K allBytes).length / 2))).isEmpty) = true := by
    rcases hst with h | h
    · have : (stableStages ((keptValues K allBytes).take
          ((keptValues K allBytes).length / 2))).isEmpty = false := by
        cases hx : stableStages ((keptValues K allBytes).take
          ((keptValues K allBytes).length / 2)) with
        | nil => exact absurd hx h
        | cons _ _ => rfl
      simp [this]
    · have : (stableStages ((keptValues K allBytes).drop
          ((keptValues K allBytes).length / 2))).isEmpty = false := by
        cases hx : stableStages ((keptValues K allBytes).drop
          ((keptValues K allBytes).length / 2)) with
        | nil => exact absurd hx h
        | cons _ _ => rfl
      simp [this]
  simp only [parseIDAFormat, hne, Bool.false_eq_true, if_false, ge_iff_le, h30, if_true,
    parsedPre_eq, parsedPost_eq, hcond]

theorem stableStages_twos (K : Type) [LinearOrderedField K] :
    stableStages (List.replicate 15 (2 : K)) = [] := by
  simp [List.replicate, stableStages, FilterCoeffs.Stable]

theorem stableStages_zeros (K : Type) [LinearOrderedField K] :
    stableStages (List.replicate 15 (0 : K)) = List.replicate 3 ⟨0, 0, 0, 0, 0⟩ := by
  simp [List.replicate, stableStages, FilterCoeffs.Stable]

theorem take_halves (K : Type) [LinearOrderedField K] :
    (List.replicate 15 (2 : K) ++ List.replicate 15 0).take 15 = List.replicate 15 2 ∧
    (List.replicate 15 (2 : K) ++ List.replicate 15 0).drop 15 = List.replicate 15 0 := by
  constructor
  · exact List.take_left' (by simp)
  · exact List.drop_left' (by simp)

theorem construct_pre_48000 (K : Type) [LinearOrderedField K] :
    (construct K).m_preFilterCoeffs.value 48000 [] = defaultPreCoeffs K := by
  rfl

theorem insert_all_rates {V : Type} (t v : V) :
    rates.foldl (fun m rate => QMap.insert m rate v) (rates.map (fun rate => (rate, t)))
      = rates.map (fun rate => (rate, v)) := by
  rfl

theorem storeParsed_fold_pre_map {K : Type} (preCoeffs postCoeffs : List (FilterCoeffs K))
    (hpre : preCoeffs ≠ []) (rs : List Int) :
    ∀ q : Parameters K,
      (rs.foldl (storeParsed preCoeffs postCoeffs) q).m_preFilterCoeffs =
        rs.foldl (fun m rate => QMap.insert m rate preCoeffs) q.m_preFilterCoeffs := by
  have hE : preCoeffs.isEmpty = false := by
    cases preCoeffs with
    | nil => exact absurd rfl hpre
    | cons _ _ => rfl
  induction rs with
  | nil => intro q; rfl
  | cons r rs ih =>
    intro q
    simp only [List.foldl_cons, ih]
    congr 1
    unfold storeParsed
    simp only [hE, Bool.not_false, if_true]
    split_ifs <;> rfl

theorem storeParsed_fold_post_map {K : Type} (preCoeffs postCoeffs : List (FilterCoeffs K))
    (hpost : postCoeffs ≠ []) (rs : List Int) :
    ∀ q : Parameters K,
      (rs.foldl (storeParsed preCoeffs postCoeffs) q).m_postFilterCoeffs =
        rs.foldl (fun m rate => QMap.insert m rate postCoeffs) q.m_postFilterCoeffs := by
  have hE : postCoeffs.isEmpty = false := by
    cases postCoeffs with
    | nil => exact absurd rfl hpost
    | cons _ _ => rfl
  induction rs with
  | nil => intro q; rfl
  | cons r rs ih =>
    intro q
    simp only [List.foldl_cons, ih]
    congr 1
    unfold storeParsed
    simp only [hE, Bool.not_false, if_true]
    split_ifs <;> rfl

theorem uniform_construct (K : Type) [Field K] : Uniform (construct K) :=
  ⟨defaultPreCoeffs K, defaultPostCoeffs K, rfl, rfl⟩

theorem stageLoop_eq_candidates {K : Type} [LinearOrderedField K] (raw : List K)
    (limit : Nat) :
    ∀ fuel start, stageLoop raw limit fuel start =
      (((List.range fuel).filter fun k => decide (start + 5 * k + 4 < limit)).map
        (candidateAt raw start)).filter fun fc => decide fc.Stable := by
  intro fuel
  induction fuel with
  | zero => intro start; rfl
  | succ m ih =>
    intro start
    have htail : ((List.map Nat.succ (List.range m)).filter
          fun k => decide (start + 5 * k + 4 < limit)).map (candidateAt raw start)
        = ((List.range m).filter fun k => decide (start + 5 + 5 * k + 4 < limit)).map
          (candidateAt raw (start + 5)) := by
      rw [List.filter_map, List.map_map]
      have hf : ((fun k => decide (start + 5 * k + 4 < limit)) ∘ Nat.succ)
          = fun k => decide (start + 5 + 5 * k + 4 < limit) := by
        funext k
        simp only [Function.comp, Nat.succ_eq_add_one]
        congr 1
        apply propext
        constructor <;> intro h <;> omega
      have hg : candidateAt raw start ∘ Nat.succ = candidateAt raw (start + 5) := by
        funext k
        simp only [Function.comp, candidateAt, Nat.succ_eq_add_one]
        have e : start + 5 * (k + 1) = start + 5 + 5 * k := by omega
        rw [e]
      rw [hf, hg]
    simp only [stageLoop]
    rw [List.range_succ_eq_map, List.filter_cons]
    by_cases h : start + 4 < limit
    · have h0 : decide (start + 5 * 0 + 4 < limit) = true := by simpa using h
      rw [if_pos h, if_pos h0, List.map_cons, htail, List.filter_cons, ih (start + 5)]
      have hc : candidateAt raw start 0 =
          { b0 := raw.getD start 0, b1 := raw.getD (start + 1) 0, b2 := raw.getD (start + 2) 0
            a1 := raw.getD (start + 3) 0, a2 := raw.getD (start + 4) 0 } := by
        simp [candidateAt]
      rw [hc]
      by_cases hs : (FilterCoeffs.mk (raw.getD start 0) (raw.getD (start + 1) 0)
          (raw.getD (start + 2) 0) (raw.getD (start + 3) 0) (raw.getD (start + 4) 0)).Stable
      · simp only [hs, if_true, decide_True]
      · simp only [hs, if_false, decide_False, Bool.false_eq_true]
    · have h0 : ¬ decide (start + 5 * 0 + 4 < limit) = true := by simpa using h
      rw [if_neg h, if_neg h0, htail]
      have hnil : ((List.range m).filter fun k => decide (start + 5 + 5 * k + 4 < limit))
          = [] := by
        apply List.filter_eq_nil_iff.mpr
        intro k _
        simp only [decide_eq_true_eq]
        omega
      rw [hnil]
      rfl

theorem parsedPre_eq_candidates {K : Type} [LinearOrderedField K] (raw : List K) :
    parsedPre raw = stableCandidates raw 0 (raw.length / 2) := by
  unfold parsedPre stableCandidates
  exact stageLoop_eq_candidates raw _ _ 0

theorem parsedPost_eq_candidates {K : Type} [LinearOrderedField K] (raw : List K) :
    parsedPost raw = stableCandidates raw (raw.length / 2) raw.length := by
  unfold parsedPost stableCandidates
  exact stageLoop_eq_candidates raw _ _ _

theorem stableStages_eq_candidates {K : Type} [LinearOrderedField K] (raw : List K) :
    stableStages (raw.take (raw.length / 2)) = stableCandidates raw 0 (raw.length / 2) ∧
    stableStages (raw.drop (raw.length / 2))
      = stableCandidates raw (raw.length / 2) raw.length :=
  ⟨(parsedPre_eq raw).symm.trans (parsedPre_eq_candidates raw),
    (parsedPost_eq raw).symm.trans (parsedPost_eq_candidates raw)⟩

theorem stableCandidates_allZero (K : Type) [LinearOrderedField K] :
    stableCandidates (List.replicate 30 (0 : K)) 0 ((List.replicate 30 (0 : K)).length / 2)
      ≠ [] ∧
    stableCandidates (List.replicate 30 (0 : K)) ((List.replicate 30 (0 : K)).length / 2)
      (List.replicate 30 (0 : K)).length ≠ [] := by
  have h := stableStages_eq_candidates (List.replicate 30 (0 : K))
  rw [← h.1, ← h.2]
  constructor <;> simp [List.replicate, stableStages, FilterCoeffs.Stable]

theorem parseIDAFormat_flag {K : Type} [LinearOrderedField K] (p : Parameters K)
    (allBytes : List Nat) :
    (p.parseIDAFormat allBytes).1 = !(keptValues K allBytes).isEmpty := by
  cases allBytes with
  | nil => simp [parseIDAFormat, keptValues_nil]
  | cons b bs => simp [parseIDAFormat]

theorem loadFromFile_flag {K : Type} [LinearOrderedField K] (p : Parameters K)
    (allBytes : List Nat) :
    (p.loadFromFile (some allBytes)).1 = (p.parseIDAFormat allBytes).1 := by
  simp only [loadFromFile]
  split_ifs with h
  · exact h.symm
  · simpa using h

theorem loadFromFile_tables {K : Type} [LinearOrderedField K] (p : Parameters K)
    (allBytes : List Nat) :
    (p.loadFromFile (some allBytes)).2.m_preFilterCoeffs
        = (p.parseIDAFormat allBytes).2.m_preFilterCoeffs ∧
    (p.loadFromFile (some allBytes)).2.m_postFilterCoeffs
        = (p.parseIDAFormat allBytes).2.m_postFilterCoeffs := by
  simp only [loadFromFile]
  split_ifs <;> exact ⟨rfl, rfl⟩

theorem parseIDAFormat_tables_kept {K : Type} [LinearOrderedField K] (p : Parameters K)
    (allBytes : List Nat) (h : ¬ Replaces K allBytes) :
    (p.parseIDAFormat allBytes).2.m_preFilterCoeffs = p.m_preFilterCoeffs ∧
    (p.parseIDAFormat allBytes).2.m_postFilterCoeffs = p.m_postFilterCoeffs := by
  unfold parseIDAFormat
  by_cases he : allBytes.isEmpty = true
  · simp only [he, if_true]; exact ⟨trivial, trivial⟩
  · simp only [he, Bool.false_eq_true, if_false]
    by_cases h30 : 30 ≤ (keptValues K allBytes).length
    · have hno : ¬ (stableStages ((keptValues K allBytes).take
            ((keptValues K allBytes).length / 2)) ≠ []
          ∨ stableStages ((keptValues K allBytes).drop
            ((keptValues K allBytes).length / 2)) ≠ []) := fun hc => h ⟨h30, hc⟩
      have h1 : stableStages ((keptValues K allBytes).take
            ((keptValues K allBytes).length / 2)) = [] := by
        by_contra hc; exact hno (Or.inl hc)
      have h2 : stableStages ((keptValues K allBytes).drop
            ((keptValues K allBytes).length / 2)) = [] := by
        by_contra hc; exact hno (Or.inr hc)
      simp only [ge_iff_le, h30, if_true, parsedPre_eq, parsedPost_eq, h1, h2,
        List.isEmpty_nil, Bool.not_true, Bool.or_self, Bool.false_eq_true, if_false]
      exact ⟨trivial, trivial⟩
    · simp only [ge_iff_le, h30, if_false]
      exact ⟨trivial, trivial⟩

theorem uniform_parseIDAFormat {K : Type} [LinearOrderedField K] (p : Parameters K)
    (allBytes : List Nat) (h : Uniform p) : Uniform (p.parseIDAFormat allBytes).2 := by
  obtain ⟨tpre, tpost, h1, h2⟩ := h
  by_cases hrep : Replaces K allBytes
  · rw [parseIDAFormat_replaced p allBytes hrep.1 hrep.2]
    refine ⟨if stableStages ((keptValues K allBytes).take ((keptValues K allBytes).length / 2))
          = [] then tpre
        else stableStages ((keptValues K allBytes).take ((keptValues K allBytes).length / 2)),
      if stableStages ((keptValues K allBytes).drop ((keptValues K allBytes).length / 2))
          = [] then tpost
        else stableStages ((keptValues K allBytes).drop ((keptValues K allBytes).length / 2)),
      ?_, ?_⟩
    · by_cases he : stableStages ((keptValues K allBytes).take
          ((keptValues K allBytes).length / 2)) = []
      · rw [if_pos he, he, storeParsed_fold_pre_kept]; exact h1
      · rw [if_neg he, storeParsed_fold_pre_map _ _ he]
        show rates.foldl _ p.m_preFilterCoeffs = _
        rw [h1, insert_all_rates]
    · by_cases he : stableStages ((keptValues K allBytes).drop
          ((keptValues K allBytes).length / 2)) = []
      · rw [if_pos he, he, storeParsed_fold_post_kept]; exact h2
      · rw [if_neg he, storeParsed_fold_post_map _ _ he]
        show rates.foldl _ p.m_postFilterCoeffs = _
        rw [h2, insert_all_rates]
  · have hk := parseIDAFormat_tables_kept p allBytes hrep
    exact ⟨tpre, tpost, hk.1.trans h1, hk.2.trans h2⟩

theorem uniform_loadFromFile {K : Type} [LinearOrderedField K] (p : Parameters K)
    (file : Option (List Nat)) (h : Uniform p) : Uniform (p.loadFromFile file).2 := by
  cases file with
  | none => exact h
  | some allBytes =>
    obtain ⟨tpre, tpost, h1, h2⟩ := uniform_parseIDAFormat p allBytes h
    have hl := loadFromFile_tables p allBytes
    exact ⟨tpre, tpost, hl.1.trans h1, hl.2.trans h2⟩

theorem uniform_runLoads {K : Type} [LinearOrderedField K]
    (loads : List (Option (List Nat))) :
    ∀ p : Parameters K, Uniform p → Uniform (runLoads p loads) := by
  induction loads with
  | nil => intro p h; exact h
  | cons f fs ih => intro p h; exact ih _ (uniform_loadFromFile p f h)

theorem uniform_of_reachable {K : Type} [LinearOrderedField K] {p : Parameters K}
    (h : Reachable p) : Uniform p := by
  obtain ⟨loads, rfl⟩ := h
  exact uniform_runLoads loads _ (uniform_construct K)

theorem populated_construct (K : Type) [Field K] : Populated (construct K) :=
  ⟨defaultPreCoeffs K, defaultPostCoeffs K, by simp [defaultPreCoeffs],
    by simp [defaultPostCoeffs], rfl, rfl⟩

theorem populated_parseIDAFormat {K : Type} [LinearOrderedField K] (p : Parameters K)
    (allBytes : List Nat) (h : Populated p) : Populated (p.parseIDAFormat allBytes).2 := by
  obtain ⟨tpre, tpost, n1, n2, h1, h2⟩ := h
  by_cases hrep : Replaces K allBytes
  · rw [parseIDAFormat_replaced p allBytes hrep.1 hrep.2]
    refine ⟨if stableStages ((keptValues K allBytes).take ((keptValues K allBytes).length / 2))
          = [] then tpre
        else stableStages ((keptValues K allBytes).take ((keptValues K allBytes).length / 2)),
      if stableStages ((keptValues K allBytes).drop ((keptValues K allBytes).length / 2))
          = [] then tpost
        else stableStages ((keptValues K allBytes).drop ((keptValues K allBytes).length / 2)),
      ?_, ?_, ?_, ?_⟩
    · split_ifs with he
      · exact n1
      · exact he
    · split_ifs with he
      · exact n2
      · exact he
    · by_cases he : stableStages ((keptValues K allBytes).take
          ((keptValues K allBytes).length / 2)) = []
      · rw [if_pos he, he, storeParsed_fold_pre_kept]; exact h1
      · rw [if_neg he, storeParsed_fold_pre_map _ _ he]
        show rates.foldl _ p.m_preFilterCoeffs = _
        rw [h1, insert_all_rates]
    · by_cases he : stableStages ((keptValues K allBytes).drop
          ((keptValues K allBytes).length / 2)) = []
      · rw [if_pos he, he, storeParsed_fold_post_kept]; exact h2
      · rw [if_neg he, storeParsed_fold_post_map _ _ he]
        show rates.foldl _ p.m_postFilterCoeffs = _
        rw [h2, insert_all_rates]
  · have hk := parseIDAFormat_tables_kept p allBytes hrep
    exact ⟨tpre, tpost, n1, n2, hk.1.trans h1, hk.2.trans h2⟩

theorem populated_loadFromFile {K : Type} [LinearOrderedField K] (p : Parameters K)
    (file : Option (List Nat)) (h : Populated p) : Populated (p.loadFromFile file).2 := by
  cases file with
  | none => exact h
  | some allBytes =>
    obtain ⟨tpre, tpost, n1, n2, h1, h2⟩ := populated_parseIDAFormat p allBytes h
    have hl := loadFromFile_tables p allBytes
    exact ⟨tpre, tpost, n1, n2, hl.1.trans h1, hl.2.trans h2⟩

theorem populated_runLoads {K : Type} [LinearOrderedField K]
    (loads : List (Option (List Nat))) :
    ∀ p : Parameters K, Populated p → Populated (runLoads p loads) := by
  induction loads with
  | nil => intro p h; exact h
  | cons f fs ih => intro p h; exact ih _ (populated_loadFromFile p f h)

theorem populated_of_reachable {K : Type} [LinearOrderedField K] {p : Parameters K}
    (h : Reachable p) : Populated p := by
  obtain ⟨loads, rfl⟩ := h
  exact populated_runLoads loads _ (populated_construct K)

theorem contains_map_const {V : Type} (rs : List Int) (t : V) (key : Int) :
    QMap.contains (rs.map (fun rate => (rate, t))) key = true ↔ key ∈ rs := by
  induction rs with
  | nil => simp [QMap.contains]
  | cons r rs ih =>
    simp only [QMap.contains, List.map_cons, List.any_cons, Bool.or_eq_true, beq_iff_eq,
      List.mem_cons] at ih ⊢
    rw [ih]
    constructor
    · rintro (h | h)
      · exact Or.inl h.symm
      · exact Or.inr h
    · rintro (h | h)
      · exact Or.inl h.symm
      · exact Or.inr h

theorem value_map_const {V : Type} (rs : List Int) (t dflt : V) (key : Int)
    (h : key ∈ rs) : QMap.value (rs.map (fun rate => (rate, t))) key dflt = t := by
  induction rs with
  | nil => simp at h
  | cons r rs ih =>
    by_cases hr : r = key
    · subst hr; simp [QMap.value]
    · have hmem : key ∈ rs := by
        rcases List.mem_cons.mp h with h | h
        · exact absurd h.symm hr
        · exact h
      have hb : (r == key) = false := by simpa using hr
      have := ih hmem
      simp only [QMap.value, List.map_cons, List.find?, hb] at this ⊢
      exact this

theorem lookup_uniform {V : Type} (t dflt : V) (r : Int) :
    (if QMap.contains (rates.map (fun rate => (rate, t))) r
      then QMap.value (rates.map (fun rate => (rate, t))) r dflt
      else if QMap.contains (rates.map (fun rate => (rate, t))) 48000
        then QMap.value (rates.map (fun rate => (rate, t))) 48000 dflt
        else if (rates.map (fun rate => (rate, t))).isEmpty then dflt
          else QMap.first (rates.map (fun rate => (rate, t))) dflt) = t := by
  by_cases hr : r ∈ rates
  · rw [if_pos ((contains_map_const rates t r).mpr hr), value_map_const rates t dflt r hr]
  · have hc : ¬ QMap.contains (rates.map (fun rate => (rate, t))) r = true :=
      fun h => hr ((contains_map_const rates t r).mp h)
    have h48 : (48000 : Int) ∈ rates := by decide
    rw [if_neg hc, if_pos ((contains_map_const rates t 48000).mpr h48),
      value_map_const rates t dflt 48000 h48]

theorem keptValues_bytesOneZero (K : Type) [LinearOrderedField K] :
    keptValues K bytesOneZero = [0] := by
  have hb : bytesOneZero = (List.replicate 1 (List.replicate 8 0)).flatten := rfl
  rw [hb, keptValues_chunks K _ (by
    intro c hc
    rw [List.eq_of_mem_replicate hc]; rfl)]
  simp only [List.filterMap_replicate, bytesToDouble_zero, keepValue]
  norm_num

end Parameters

/-! ## Lemmas: FilterBank -/

namespace FilterBank

theorem monoStage_fold_acc {K : Type} [Field K] (stages : List (BiquadState K)) :
    ∀ (x : K) (acc : List (BiquadState K)),
      stages.foldl monoStage (x, acc) =
        ((stages.foldl monoStage (x, [])).1, acc ++ (stages.foldl monoStage (x, [])).2) := by
  induction stages with
  | nil => intro x acc; simp
  | cons st rest ih =>
    intro x acc
    simp only [List.foldl_cons, monoStage, List.nil_append]
    rw [ih _ (acc ++ _), ih _ [_]]
    simp

theorem monoStage_fold_eq_cascade {K : Type} [Field K] (stages : List (BiquadState K)) :
    ∀ x : K, stages.foldl monoStage (x, []) = cascade stages x := by
  induction stages with
  | nil => intro x; rfl
  | cons st rest ih =>
    intro x
    simp only [List.foldl_cons, monoStage, List.nil_append, cascade, processBiquadSample]
    rw [monoStage_fold_acc, ih]
    simp

theorem stereoStage_fold_acc {K : Type} [Field K] (stages : List (BiquadState K)) :
    ∀ (xL xR : K) (acc : List (BiquadState K)),
      stages.foldl stereoStage (xL, xR, acc) =
        ((stages.foldl stereoStage (xL, xR, [])).1,
          (stages.foldl stereoStage (xL, xR, [])).2.1,
          acc ++ (stages.foldl stereoStage (xL, xR, [])).2.2) := by
  induction stages with
  | nil => intro xL xR acc; simp
  | cons st rest ih =>
    intro xL xR acc
    simp only [List.foldl_cons, stereoStage, List.nil_append]
    rw [ih _ _ (acc ++ _), ih _ _ [_]]
    simp

theorem cascade_congr {K : Type} [Field K] (S : List (BiquadState K)) :
    ∀ (M : List (BiquadState K)) (x : K),
      S.map BiquadState.leftPart = M.map BiquadState.leftPart →
        (cascade S x).1 = (cascade M x).1 ∧
        (cascade S x).2.map BiquadState.leftPart = (cascade M x).2.map BiquadState.leftPart := by
  induction S with
  | nil =>
    intro M x h
    cases M with
    | nil => exact ⟨rfl, rfl⟩
    | cons m ms => simp at h
  | cons st rest ih =>
    intro M x h
    cases M with
    | nil => simp at h
    | cons m ms =>
      simp only [List.map_cons, List.cons.injEq, BiquadState.leftPart, Prod.mk.injEq] at h
      obtain ⟨⟨h0, h1, h2, h3, h4, h5, h6⟩, htail⟩ := h
      have hrec := ih ms (m.b0 * x + m.z1L) htail
      simp only [cascade, List.map_cons, BiquadState.leftPart, h0, h1, h2, h3, h4, h5, h6]
      exact ⟨hrec.1, by rw [hrec.2]⟩

theorem stereo_fold_left {K : Type} [Field K] (stages : List (BiquadState K)) :
    ∀ xL xR : K,
      (stages.foldl stereoStage (xL, xR, [])).1 = (cascade stages xL).1 ∧
      (stages.foldl stereoStage (xL, xR, [])).2.2.map BiquadState.leftPart
        = (cascade stages xL).2.map BiquadState.leftPart := by
  induction stages with
  | nil => intro xL xR; exact ⟨rfl, rfl⟩
  | cons st rest ih =>
    intro xL xR
    simp only [List.foldl_cons, stereoStage, List.nil_append, processBiquadSample]
    rw [stereoStage_fold_acc]
    have hrec := ih (st.b0 * xL + st.z1L) (st.b0 * xR + st.z1R)
    simp only [cascade, List.singleton_append, List.map_cons, BiquadState.leftPart]
    exact ⟨hrec.1, by rw [hrec.2]⟩

theorem stereo_fold_right {K : Type} [Field K] (stages : List (BiquadState K)) :
    ∀ xL xR : K,
      (stages.foldl stereoStage (xL, xR, [])).2.1 = (cascade (stages.map swapChannels) xR).1 ∧
      (stages.foldl stereoStage (xL, xR, [])).2.2.map BiquadState.rightPart
        = (cascade (stages.map swapChannels) xR).2.map BiquadState.leftPart := by
  induction stages with
  | nil => intro xL xR; exact ⟨rfl, rfl⟩
  | cons st rest ih =>
    intro xL xR
    simp only [List.foldl_cons, stereoStage, List.nil_append, processBiquadSample]
    rw [stereoStage_fold_acc]
    have hrec := ih (st.b0 * xL + st.z1L) (st.b0 * xR + st.z1R)
    simp only [cascade, List.singleton_append, List.map_cons, BiquadState.leftPart,
      BiquadState.rightPart, swapChannels]
    exact ⟨hrec.1, by rw [hrec.2]⟩

theorem leftPart_swapChannels {K : Type} (stages : List (BiquadState K)) :
    (stages.map swapChannels).map BiquadState.leftPart = stages.map BiquadState.rightPart := by
  induction stages with
  | nil => rfl
  | cons st rest ih =>
    simp only [List.map_cons, ih]
    rfl

theorem stereoLoop_left {K : Type} [Field K] (S M : List (BiquadState K))
    (left right : Nat → K) (h : S.map BiquadState.leftPart = M.map BiquadState.leftPart) :
    ∀ n, (stereoLoop (S, left, right) n).1.map BiquadState.leftPart
          = (monoLoop (M, left) n).1.map BiquadState.leftPart ∧
        (stereoLoop (S, left, right) n).2.1 = (monoLoop (M, left) n).2 := by
  intro n
  induction n with
  | zero => exact ⟨h, rfl⟩
  | succ n ih =>
    obtain ⟨ih1, ih2⟩ := ih
    simp only [stereoLoop, monoLoop, stereoSample, monoSample]
    have hl := stereo_fold_left (stereoLoop (S, left, right) n).1
      ((stereoLoop (S, left, right) n).2.1 n) ((stereoLoop (S, left, right) n).2.2 n)
    have hc := cascade_congr (stereoLoop (S, left, right) n).1 (monoLoop (M, left) n).1
      ((stereoLoop (S, left, right) n).2.1 n) ih1
    rw [monoStage_fold_eq_cascade, hl.1, hl.2, hc.1, hc.2, ih2]
    exact ⟨rfl, rfl⟩

theorem stereoLoop_right {K : Type} [Field K] (S M : List (BiquadState K))
    (left right : Nat → K)
    (h : S.map BiquadState.rightPart = M.map BiquadState.leftPart) :
    ∀ n, (stereoLoop (S, left, right) n).1.map BiquadState.rightPart
          = (monoLoop (M, right) n).1.map BiquadState.leftPart ∧
        (stereoLoop (S, left, right) n).2.2 = (monoLoop (M, right) n).2 := by
  intro n
  induction n with
  | zero => exact ⟨h, rfl⟩
  | succ n ih =>
    obtain ⟨ih1, ih2⟩ := ih
    simp only [stereoLoop, monoLoop, stereoSample, monoSample]
    have hr := stereo_fold_right (stereoLoop (S, left, right) n).1
      ((stereoLoop (S, left, right) n).2.1 n) ((stereoLoop (S, left, right) n).2.2 n)
    have hc := cascade_congr ((stereoLoop (S, left, right) n).1.map swapChannels)
      (monoLoop (M, right) n).1 ((stereoLoop (S, left, right) n).2.2 n)
      (by rw [leftPart_swapChannels]; exact ih1)
    rw [monoStage_fold_eq_cascade, hr.1, hr.2, hc.1, hc.2, ih2]
    exact ⟨rfl, rfl⟩

theorem process_eq_monos {K : Type} [Field K] (fb : FilterBank K) (left right : Nat → K)
    (numSamples : Int) :
    (fb.process left right numSamples).2.1 = (fb.processMono left numSamples).2 ∧
    (fb.process left right numSamples).1.m_stages.map BiquadState.leftPart
      = (fb.processMono left numSamples).1.m_stages.map BiquadState.leftPart ∧
    (fb.process left right numSamples).2.2
      = ((⟨fb.m_stages.map swapChannels⟩ : FilterBank K).processMono right numSamples).2 ∧
    (fb.process left right numSamples).1.m_stages.map BiquadState.rightPart
      = ((⟨fb.m_stages.map swapChannels⟩ : FilterBank K).processMono right
          numSamples).1.m_stages.map BiquadState.leftPart := by
  by_cases he : fb.m_stages.isEmpty = true
  · have hnil : fb.m_stages = [] := List.isEmpty_iff.mp he
    simp only [process, processMono, he, if_true, hnil, List.map_nil, List.isEmpty_nil]
    exact ⟨trivial, trivial, trivial, trivial⟩
  · have he2 : (fb.m_stages.map swapChannels).isEmpty = false := by
      cases hs : fb.m_stages with
      | nil => rw [hs] at he; simp at he
      | cons _ _ => rfl
    have hL := stereoLoop_left fb.m_stages fb.m_stages left right rfl numSamples.toNat
    have hR := stereoLoop_right fb.m_stages (fb.m_stages.map swapChannels) left right
      (leftPart_swapChannels fb.m_stages).symm numSamples.toNat
    simp only [process, processMono, he, he2, Bool.false_eq_true, if_false]
    exact ⟨hL.2, hL.1, hR.2, hR.1⟩

theorem delayed_update {K : Type} [Zero K] (f : Nat → K) (j k d : Nat) (v : K)
    (hk : k ≤ j) (hd : 1 ≤ d) :
    delayed (Function.update f j v) k d = delayed f k d := by
  unfold delayed
  split_ifs with h
  · rw [Function.update_noteq]; omega
  · rfl

theorem delayed_succ_one {K : Type} [Zero K] (f : Nat → K) (j : Nat) :
    delayed f (j + 1) 1 = f j := by
  simp [delayed]

theorem delayed_succ_two {K : Type} [Zero K] (f : Nat → K) (j : Nat) :
    delayed f (j + 1) 2 = delayed f j 1 := by
  unfold delayed
  by_cases h : 1 ≤ j
  · rw [if_pos (by omega), if_pos h]
    congr 1
  · rw [if_neg (by omega), if_neg h]

/-- The state of a single stage after `j` samples, the samples not yet reached, and the
difference equation for the samples already produced. -/
theorem single_stage_invariant {K : Type} [Field K] (fc : FilterCoeffs K) (x : Nat → K) :
    ∀ j : Nat,
      (monoLoop (((construct K).setCoefficients [fc]).m_stages, x) j).1 =
        [{ b0 := fc.b0, b1 := fc.b1, b2 := fc.b2, a1 := fc.a1, a2 := fc.a2
           z1L := fc.b1 * delayed x j 1
             - fc.a1 * delayed
                (monoLoop (((construct K).setCoefficients [fc]).m_stages, x) j).2 j 1
             + (fc.b2 * delayed x j 2
             - fc.a2 * delayed
                (monoLoop (((construct K).setCoefficients [fc]).m_stages, x) j).2 j 2)
           z2L := fc.b2 * delayed x j 1
             - fc.a2 * delayed
                (monoLoop (((construct K).setCoefficients [fc]).m_stages, x) j).2 j 1
           z1R := 0, z2R := 0 }] ∧
      (∀ i, j ≤ i →
        (monoLoop (((construct K).setCoefficients [fc]).m_stages, x) j).2 i = x i) ∧
      ∀ k, k < j →
        (monoLoop (((construct K).setCoefficients [fc]).m_stages, x) j).2 k =
          fc.b0 * x k + fc.b1 * delayed x k 1 + fc.b2 * delayed x k 2
            - fc.a1 * delayed
                (monoLoop (((construct K).setCoefficients [fc]).m_stages, x) j).2 k 1
            - fc.a2 * delayed
                (monoLoop (((construct K).setCoefficients [fc]).m_stages, x) j).2 k 2 := by
  intro j
  induction j with
  | zero =>
    refine ⟨?_, fun i _ => rfl, fun k hk => absurd hk (Nat.not_lt_zero k)⟩
    simp [monoLoop, setCoefficients, BiquadState.reset, delayed]
  | succ j ih =>
    obtain ⟨hst, hun, heq⟩ := ih
    generalize hL : monoLoop (((construct K).setCoefficients [fc]).m_stages, x) j = L
      at hst hun heq
    have hstep : monoLoop (((construct K).setCoefficients [fc]).m_stages, x) (j + 1)
        = monoSample L j := by
      show monoSample (monoLoop _ j) j = _
      rw [hL]
    rw [hstep]
    have hxj : L.2 j = x j := hun j (le_refl j)
    refine ⟨?_, ?_, ?_⟩
    · simp only [monoSample, hst, List.foldl_cons, List.foldl_nil, monoStage,
        processBiquadSample, List.nil_append, delayed_succ_one, delayed_succ_two,
        Function.update_same, hxj]
      rw [delayed_update _ j j 1 _ (le_refl j) (le_refl 1)]
    · intro i hi
      simp only [monoSample]
      rw [Function.update_noteq (by omega)]
      exact hun i (by omega)
    · intro k hk
      simp only [monoSample]
      rw [delayed_update _ j k 1 _ (by omega) (le_refl 1),
        delayed_update _ j k 2 _ (by omega) (by omega)]
      by_cases hkj : k = j
      · subst hkj
        rw [Function.update_same, hst]
        simp only [List.foldl_cons, List.foldl_nil, monoStage, processBiquadSample, hxj]
        ring
      · rw [Function.update_noteq hkj]
        exact heq k (by omega)

end FilterBank

/-! ## Theorems: AudioBuffer -/

/-- C1: after any finite sequence of write, read and clear calls (accepted or rejected, any
frame and channel arguments) on a buffer constructed with capacity `c ≥ 1`,
`availableRead() + availableWrite() = c - 1`.  Every prefix of a call sequence is itself
a call sequence, so the equation holds after every call. -/
theorem audioBuffer_available_sum (α : Type) [Zero α] (c : Nat) (hc : 1 ≤ c)
    (calls : List (BufferCall α)) :
    ((AudioBuffer.construct c : AudioBuffer α).run calls).availableRead
      + ((AudioBuffer.construct c : AudioBuffer α).run calls).availableWrite = c - 1 :=
  AudioBuffer.available_sum
    (AudioBuffer.wellFormed_run calls (AudioBuffer.wellFormed_construct c hc))

theorem audioBuffer_available_sum_witness :
    ((AudioBuffer.construct 4 : AudioBuffer Int).run AudioBuffer.sampleCalls).availableRead
      + ((AudioBuffer.construct 4 : AudioBuffer Int).run
          AudioBuffer.sampleCalls).availableWrite = 4 - 1 :=
  audioBuffer_available_sum Int 4 (by decide) AudioBuffer.sampleCalls

/-- C2: on an empty buffer of capacity `c ≥ 1` (a `size_t` value) whose two cursors sit at
any `p < c`, for every sample list `data` of length `n = frames * channels ≤ c - 1`, the
write is accepted and stores `n` samples, the read of the same count that follows is
accepted and empties the buffer, and the destination holds `data[0..n)` element for
element (and is untouched from offset `n` on).  Nothing is assumed about `p + n`, so the
written region may wrap past the end of the storage. -/
theorem audioBuffer_write_then_read (α : Type) [Zero α] (s : AudioBuffer α) (c p : Nat)
    (hc : 1 ≤ c) (hsz : c ≤ SIZE_MOD) (hcap : s.m_capacity = c)
    (hlen : s.m_buffer.length = c)
    (hr : s.m_readPos = p) (hw : s.m_writePos = p) (hp : p < c)
    (data dest : Nat → α) (frames : Nat) (channels : Int) (n : Nat)
    (hprod : (frames : Int) * channels = (n : Int)) (hn : n ≤ c - 1) :
    (s.write data frames channels).1 = true ∧
    (s.write data frames channels).2.availableRead = n ∧
    ((s.write data frames channels).2.read dest frames channels).1 = true ∧
    ((s.write data frames channels).2.read dest frames channels).2.1.availableRead = 0 ∧
    (∀ i, i < n →
      ((s.write data frames channels).2.read dest frames channels).2.2 i = data i) ∧
    (∀ i, n ≤ i →
      ((s.write data frames channels).2.read dest frames channels).2.2 i = dest i) := by
  have hsc : sampleCount frames channels = n :=
    AudioBuffer.sampleCount_eq frames n channels hprod (by omega)
  have h := AudioBuffer.write_then_read_count s c p hc hcap hlen hr hw hp data dest
    frames channels (by rw [hsc]; exact hn)
  rw [hsc] at h
  have hwf : AudioBuffer.WellFormed c s := ⟨hcap, hlen, by omega, by omega⟩
  have hwf1 := AudioBuffer.wellFormed_write hwf data frames channels
  have hAR : s.availableRead = 0 := by simp [AudioBuffer.availableRead, hr, hw]
  have hacc : ¬ s.availableWrite < sampleCount frames channels := by
    simp only [AudioBuffer.availableWrite, hAR, hcap, hsc]; omega
  have hwrite : s.write data frames channels = (true,
      { s with
        m_buffer := AudioBuffer.writeLoop s.m_buffer s.m_capacity s.m_writePos data
          (sampleCount frames channels)
        m_writePos := (s.m_writePos + sampleCount frames channels) % s.m_capacity }) := by
    simp only [AudioBuffer.write, hacc, if_false]
  have hr1 : (s.write data frames channels).2.m_readPos = p := by rw [hwrite]; exact hr
  have hw1 : (s.write data frames channels).2.m_writePos = (p + n) % c := by
    rw [hwrite]
    show (s.m_writePos + sampleCount frames channels) % s.m_capacity = _
    rw [hw, hsc, hcap]
  have hst1 : (s.write data frames channels).2.availableRead = n :=
    AudioBuffer.availableRead_eq _ c p n hwf1.cap hr1 hw1 hp (by omega)
  have hacc2 : ¬ (s.write data frames channels).2.availableRead
      < sampleCount frames channels := by rw [hst1, hsc]; omega
  have hread : (s.write data frames channels).2.read dest frames channels = (true,
      { (s.write data frames channels).2 with
        m_readPos := ((s.write data frames channels).2.m_readPos
          + sampleCount frames channels) % (s.write data frames channels).2.m_capacity },
      AudioBuffer.readLoop (s.write data frames channels).2.m_buffer
        (s.write data frames channels).2.m_capacity
        (s.write data frames channels).2.m_readPos dest (sampleCount frames channels)) := by
    simp only [AudioBuffer.read, hacc2, if_false]
  have hst2 : ((s.write data frames channels).2.read dest frames
      channels).2.1.availableRead = 0 := by
    rw [hread]
    apply AudioBuffer.availableRead_eq _ c ((p + n) % c) 0
    · exact hwf1.cap
    · show ((s.write data frames channels).2.m_readPos + sampleCount frames channels)
        % (s.write data frames channels).2.m_capacity = _
      rw [hr1, hsc, hwf1.cap]
    · show (s.write data frames channels).2.m_writePos = _
      rw [hw1, Nat.add_zero, Nat.mod_mod]
    · exact Nat.mod_lt _ (by omega)
    · omega
  exact ⟨h.1, hst1, h.2.1, hst2, h.2.2.1, h.2.2.2⟩

theorem audioBuffer_write_then_read_witness :
    (AudioBuffer.sampleEmptyAt3.write (fun i => (i : Int) + 5) 1 2).1 = true ∧
    (AudioBuffer.sampleEmptyAt3.write (fun i => (i : Int) + 5) 1 2).2.availableRead = 2 ∧
    ((AudioBuffer.sampleEmptyAt3.write (fun i => (i : Int) + 5) 1 2).2.read
      (fun _ => 0) 1 2).1 = true ∧
    ((AudioBuffer.sampleEmptyAt3.write (fun i => (i : Int) + 5) 1 2).2.read
      (fun _ => 0) 1 2).2.1.availableRead = 0 ∧
    (∀ i, i < 2 →
      ((AudioBuffer.sampleEmptyAt3.write (fun i => (i : Int) + 5) 1 2).2.read
        (fun _ => 0) 1 2).2.2 i = (fun i => (i : Int) + 5) i) ∧
    (∀ i, 2 ≤ i →
      ((AudioBuffer.sampleEmptyAt3.write (fun i => (i : Int) + 5) 1 2).2.read
        (fun _ => 0) 1 2).2.2 i = (fun _ => (0 : Int)) i) :=
  audioBuffer_write_then_read Int AudioBuffer.sampleEmptyAt3 4 3 (by decide)
    (by simp [SIZE_MOD]) rfl rfl rfl rfl
    (by decide) (fun i => (i : Int) + 5) (fun _ => 0) 1 2 2 (by decide) (by decide)

/-- C3: a write whose sample count `frames * channels` (the `size_t` value the code
computes) exceeds `availableWrite()` returns false and leaves the whole buffer state
(storage array, read cursor, write cursor) unchanged.  This holds in every state, reachable
or not. -/
theorem audioBuffer_write_rejected (α : Type) [Zero α] (s : AudioBuffer α)
    (data : Nat → α) (frames : Nat) (channels : Int)
    (h : s.availableWrite < sampleCount frames channels) :
    (s.write data frames channels).1 = false ∧
    (s.write data frames channels).2.m_buffer = s.m_buffer ∧
    (s.write data frames channels).2.m_readPos = s.m_readPos ∧
    (s.write data frames channels).2.m_writePos = s.m_writePos ∧
    (s.write data frames channels).2 = s := by
  simp [AudioBuffer.write, h]

theorem audioBuffer_write_rejected_witness :
    ((AudioBuffer.construct 4 : AudioBuffer Int).write (fun _ => 7) 2 2).1 = false ∧
    ((AudioBuffer.construct 4 : AudioBuffer Int).write (fun _ => 7) 2 2).2.m_buffer
      = (AudioBuffer.construct 4 : AudioBuffer Int).m_buffer ∧
    ((AudioBuffer.construct 4 : AudioBuffer Int).write (fun _ => 7) 2 2).2.m_readPos
      = (AudioBuffer.construct 4 : AudioBuffer Int).m_readPos ∧
    ((AudioBuffer.construct 4 : AudioBuffer Int).write (fun _ => 7) 2 2).2.m_writePos
      = (AudioBuffer.construct 4 : AudioBuffer Int).m_writePos ∧
    ((AudioBuffer.construct 4 : AudioBuffer Int).write (fun _ => 7) 2 2).2
      = AudioBuffer.construct 4 :=
  audioBuffer_write_rejected Int (AudioBuffer.construct 4) (fun _ => 7) 2 2 (by decide)

/-- C4: a read whose sample count `frames * channels` (the `size_t` value the code
computes) exceeds `availableRead()` returns false, leaves the destination array as it was,
and leaves the storage array and both cursors unchanged.  This holds in every state,
reachable or not. -/
theorem audioBuffer_read_rejected (α : Type) [Zero α] (s : AudioBuffer α)
    (dest : Nat → α) (frames : Nat) (channels : Int)
    (h : s.availableRead < sampleCount frames channels) :
    (s.read dest frames channels).1 = false ∧
    (s.read dest frames channels).2.2 = dest ∧
    (s.read dest frames channels).2.1.m_buffer = s.m_buffer ∧
    (s.read dest frames channels).2.1.m_readPos = s.m_readPos ∧
    (s.read dest frames channels).2.1.m_writePos = s.m_writePos ∧
    (s.read dest frames channels).2.1 = s := by
  simp [AudioBuffer.read, h]

theorem audioBuffer_read_rejected_witness :
    (AudioBuffer.sampleEmptyAt3.read (fun _ => 9) 1 1).1 = false ∧
    (AudioBuffer.sampleEmptyAt3.read (fun _ => 9) 1 1).2.2 = (fun _ => 9) ∧
    (AudioBuffer.sampleEmptyAt3.read (fun _ => 9) 1 1).2.1.m_buffer
      = AudioBuffer.sampleEmptyAt3.m_buffer ∧
    (AudioBuffer.sampleEmptyAt3.read (fun _ => 9) 1 1).2.1.m_readPos
      = AudioBuffer.sampleEmptyAt3.m_readPos ∧
    (AudioBuffer.sampleEmptyAt3.read (fun _ => 9) 1 1).2.1.m_writePos
      = AudioBuffer.sampleEmptyAt3.m_writePos ∧
    (AudioBuffer.sampleEmptyAt3.read (fun _ => 9) 1 1).2.1 = AudioBuffer.sampleEmptyAt3 :=
  audioBuffer_read_rejected Int AudioBuffer.sampleEmptyAt3 (fun _ => 9) 1 1 (by decide)

/-- C5: in every state reachable from construction with capacity `c ≥ 1` by write, read
and clear calls, both cursors are below `c`, and `availableRead()`, which is
`write - read` when `write ≥ read` and `c - read + write` otherwise, is at most `c - 1`:
the buffer never reports all `c` slots as readable. -/
theorem audioBuffer_cursors_bounded (α : Type) [Zero α] (c : Nat) (hc : 1 ≤ c)
    (s : AudioBuffer α) (h : AudioBuffer.Reachable c s) :
    s.m_readPos < c ∧ s.m_writePos < c ∧
    s.availableRead =
      (if s.m_writePos ≥ s.m_readPos then s.m_writePos - s.m_readPos
       else c - s.m_readPos + s.m_writePos) ∧
    s.availableRead ≤ c - 1 ∧ s.availableRead ≠ c := by
  have hwf := AudioBuffer.wellFormed_of_reachable hc h
  have hle := AudioBuffer.availableRead_le hwf
  refine ⟨hwf.rd, hwf.wr, ?_, hle, by omega⟩
  simp [AudioBuffer.availableRead, hwf.cap]

theorem audioBuffer_cursors_bounded_witness :
    ((AudioBuffer.construct 4 : AudioBuffer Int).run AudioBuffer.sampleCalls).m_readPos < 4 ∧
    ((AudioBuffer.construct 4 : AudioBuffer Int).run AudioBuffer.sampleCalls).m_writePos < 4 ∧
    ((AudioBuffer.construct 4 : AudioBuffer Int).run AudioBuffer.sampleCalls).availableRead =
      (if ((AudioBuffer.construct 4 : AudioBuffer Int).run AudioBuffer.sampleCalls).m_writePos
          ≥ ((AudioBuffer.construct 4 : AudioBuffer Int).run AudioBuffer.sampleCalls).m_readPos
       then ((AudioBuffer.construct 4 : AudioBuffer Int).run AudioBuffer.sampleCalls).m_writePos
          - ((AudioBuffer.construct 4 : AudioBuffer Int).run AudioBuffer.sampleCalls).m_readPos
       else 4 - ((AudioBuffer.construct 4 : AudioBuffer Int).run
            AudioBuffer.sampleCalls).m_readPos
          + ((AudioBuffer.construct 4 : AudioBuffer Int).run
            AudioBuffer.sampleCalls).m_writePos) ∧
    ((AudioBuffer.construct 4 : AudioBuffer Int).run AudioBuffer.sampleCalls).availableRead
      ≤ 4 - 1 ∧
    ((AudioBuffer.construct 4 : AudioBuffer Int).run AudioBuffer.sampleCalls).availableRead
      ≠ 4 :=
  audioBuffer_cursors_bounded Int 4 (by decide)
    ((AudioBuffer.construct 4 : AudioBuffer Int).run AudioBuffer.sampleCalls)
    ⟨AudioBuffer.sampleCalls, rfl⟩

/-! ## Theorems: DSPProcessor and TubeEmulator -/

/-- C6: with the bypass flag set, `DSPProcessor::process` returns the buffer exactly as it
was, for every buffer, frame count and channel count (1, 2 or anything else), and leaves
the tube stage (its coefficients and both filter states) and the rest of the processor
unchanged. -/
theorem dsp_bypass_passthrough (K : Type) [LinearOrderedField K] (M : MathFns K)
    (d : DSPProcessor K) (buffer : Nat → K) (numFrames numChannels : Int)
    (h : d.m_bypass = true) :
    (d.process M buffer numFrames numChannels).2 = buffer ∧
    (d.process M buffer numFrames numChannels).1.m_tubeEmulator.m_coeffs
      = d.m_tubeEmulator.m_coeffs ∧
    (d.process M buffer numFrames numChannels).1.m_tubeEmulator.m_stateL
      = d.m_tubeEmulator.m_stateL ∧
    (d.process M buffer numFrames numChannels).1.m_tubeEmulator.m_stateR
      = d.m_tubeEmulator.m_stateR ∧
    (d.process M buffer numFrames numChannels).1 = d := by
  simp [DSPProcessor.process, h]

theorem dsp_bypass_passthrough_witness :
    (((DSPProcessor.construct ℚ).setBypass true).process DSPProcessor.sampleMath
      DSPProcessor.sampleImpulse 4 2).2 = DSPProcessor.sampleImpulse ∧
    (((DSPProcessor.construct ℚ).setBypass true).process DSPProcessor.sampleMath
      DSPProcessor.sampleImpulse 4 2).1.m_tubeEmulator.m_coeffs
      = ((DSPProcessor.construct ℚ).setBypass true).m_tubeEmulator.m_coeffs ∧
    (((DSPProcessor.construct ℚ).setBypass true).process DSPProcessor.sampleMath
      DSPProcessor.sampleImpulse 4 2).1.m_tubeEmulator.m_stateL
      = ((DSPProcessor.construct ℚ).setBypass true).m_tubeEmulator.m_stateL ∧
    (((DSPProcessor.construct ℚ).setBypass true).process DSPProcessor.sampleMath
      DSPProcessor.sampleImpulse 4 2).1.m_tubeEmulator.m_stateR
      = ((DSPProcessor.construct ℚ).setBypass true).m_tubeEmulator.m_stateR ∧
    (((DSPProcessor.construct ℚ).setBypass true).process DSPProcessor.sampleMath
      DSPProcessor.sampleImpulse 4 2).1 = (DSPProcessor.construct ℚ).setBypass true :=
  dsp_bypass_passthrough ℚ DSPProcessor.sampleMath ((DSPProcessor.construct ℚ).setBypass true)
    DSPProcessor.sampleImpulse 4 2 rfl

/-- C7: a processor whose two filter states are zero (freshly constructed or just reset),
with bypass off, with any coefficient set and any rate, given a buffer whose
`numFrames * numChannels` samples are all zero and a channel count of 1 or 2, leaves every
one of those samples zero; the buffer and the processor (so the zero filter state) come
back unchanged.  The one fact used about `std::log` is `log 1 = 0`. -/
theorem dsp_silence_preserved (K : Type) [LinearOrderedField K] (M : MathFns K)
    (hlog : M.log 1 = 0) (d : DSPProcessor K)
    (hL : d.m_tubeEmulator.m_stateL = FilterState.zero K)
    (hR : d.m_tubeEmulator.m_stateR = FilterState.zero K)
    (hb : d.m_bypass = false) (buffer : Nat → K) (numFrames numChannels : Int)
    (hc : numChannels = 1 ∨ numChannels = 2)
    (hbuf : ∀ i, i < numFrames.toNat * numChannels.toNat → buffer i = 0) :
    (∀ i, i < numFrames.toNat * numChannels.toNat →
      (d.process M buffer numFrames numChannels).2 i = 0) ∧
    d.process M buffer numFrames numChannels = (d, buffer) := by
  have key : d.process M buffer numFrames numChannels = (d, buffer) := by
    rcases hc with h1 | h2
    · subst h1
      have hbuf1 : ∀ j, j < numFrames.toNat → buffer j = 0 := by
        intro j hj; exact hbuf j (by simpa using hj)
      have h12 : ¬ ((1 : Int) = 2) := by decide
      simp only [DSPProcessor.process, hb, Bool.false_eq_true, if_false, if_true, h12,
        TubeEmulator.processMono,
        TubeEmulator.processMonoLoop_silence M _ hlog d.m_tubeEmulator hL buffer
          numFrames.toNat hbuf1 numFrames.toNat (le_refl _)]
      rw [← hb]
    · subst h2
      have hbuf2 : ∀ j, j < 2 * numFrames.toNat → buffer j = 0 := by
        intro j hj
        refine hbuf j ?_
        have : (2 : Int).toNat = 2 := rfl
        rw [this]; omega
      simp only [DSPProcessor.process, hb, Bool.false_eq_true, if_false, if_true,
        DSPProcessor.processInterleaved, ite_self, TubeEmulator.process,
        DSPProcessor.deinterleave_silence buffer numFrames.toNat hbuf2 numFrames.toNat
          (le_refl _),
        TubeEmulator.processLoop_silence M _ hlog d.m_tubeEmulator hL hR,
        DSPProcessor.reinterleave_silence buffer numFrames.toNat hbuf2 numFrames.toNat
          (le_refl _)]
      rw [← hb]
  refine ⟨?_, key⟩
  intro i hi
  rw [key]
  exact hbuf i hi

theorem dsp_silence_preserved_witness :
    (∀ i, i < (3 : Int).toNat * (2 : Int).toNat →
      ((DSPProcessor.construct ℚ).process DSPProcessor.sampleMath (fun _ => 0) 3 2).2 i = 0) ∧
    (DSPProcessor.construct ℚ).process DSPProcessor.sampleMath (fun _ => 0) 3 2
      = (DSPProcessor.construct ℚ, fun _ => 0) :=
  dsp_silence_preserved ℚ DSPProcessor.sampleMath (by simp [DSPProcessor.sampleMath])
    (DSPProcessor.construct ℚ) rfl rfl rfl (fun _ => 0) 3 2 (Or.inr rfl) (fun _ _ => rfl)

/-- C8: for a reachable processor (any filter memory left by earlier audio) whose rate
differs from `r`, after `setSampleRate(r)` both filter states are zero and the processor is
the freshly constructed processor set to rate `r` (with the same bypass flag), so
processing any buffer afterwards gives the result the fresh processor gives: nothing of
the earlier signal is left. -/
theorem dsp_setSampleRate_forgets (K : Type) [LinearOrderedField K] (M : MathFns K)
    (d : DSPProcessor K) (hd : DSPProcessor.Reachable M d) (r : Int)
    (hr : d.m_sampleRate ≠ r) :
    (d.setSampleRate r).m_tubeEmulator.m_stateL = FilterState.zero K ∧
    (d.setSampleRate r).m_tubeEmulator.m_stateR = FilterState.zero K ∧
    d.setSampleRate r = ((DSPProcessor.construct K).setSampleRate r).setBypass d.m_bypass ∧
    ∀ (buffer : Nat → K) (numFrames numChannels : Int),
      (d.setSampleRate r).process M buffer numFrames numChannels =
        (((DSPProcessor.construct K).setSampleRate r).setBypass d.m_bypass).process M buffer
          numFrames numChannels := by
  have hcons := DSPProcessor.consistent_of_reachable M hd
  have heq := DSPProcessor.setSampleRate_eq_fresh hcons r hr
  have hr1 : r ≠ d.m_sampleRate := fun e => hr e.symm
  refine ⟨?_, ?_, heq, ?_⟩
  · simp [DSPProcessor.setSampleRate, hr1, DSPProcessor.reset, TubeEmulator.reset]
  · simp [DSPProcessor.setSampleRate, hr1, DSPProcessor.reset, TubeEmulator.reset]
  · intro buffer numFrames numChannels
    rw [heq]

theorem dsp_setSampleRate_forgets_witness :
    ((((DSPProcessor.construct ℚ).process DSPProcessor.sampleMath
        DSPProcessor.sampleImpulse 1 2).1).setSampleRate 44100).m_tubeEmulator.m_stateL
      = FilterState.zero ℚ ∧
    ((((DSPProcessor.construct ℚ).process DSPProcessor.sampleMath
        DSPProcessor.sampleImpulse 1 2).1).setSampleRate 44100).m_tubeEmulator.m_stateR
      = FilterState.zero ℚ ∧
    (((DSPProcessor.construct ℚ).process DSPProcessor.sampleMath
        DSPProcessor.sampleImpulse 1 2).1).setSampleRate 44100
      = ((DSPProcessor.construct ℚ).setSampleRate 44100).setBypass
          ((DSPProcessor.construct ℚ).process DSPProcessor.sampleMath
            DSPProcessor.sampleImpulse 1 2).1.m_bypass ∧
    ∀ (buffer : Nat → ℚ) (numFrames numChannels : Int),
      ((((DSPProcessor.construct ℚ).process DSPProcessor.sampleMath
          DSPProcessor.sampleImpulse 1 2).1).setSampleRate 44100).process
          DSPProcessor.sampleMath buffer numFrames numChannels =
        (((DSPProcessor.construct ℚ).setSampleRate 44100).setBypass
          ((DSPProcessor.construct ℚ).process DSPProcessor.sampleMath
            DSPProcessor.sampleImpulse 1 2).1.m_bypass).process DSPProcessor.sampleMath buffer
          numFrames numChannels :=
  dsp_setSampleRate_forgets ℚ DSPProcessor.sampleMath
    ((DSPProcessor.construct ℚ).process DSPProcessor.sampleMath DSPProcessor.sampleImpulse 1 2).1
    (DSPProcessor.Reachable.process _ _ _ _ DSPProcessor.Reachable.construct) 44100
    (by decide)

/-! ## Theorems: Parameters -/

/-- C9: in every state reachable from construction (built-in defaults) by any sequence of
loads with arbitrary content, every stage of every pre-filter and post-filter table has
`|a1| < 2.0` and `|a2| < 1.0`; no stored stage has `|a1| ≥ 2.0` or `|a2| ≥ 1.0`. -/
theorem parameters_tables_stable (K : Type) [LinearOrderedField K] (p : Parameters K)
    (h : Parameters.Reachable p) :
    (∀ e ∈ p.m_preFilterCoeffs, ∀ fc ∈ e.2,
      (|fc.a1| < 2 ∧ |fc.a2| < 1) ∧ ¬ (2 ≤ |fc.a1| ∨ 1 ≤ |fc.a2|)) ∧
    (∀ e ∈ p.m_postFilterCoeffs, ∀ fc ∈ e.2,
      (|fc.a1| < 2 ∧ |fc.a2| < 1) ∧ ¬ (2 ≤ |fc.a1| ∨ 1 ≤ |fc.a2|)) := by
  obtain ⟨loads, rfl⟩ := h
  have hc := Parameters.construct_stable K
  have hs := Parameters.runLoads_stable loads (Parameters.construct K) hc.1 hc.2
  constructor
  · intro e he fc hfc
    have h1 := hs.1 e he fc hfc
    exact ⟨h1, by rintro (h2 | h2) <;> [exact absurd h1.1 (not_lt.mpr h2);
      exact absurd h1.2 (not_lt.mpr h2)]⟩
  · intro e he fc hfc
    have h1 := hs.2 e he fc hfc
    exact ⟨h1, by rintro (h2 | h2) <;> [exact absurd h1.1 (not_lt.mpr h2);
      exact absurd h1.2 (not_lt.mpr h2)]⟩

theorem parameters_tables_stable_witness :
    (∀ e ∈ (Parameters.runLoads (Parameters.construct ℚ)
        [some Parameters.bytesUnstablePre, none]).m_preFilterCoeffs, ∀ fc ∈ e.2,
      (|fc.a1| < 2 ∧ |fc.a2| < 1) ∧ ¬ (2 ≤ |fc.a1| ∨ 1 ≤ |fc.a2|)) ∧
    (∀ e ∈ (Parameters.runLoads (Parameters.construct ℚ)
        [some Parameters.bytesUnstablePre, none]).m_postFilterCoeffs, ∀ fc ∈ e.2,
      (|fc.a1| < 2 ∧ |fc.a2| < 1) ∧ ¬ (2 ≤ |fc.a1| ∨ 1 ≤ |fc.a2|)) :=
  parameters_tables_stable ℚ
    (Parameters.runLoads (Parameters.construct ℚ) [some Parameters.bytesUnstablePre, none])
    ⟨[some Parameters.bytesUnstablePre, none], rfl⟩

/-- C10, as stated, fails: the load of thirty doubles, fifteen times 2.0 then fifteen zeros,
into the freshly constructed store keeps at least 30 values and finds stable stages in the
second half, yet the first half has none (every `a1` is 2.0) and the pre-filter table of
48000 Hz is still the built-in table, not the (empty) list of stable first-half stages. -/
theorem parameters_load_pre_not_replaced :
    30 ≤ (Parameters.keptValues ℚ Parameters.bytesUnstablePre).length ∧
    Parameters.stableStages ((Parameters.keptValues ℚ Parameters.bytesUnstablePre).drop
      ((Parameters.keptValues ℚ Parameters.bytesUnstablePre).length / 2)) ≠ [] ∧
    (48000 : Int) ∈ Parameters.rates ∧
    ((Parameters.construct ℚ).parseIDAFormat
        Parameters.bytesUnstablePre).2.m_preFilterCoeffs.value 48000 []
      ≠ Parameters.stableStages ((Parameters.keptValues ℚ Parameters.bytesUnstablePre).take
          ((Parameters.keptValues ℚ Parameters.bytesUnstablePre).length / 2)) := by
  have hk := Parameters.keptValues_bytesUnstablePre ℚ
  have hlen : (Parameters.keptValues ℚ Parameters.bytesUnstablePre).length = 30 := by
    rw [hk]; simp
  have htake : Parameters.stableStages
      ((Parameters.keptValues ℚ Parameters.bytesUnstablePre).take
        ((Parameters.keptValues ℚ Parameters.bytesUnstablePre).length / 2)) = [] := by
    rw [hlen, hk, (Parameters.take_halves ℚ).1, Parameters.stableStages_twos]
  have hdrop : Parameters.stableStages
      ((Parameters.keptValues ℚ Parameters.bytesUnstablePre).drop
        ((Parameters.keptValues ℚ Parameters.bytesUnstablePre).length / 2)) ≠ [] := by
    rw [hlen, hk, (Parameters.take_halves ℚ).2, Parameters.stableStages_zeros]
    simp [List.replicate]
  refine ⟨by rw [hlen], hdrop, by decide, ?_⟩
  rw [Parameters.parseIDAFormat_replaced _ _ (by rw [hlen]) (Or.inr hdrop), htake,
    Parameters.storeParsed_fold_pre_kept]
  show (Parameters.construct ℚ).m_preFilterCoeffs.value 48000 [] ≠ []
  rw [Parameters.construct_pre_48000]
  simp [Parameters.defaultPreCoeffs]

/-- C10, amended: for every load whose kept values number at least 30 and yield at least
one stable 5-tuple in either half, afterwards, for each of the six supported rates, the
pre-filter table is the list of stable stages of the first half when that list is
non-empty, and the pre-filter map is left as it was when that list is empty; likewise the
post-filter table and the second half. -/
theorem parameters_load_replaces_nonempty (K : Type) [LinearOrderedField K]
    (p : Parameters K) (allBytes : List Nat)
    (h30 : 30 ≤ (Parameters.keptValues K allBytes).length)
    (hst : Parameters.stableStages ((Parameters.keptValues K allBytes).take
          ((Parameters.keptValues K allBytes).length / 2)) ≠ []
      ∨ Parameters.stableStages ((Parameters.keptValues K allBytes).drop
          ((Parameters.keptValues K allBytes).length / 2)) ≠ []) :
    (Parameters.stableStages ((Parameters.keptValues K allBytes).take
          ((Parameters.keptValues K allBytes).length / 2)) ≠ [] →
      ∀ rate ∈ Parameters.rates,
        (p.parseIDAFormat allBytes).2.m_preFilterCoeffs.value rate [] =
          Parameters.stableStages ((Parameters.keptValues K allBytes).take
            ((Parameters.keptValues K allBytes).length / 2))) ∧
    (Parameters.stableStages ((Parameters.keptValues K allBytes).take
          ((Parameters.keptValues K allBytes).length / 2)) = [] →
      (p.parseIDAFormat allBytes).2.m_preFilterCoeffs = p.m_preFilterCoeffs) ∧
    (Parameters.stableStages ((Parameters.keptValues K allBytes).drop
          ((Parameters.keptValues K allBytes).length / 2)) ≠ [] →
      ∀ rate ∈ Parameters.rates,
        (p.parseIDAFormat allBytes).2.m_postFilterCoeffs.value rate [] =
          Parameters.stableStages ((Parameters.keptValues K allBytes).drop
            ((Parameters.keptValues K allBytes).length / 2))) ∧
    (Parameters.stableStages ((Parameters.keptValues K allBytes).drop
          ((Parameters.keptValues K allBytes).length / 2)) = [] →
      (p.parseIDAFormat allBytes).2.m_postFilterCoeffs = p.m_postFilterCoeffs) := by
  rw [Parameters.parseIDAFormat_replaced p allBytes h30 hst]
  refine ⟨?_, ?_, ?_, ?_⟩
  · intro hne rate hrate
    rw [Parameters.storeParsed_fold_pre _ _ hne, if_pos hrate]
  · intro he
    rw [he, Parameters.storeParsed_fold_pre_kept]
  · intro hne rate hrate
    rw [Parameters.storeParsed_fold_post _ _ hne, if_pos hrate]
  · intro he
    rw [he, Parameters.storeParsed_fold_post_kept]

theorem parameters_load_replaces_nonempty_witness :
    (Parameters.stableStages ((Parameters.keptValues ℚ Parameters.bytesAllZero).take
          ((Parameters.keptValues ℚ Parameters.bytesAllZero).length / 2)) ≠ [] →
      ∀ rate ∈ Parameters.rates,
        ((Parameters.construct ℚ).parseIDAFormat
            Parameters.bytesAllZero).2.m_preFilterCoeffs.value rate [] =
          Parameters.stableStages ((Parameters.keptValues ℚ Parameters.bytesAllZero).take
            ((Parameters.keptValues ℚ Parameters.bytesAllZero).length / 2))) ∧
    (Parameters.stableStages ((Parameters.keptValues ℚ Parameters.bytesAllZero).take
          ((Parameters.keptValues ℚ Parameters.bytesAllZero).length / 2)) = [] →
      ((Parameters.construct ℚ).parseIDAFormat Parameters.bytesAllZero).2.m_preFilterCoeffs
        = (Parameters.construct ℚ).m_preFilterCoeffs) ∧
    (Parameters.stableStages ((Parameters.keptValues ℚ Parameters.bytesAllZero).drop
          ((Parameters.keptValues ℚ Parameters.bytesAllZero).length / 2)) ≠ [] →
      ∀ rate ∈ Parameters.rates,
        ((Parameters.construct ℚ).parseIDAFormat
            Parameters.bytesAllZero).2.m_postFilterCoeffs.value rate [] =
          Parameters.stableStages ((Parameters.keptValues ℚ Parameters.bytesAllZero).drop
            ((Parameters.keptValues ℚ Parameters.bytesAllZero).length / 2))) ∧
    (Parameters.stableStages ((Parameters.keptValues ℚ Parameters.bytesAllZero).drop
          ((Parameters.keptValues ℚ Parameters.bytesAllZero).length / 2)) = [] →
      ((Parameters.construct ℚ).parseIDAFormat Parameters.bytesAllZero).2.m_postFilterCoeffs
        = (Parameters.construct ℚ).m_postFilterCoeffs) :=
  parameters_load_replaces_nonempty ℚ (Parameters.construct ℚ) Parameters.bytesAllZero
    (by rw [Parameters.keptValues_bytesAllZero]; simp)
    (Or.inl (by
      rw [Parameters.keptValues_bytesAllZero]
      simp [List.replicate, Parameters.stableStages, FilterCoeffs.Stable]))

/-- C11, as stated, fails: loading the 8 bytes of a single double 0.0 into the freshly
constructed store keeps one value (fewer than 30), leaves both tables as they were, and yet
`parseIDAFormat` and `loadFromFile` return true. -/
theorem parameters_load_true_without_replacing :
    (Parameters.keptValues ℚ Parameters.bytesOneZero).length < 30 ∧
    ¬ Parameters.Replaces ℚ Parameters.bytesOneZero ∧
    ((Parameters.construct ℚ).parseIDAFormat Parameters.bytesOneZero).2.m_preFilterCoeffs
      = (Parameters.construct ℚ).m_preFilterCoeffs ∧
    ((Parameters.construct ℚ).parseIDAFormat Parameters.bytesOneZero).2.m_postFilterCoeffs
      = (Parameters.construct ℚ).m_postFilterCoeffs ∧
    ((Parameters.construct ℚ).parseIDAFormat Parameters.bytesOneZero).1 = true ∧
    ((Parameters.construct ℚ).loadFromFile (some Parameters.bytesOneZero)).1 = true := by
  have hk := Parameters.keptValues_bytesOneZero ℚ
  have hlen : (Parameters.keptValues ℚ Parameters.bytesOneZero).length < 30 := by
    rw [hk]; decide
  have hnot : ¬ Parameters.Replaces ℚ Parameters.bytesOneZero := fun h =>
    absurd h.1 (not_le.mpr hlen)
  have hkept := Parameters.parseIDAFormat_tables_kept (Parameters.construct ℚ)
    Parameters.bytesOneZero hnot
  have hflag : ((Parameters.construct ℚ).parseIDAFormat Parameters.bytesOneZero).1 = true := by
    rw [Parameters.parseIDAFormat_flag, hk]; rfl
  refine ⟨hlen, hnot, hkept.1, hkept.2, hflag, ?_⟩
  rw [Parameters.loadFromFile_flag, hflag]

/-- C11, amended: for every input, `parseIDAFormat`, and `loadFromFile` on a readable
file (which returns the same flag and leaves the same tables), return true if and only if
at least one value was kept (`m_rawCoeffs` is non-empty after the load).  Whenever the load
replaced stored tables it returned true; when no value is kept it keeps both tables and
returns false; when between 1 and 29 values are kept, or when 30 or more are kept and
neither half yields a stable 5-tuple, it keeps both tables and returns true. -/
theorem parameters_load_flag (K : Type) [LinearOrderedField K] (p : Parameters K)
    (allBytes : List Nat) :
    ((p.parseIDAFormat allBytes).1 = true ↔ Parameters.keptValues K allBytes ≠ []) ∧
    ((p.parseIDAFormat allBytes).1 = true ↔ (p.parseIDAFormat allBytes).2.m_rawCoeffs ≠ []) ∧
    (p.loadFromFile (some allBytes)).1 = (p.parseIDAFormat allBytes).1 ∧
    (p.loadFromFile (some allBytes)).2.m_preFilterCoeffs
      = (p.parseIDAFormat allBytes).2.m_preFilterCoeffs ∧
    (p.loadFromFile (some allBytes)).2.m_postFilterCoeffs
      = (p.parseIDAFormat allBytes).2.m_postFilterCoeffs ∧
    (Parameters.Replaces K allBytes → (p.parseIDAFormat allBytes).1 = true) ∧
    (Parameters.keptValues K allBytes = [] →
      (p.parseIDAFormat allBytes).1 = false ∧
      (p.parseIDAFormat allBytes).2.m_preFilterCoeffs = p.m_preFilterCoeffs ∧
      (p.parseIDAFormat allBytes).2.m_postFilterCoeffs = p.m_postFilterCoeffs) ∧
    (1 ≤ (Parameters.keptValues K allBytes).length →
      (Parameters.keptValues K allBytes).length ≤ 29 →
      (p.parseIDAFormat allBytes).1 = true ∧
      (p.parseIDAFormat allBytes).2.m_preFilterCoeffs = p.m_preFilterCoeffs ∧
      (p.parseIDAFormat allBytes).2.m_postFilterCoeffs = p.m_postFilterCoeffs) ∧
    (30 ≤ (Parameters.keptValues K allBytes).length →
      Parameters.stableStages ((Parameters.keptValues K allBytes).take
        ((Parameters.keptValues K allBytes).length / 2)) = [] →
      Parameters.stableStages ((Parameters.keptValues K allBytes).drop
        ((Parameters.keptValues K allBytes).length / 2)) = [] →
      (p.parseIDAFormat allBytes).1 = true ∧
      (p.parseIDAFormat allBytes).2.m_preFilterCoeffs = p.m_preFilterCoeffs ∧
      (p.parseIDAFormat allBytes).2.m_postFilterCoeffs = p.m_postFilterCoeffs) := by
  have hflag := Parameters.parseIDAFormat_flag p allBytes
  have hiff : (p.parseIDAFormat allBytes).1 = true ↔ Parameters.keptValues K allBytes ≠ [] := by
    rw [hflag]
    cases Parameters.keptValues K allBytes <;> simp
  have hraw : (p.parseIDAFormat allBytes).2.m_rawCoeffs = Parameters.keptValues K allBytes := by
    cases allBytes with
    | nil => simp [Parameters.parseIDAFormat, Parameters.keptValues_nil]
    | cons b bs =>
      simp only [Parameters.parseIDAFormat, List.isEmpty_cons, Bool.false_eq_true, if_false]
      split_ifs
      · have hfold : ∀ (rs : List Int) (q : Parameters K) (a b : List (FilterCoeffs K)),
            (rs.foldl (Parameters.storeParsed a b) q).m_rawCoeffs = q.m_rawCoeffs := by
          intro rs
          induction rs with
          | nil => intro q a b; rfl
          | cons r rs ih =>
            intro q a b
            simp only [List.foldl_cons, ih]
            unfold Parameters.storeParsed
            split_ifs <;> rfl
        rw [hfold]
      · rfl
      · rfl
  have hlen : 1 ≤ (Parameters.keptValues K allBytes).length →
      (p.parseIDAFormat allBytes).1 = true := by
    intro h1
    refine hiff.mpr ?_
    intro he
    rw [he] at h1
    simp at h1
  refine ⟨hiff, by rw [hraw]; exact hiff, Parameters.loadFromFile_flag p allBytes,
    (Parameters.loadFromFile_tables p allBytes).1,
    (Parameters.loadFromFile_tables p allBytes).2, ?_, ?_, ?_, ?_⟩
  · intro hrep
    refine hiff.mpr ?_
    intro he
    have h30 := hrep.1
    rw [he] at h30
    simp at h30
  · intro he
    have hnot : ¬ Parameters.Replaces K allBytes := by
      intro hrep
      have h30 := hrep.1
      rw [he] at h30
      simp at h30
    have hkept := Parameters.parseIDAFormat_tables_kept p allBytes hnot
    refine ⟨?_, hkept.1, hkept.2⟩
    rw [hflag, he]; rfl
  · intro h1 h29
    have hnot : ¬ Parameters.Replaces K allBytes := fun hrep => by
      have h30 := hrep.1
      omega
    have hkept := Parameters.parseIDAFormat_tables_kept p allBytes hnot
    exact ⟨hlen h1, hkept.1, hkept.2⟩
  · intro h30 hpre hpost
    have hnot : ¬ Parameters.Replaces K allBytes := fun hrep =>
      hrep.2.elim (fun h => h hpre) (fun h => h hpost)
    have hkept := Parameters.parseIDAFormat_tables_kept p allBytes hnot
    exact ⟨hlen (by omega), hkept.1, hkept.2⟩

/-- C12: for every state and every load whose input does not meet the replacement
condition (no `DCB` bytes, fewer than 30 kept values, or no stable 5-tuple in either half),
the pre-filter and post-filter maps, hence the table of every sample rate and the result of
every lookup, are the same after the load as before it, for `parseIDAFormat` and for
`loadFromFile`. -/
theorem parameters_failed_load_keeps_tables (K : Type) [LinearOrderedField K]
    (p : Parameters K) (allBytes : List Nat)
    (h : allBytes = [] ∨ (Parameters.keptValues K allBytes).length < 30 ∨
      (Parameters.stableStages ((Parameters.keptValues K allBytes).take
          ((Parameters.keptValues K allBytes).length / 2)) = [] ∧
        Parameters.stableStages ((Parameters.keptValues K allBytes).drop
          ((Parameters.keptValues K allBytes).length / 2)) = [])) :
    (p.parseIDAFormat allBytes).2.m_preFilterCoeffs = p.m_preFilterCoeffs ∧
    (p.parseIDAFormat allBytes).2.m_postFilterCoeffs = p.m_postFilterCoeffs ∧
    (p.loadFromFile (some allBytes)).2.m_preFilterCoeffs = p.m_preFilterCoeffs ∧
    (p.loadFromFile (some allBytes)).2.m_postFilterCoeffs = p.m_postFilterCoeffs ∧
    (∀ rate : Int,
      (p.loadFromFile (some allBytes)).2.getPreFilterCoeffs rate = p.getPreFilterCoeffs rate ∧
      (p.loadFromFile (some allBytes)).2.getPostFilterCoeffs rate
        = p.getPostFilterCoeffs rate) := by
  have hnot : ¬ Parameters.Replaces K allBytes := by
    intro hrep
    rcases h with h | h | h
    · have h30 := hrep.1
      rw [h, Parameters.keptValues_nil] at h30
      simp at h30
    · exact absurd hrep.1 (not_le.mpr h)
    · rcases hrep.2 with h1 | h1
      · exact h1 h.1
      · exact h1 h.2
  have hkept := Parameters.parseIDAFormat_tables_kept p allBytes hnot
  have hload := Parameters.loadFromFile_tables p allBytes
  have h1 := hload.1.trans hkept.1
  have h2 := hload.2.trans hkept.2
  refine ⟨hkept.1, hkept.2, h1, h2, ?_⟩
  intro rate
  simp only [Parameters.getPreFilterCoeffs, Parameters.getPostFilterCoeffs, h1, h2]
  exact ⟨trivial, trivial⟩

theorem parameters_failed_load_keeps_tables_witness :
    ((Parameters.construct ℚ).parseIDAFormat Parameters.bytesOneZero).2.m_preFilterCoeffs
      = (Parameters.construct ℚ).m_preFilterCoeffs ∧
    ((Parameters.construct ℚ).parseIDAFormat Parameters.bytesOneZero).2.m_postFilterCoeffs
      = (Parameters.construct ℚ).m_postFilterCoeffs ∧
    ((Parameters.construct ℚ).loadFromFile
        (some Parameters.bytesOneZero)).2.m_preFilterCoeffs
      = (Parameters.construct ℚ).m_preFilterCoeffs ∧
    ((Parameters.construct ℚ).loadFromFile
        (some Parameters.bytesOneZero)).2.m_postFilterCoeffs
      = (Parameters.construct ℚ).m_postFilterCoeffs ∧
    (∀ rate : Int,
      ((Parameters.construct ℚ).loadFromFile
          (some Parameters.bytesOneZero)).2.getPreFilterCoeffs rate
        = (Parameters.construct ℚ).getPreFilterCoeffs rate ∧
      ((Parameters.construct ℚ).loadFromFile
          (some Parameters.bytesOneZero)).2.getPostFilterCoeffs rate
        = (Parameters.construct ℚ).getPostFilterCoeffs rate) :=
  parameters_failed_load_keeps_tables ℚ (Parameters.construct ℚ) Parameters.bytesOneZero
    (Or.inr (Or.inl (by rw [Parameters.keptValues_bytesOneZero]; decide)))

/-- C13: in every state reachable from construction by any sequence of loads, for every
requested rate `r` (supported or not), `getPreFilterCoeffs r` and `getPostFilterCoeffs r`
are the tables stored for the supported rate nearest to `r` by absolute difference
(`nearestSupported r`, which is a supported rate and at least as near to `r` as every
supported rate); in particular the results for 192001 and 192000 agree.  Construction and
every load store one table under all six rates, so the result is in fact the table stored
for every supported rate, and the fall-back to 48000 Hz returns the nearest rate's table. -/
theorem parameters_lookup_nearest (K : Type) [LinearOrderedField K] (p : Parameters K)
    (h : Parameters.Reachable p) (r : Int) :
    Parameters.nearestSupported r ∈ Parameters.rates ∧
    (∀ other ∈ Parameters.rates, |r - Parameters.nearestSupported r| ≤ |r - other|) ∧
    p.getPreFilterCoeffs r = p.m_preFilterCoeffs.value (Parameters.nearestSupported r) [] ∧
    p.getPostFilterCoeffs r = p.m_postFilterCoeffs.value (Parameters.nearestSupported r) [] ∧
    (∀ rate ∈ Parameters.rates,
      p.getPreFilterCoeffs r = p.m_preFilterCoeffs.value rate [] ∧
      p.getPostFilterCoeffs r = p.m_postFilterCoeffs.value rate []) ∧
    p.getPreFilterCoeffs 192001 = p.getPreFilterCoeffs 192000 ∧
    p.getPostFilterCoeffs 192001 = p.getPostFilterCoeffs 192000 := by
  obtain ⟨tpre, tpost, h1, h2⟩ := Parameters.uniform_of_reachable h
  have hpre : ∀ q : Int, p.getPreFilterCoeffs q = tpre := by
    intro q
    simp only [Parameters.getPreFilterCoeffs, h1]
    exact Parameters.lookup_uniform tpre [] q
  have hpost : ∀ q : Int, p.getPostFilterCoeffs q = tpost := by
    intro q
    simp only [Parameters.getPostFilterCoeffs, h2]
    exact Parameters.lookup_uniform tpost [] q
  have hall : ∀ rate ∈ Parameters.rates,
      p.getPreFilterCoeffs r = p.m_preFilterCoeffs.value rate [] ∧
      p.getPostFilterCoeffs r = p.m_postFilterCoeffs.value rate [] := by
    intro rate hrate
    constructor
    · rw [hpre, h1, Parameters.value_map_const _ _ _ _ hrate]
    · rw [hpost, h2, Parameters.value_map_const _ _ _ _ hrate]
  have hf := nearer_fold id r Parameters.rates 44100
  have hmem : Parameters.nearestSupported r ∈ Parameters.rates := by
    rcases hf.2.1 with h | h
    · show (Parameters.rates.foldl (nearerStep id r) (44100, |r - 44100|)).1 ∈ _
      simp only [id] at h
      rw [h]; decide
    · exact h
  refine ⟨hmem, ?_, (hall _ hmem).1, (hall _ hmem).2, hall, ?_, ?_⟩
  · intro other hother
    have h4 := hf.2.2.2.1 other hother
    have h1' := hf.1
    simp only [id] at h4 h1'
    show |r - (Parameters.rates.foldl (nearerStep id r) (44100, |r - 44100|)).1| ≤ _
    rw [← h1']; exact h4
  · rw [hpre, hpre]
  · rw [hpost, hpost]

theorem parameters_lookup_nearest_witness :
    Parameters.nearestSupported 192001 ∈ Parameters.rates ∧
    (∀ other ∈ Parameters.rates,
      |(192001 : Int) - Parameters.nearestSupported 192001| ≤ |192001 - other|) ∧
    (Parameters.runLoads (Parameters.construct ℚ)
        [some Parameters.bytesUnstablePre]).getPreFilterCoeffs 192001
      = (Parameters.runLoads (Parameters.construct ℚ)
        [some Parameters.bytesUnstablePre]).m_preFilterCoeffs.value
          (Parameters.nearestSupported 192001) [] ∧
    (Parameters.runLoads (Parameters.construct ℚ)
        [some Parameters.bytesUnstablePre]).getPostFilterCoeffs 192001
      = (Parameters.runLoads (Parameters.construct ℚ)
        [some Parameters.bytesUnstablePre]).m_postFilterCoeffs.value
          (Parameters.nearestSupported 192001) [] ∧
    (∀ rate ∈ Parameters.rates,
      (Parameters.runLoads (Parameters.construct ℚ)
          [some Parameters.bytesUnstablePre]).getPreFilterCoeffs 192001
        = (Parameters.runLoads (Parameters.construct ℚ)
          [some Parameters.bytesUnstablePre]).m_preFilterCoeffs.value rate [] ∧
      (Parameters.runLoads (Parameters.construct ℚ)
          [some Parameters.bytesUnstablePre]).getPostFilterCoeffs 192001
        = (Parameters.runLoads (Parameters.construct ℚ)
          [some Parameters.bytesUnstablePre]).m_postFilterCoeffs.value rate []) ∧
    (Parameters.runLoads (Parameters.construct ℚ)
        [some Parameters.bytesUnstablePre]).getPreFilterCoeffs 192001
      = (Parameters.runLoads (Parameters.construct ℚ)
        [some Parameters.bytesUnstablePre]).getPreFilterCoeffs 192000 ∧
    (Parameters.runLoads (Parameters.construct ℚ)
        [some Parameters.bytesUnstablePre]).getPostFilterCoeffs 192001
      = (Parameters.runLoads (Parameters.construct ℚ)
        [some Parameters.bytesUnstablePre]).getPostFilterCoeffs 192000 :=
  parameters_lookup_nearest ℚ
    (Parameters.runLoads (Parameters.construct ℚ) [some Parameters.bytesUnstablePre])
    ⟨[some Parameters.bytesUnstablePre], rfl⟩ 192001

/-- C15: for an arbitrary rate-to-table map (a `QMap`, keys strictly increasing) in either
table slot and every requested rate `r`, `getPreFilterCoeffs` and `getPostFilterCoeffs`
return the table of `r` if `r` is a key; otherwise the table of 48000 if 48000 is a key;
otherwise the table of the first (smallest-key) entry if the map is non-empty; otherwise the
empty list. -/
theorem parameters_lookup_order (K : Type) (p : Parameters K)
    (hpre : QMap.Sorted p.m_preFilterCoeffs) (hpost : QMap.Sorted p.m_postFilterCoeffs)
    (r : Int) :
    QMap.LookupOrder p.m_preFilterCoeffs r (p.getPreFilterCoeffs r) ∧
    QMap.LookupOrder p.m_postFilterCoeffs r (p.getPostFilterCoeffs r) :=
  ⟨QMap.lookup_order p.m_preFilterCoeffs hpre r, QMap.lookup_order p.m_postFilterCoeffs hpost r⟩

theorem parameters_lookup_order_witness :
    QMap.LookupOrder (Parameters.sampleSparse.m_preFilterCoeffs) 96000
      (Parameters.sampleSparse.getPreFilterCoeffs 96000) ∧
    QMap.LookupOrder (Parameters.sampleSparse.m_postFilterCoeffs) 96000
      (Parameters.sampleSparse.getPostFilterCoeffs 96000) :=
  parameters_lookup_order ℚ Parameters.sampleSparse
    (by simp [QMap.Sorted, Parameters.sampleSparse])
    (by simp [QMap.Sorted, Parameters.sampleSparse]) 96000

/-! ## Theorems: tube stage coefficients and filter -/

/-- C14: for every rate `r`, `pickRate r` is a row of the table of the six supported
rates; it is the row whose rate is `r` when `r` is supported, and in every case a row that
minimises `|r - rate|` over the table, the one of lowest rate when several are equally
near; `pickRate 192001` is the 192000 Hz row.  (For `r ≥ 0` no `int` subtraction in the
source overflows.) -/
theorem tube_pickRate_nearest (K : Type) [Field K] (r : Int) :
    (kRateTable K).map RateEntry.rate = [44100, 48000, 88200, 96000, 176400, 192000] ∧
    pickRate K r ∈ kRateTable K ∧
    (r ∈ (kRateTable K).map RateEntry.rate → (pickRate K r).rate = r) ∧
    (∀ e ∈ kRateTable K, |r - (pickRate K r).rate| ≤ |r - e.rate|) ∧
    (∀ e ∈ kRateTable K, |r - e.rate| = |r - (pickRate K r).rate| →
      (pickRate K r).rate ≤ e.rate) ∧
    (pickRate K 192001).rate = 192000 ∧
    pickRate K 192001 = pickRate K 192000 := by
  have main : pickRate K r ∈ kRateTable K ∧
      (r ∈ (kRateTable K).map RateEntry.rate → (pickRate K r).rate = r) ∧
      (∀ e ∈ kRateTable K, |r - (pickRate K r).rate| ≤ |r - e.rate|) ∧
      (∀ e ∈ kRateTable K, |r - e.rate| = |r - (pickRate K r).rate| →
        (pickRate K r).rate ≤ e.rate) := by
    cases hfind : (kRateTable K).find? (fun entry => entry.rate == r) with
    | some e =>
      have hrate : e.rate = r := by
        have := List.find?_some hfind
        simpa using this
      rw [pickRate_exact K r e hfind]
      refine ⟨List.mem_of_find?_eq_some hfind, fun _ => hrate, ?_, ?_⟩
      · intro x _
        rw [hrate]
        simp only [sub_self, abs_zero]
        exact abs_nonneg _
      · intro x _ hx
        rw [hrate] at hx ⊢
        simp only [sub_self, abs_zero, abs_eq_zero] at hx
        omega
    | none =>
      exact tube_pickRate_none_case K r hfind
  exact ⟨kRateTable_rates K, main.1, main.2.1, main.2.2.1, main.2.2.2, rfl, rfl⟩


/-- C18: `processFilter` returns `y = b[0]*x + z[0]` and leaves
`z[k] = b[k+1]*x - a[k]*y + z[k+1]` for `k = 0..4` (from the old `z[k+1]`) and
`z[5] = b[6]*x - a[5]*y`.  The coefficients `loadCoefficients` stores for a rate are
`b[i]` = value `i` and `a[j]` = value `8 + j` of the 14-value row `pickRate` selects (value
7 is skipped); construction loads the row of 48000, `setSampleRate` with a new rate loads
the row of that rate, and in every reachable processor the tube stage holds the row of its
current rate. -/
theorem tube_processFilter_recurrence (K : Type) [LinearOrderedField K] (c : Coefficients K)
    (x : K) (state : FilterState K) (k : Fin 5) (rate : Int) (i : Fin 7) (j : Fin 6)
    (t : TubeEmulator K) :
    (TubeEmulator.processFilter c x state).1 = c.b 0 * x + state.z 0 ∧
    (TubeEmulator.processFilter c x state).2.z k.castSucc =
      c.b k.castSucc.succ * x - c.a k.castSucc * (c.b 0 * x + state.z 0) + state.z k.succ ∧
    (TubeEmulator.processFilter c x state).2.z 5 =
      c.b 6 * x - c.a 5 * (c.b 0 * x + state.z 0) ∧
    (coefficientsFor K rate).b i = (pickRate K rate).coeffs (Fin.castLE (by decide) i) ∧
    (coefficientsFor K rate).a j = (pickRate K rate).coeffs (Fin.natAdd 8 j) ∧
    (t.loadCoefficients rate).m_coeffs = coefficientsFor K rate ∧
    (TubeEmulator.construct K).m_coeffs = coefficientsFor K 48000 ∧
    (TubeEmulator.construct K).m_sampleRate = 48000 ∧
    (t.setSampleRate rate).m_sampleRate = rate ∧
    (rate ≠ t.m_sampleRate → (t.setSampleRate rate).m_coeffs = coefficientsFor K rate) ∧
    (∀ (M : MathFns K) (d : DSPProcessor K), DSPProcessor.Reachable M d →
      d.m_tubeEmulator.m_coeffs = coefficientsFor K d.m_tubeEmulator.m_sampleRate) := by
  refine ⟨rfl, ?_, rfl, rfl, rfl, rfl, rfl, rfl, ?_, ?_, ?_⟩
  · fin_cases k <;> rfl
  · by_cases h : rate = t.m_sampleRate
    · simp [TubeEmulator.setSampleRate, h]
    · simp [TubeEmulator.setSampleRate, h, TubeEmulator.reset, TubeEmulator.loadCoefficients]
  · intro h
    simp [TubeEmulator.setSampleRate, h, TubeEmulator.reset, TubeEmulator.loadCoefficients]
  · intro M d hd
    have hc := DSPProcessor.consistent_of_reachable M hd
    rw [hc.coeffs, hc.rate]

/-- C19: for every emulator, buffer and index `i < n`, `processMono` and `process` store at
index `i` the value `processFilter(shapeSample(x)).y * 1.33 * g`, where `x` is the input
sample at `i`, the filter runs from the channel state the first `i` samples left, and
`g = pow(10, outputGainDb / 20)`.  In every reachable processor `outputGainDb` is still 0,
so (with `pow(10, 0) = 1`) `g = 1` and each output sample is 1.33 times the filter
output. -/
theorem tube_output_scaling (K : Type) [LinearOrderedField K] (M : MathFns K)
    (hpow : M.pow 10 0 = 1) (d : DSPProcessor K) (hd : DSPProcessor.Reachable M d)
    (buffer left right : Nat → K) (n i : Nat) (hi : i < n) :
    (∀ t : TubeEmulator K,
      (t.processMono M buffer (n : Int)).2 i =
        (TubeEmulator.processFilter t.m_coeffs (TubeEmulator.shapeSample M (buffer i))
          (t.processMono M buffer (i : Int)).1.m_stateL).1 * 1.33
          * M.pow 10 (t.m_outputGainDb / 20) ∧
      (t.process M left right (n : Int)).2.1 i =
        (TubeEmulator.processFilter t.m_coeffs (TubeEmulator.shapeSample M (left i))
          (t.process M left right (i : Int)).1.m_stateL).1 * 1.33
          * M.pow 10 (t.m_outputGainDb / 20) ∧
      (t.process M left right (n : Int)).2.2 i =
        (TubeEmulator.processFilter t.m_coeffs (TubeEmulator.shapeSample M (right i))
          (t.process M left right (i : Int)).1.m_stateR).1 * 1.33
          * M.pow 10 (t.m_outputGainDb / 20)) ∧
    d.m_tubeEmulator.m_outputGainDb = 0 ∧
    M.pow 10 (d.m_tubeEmulator.m_outputGainDb / 20) = 1 ∧
    (d.m_tubeEmulator.processMono M buffer (n : Int)).2 i =
      (TubeEmulator.processFilter d.m_tubeEmulator.m_coeffs
        (TubeEmulator.shapeSample M (buffer i))
        (d.m_tubeEmulator.processMono M buffer (i : Int)).1.m_stateL).1 * 1.33 ∧
    (d.m_tubeEmulator.process M left right (n : Int)).2.1 i =
      (TubeEmulator.processFilter d.m_tubeEmulator.m_coeffs
        (TubeEmulator.shapeSample M (left i))
        (d.m_tubeEmulator.process M left right (i : Int)).1.m_stateL).1 * 1.33 ∧
    (d.m_tubeEmulator.process M left right (n : Int)).2.2 i =
      (TubeEmulator.processFilter d.m_tubeEmulator.m_coeffs
        (TubeEmulator.shapeSample M (right i))
        (d.m_tubeEmulator.process M left right (i : Int)).1.m_stateR).1 * 1.33 := by
  have hgen : ∀ t : TubeEmulator K,
      (t.processMono M buffer (n : Int)).2 i =
        (TubeEmulator.processFilter t.m_coeffs (TubeEmulator.shapeSample M (buffer i))
          (t.processMono M buffer (i : Int)).1.m_stateL).1 * 1.33
          * M.pow 10 (t.m_outputGainDb / 20) ∧
      (t.process M left right (n : Int)).2.1 i =
        (TubeEmulator.processFilter t.m_coeffs (TubeEmulator.shapeSample M (left i))
          (t.process M left right (i : Int)).1.m_stateL).1 * 1.33
          * M.pow 10 (t.m_outputGainDb / 20) ∧
      (t.process M left right (n : Int)).2.2 i =
        (TubeEmulator.processFilter t.m_coeffs (TubeEmulator.shapeSample M (right i))
          (t.process M left right (i : Int)).1.m_stateR).1 * 1.33
          * M.pow 10 (t.m_outputGainDb / 20) := by
    intro t
    have h1 := TubeEmulator.processMonoLoop_sample M (TubeEmulator.gain M t) t buffer n i hi
    have h2 := TubeEmulator.processLoop_sample M (TubeEmulator.gain M t) t left right n i hi
    simp only [TubeEmulator.processMono, TubeEmulator.process, Int.toNat_ofNat]
    simp only [kOutputScale, TubeEmulator.gain] at h1 h2
    exact ⟨h1, h2.1, h2.2⟩
  have hg0 : d.m_tubeEmulator.m_outputGainDb = 0 :=
    (DSPProcessor.consistent_of_reachable M hd).gainDb
  have hg1 : M.pow 10 (d.m_tubeEmulator.m_outputGainDb / 20) = 1 := by
    rw [hg0, zero_div, hpow]
  have hd3 := hgen d.m_tubeEmulator
  rw [hg1, mul_one, mul_one, mul_one] at hd3
  exact ⟨hgen, hg0, hg1, hd3.1, hd3.2.1, hd3.2.2⟩

theorem tube_output_scaling_witness :
    (∀ t : TubeEmulator ℚ,
      (t.processMono DSPProcessor.sampleMath DSPProcessor.sampleImpulse ((3 : Nat) : Int)).2 1 =
        (TubeEmulator.processFilter t.m_coeffs
          (TubeEmulator.shapeSample DSPProcessor.sampleMath (DSPProcessor.sampleImpulse 1))
          (t.processMono DSPProcessor.sampleMath DSPProcessor.sampleImpulse
            ((1 : Nat) : Int)).1.m_stateL).1 * 1.33
          * DSPProcessor.sampleMath.pow 10 (t.m_outputGainDb / 20) ∧
      (t.process DSPProcessor.sampleMath DSPProcessor.sampleImpulse (fun _ => 1)
          ((3 : Nat) : Int)).2.1 1 =
        (TubeEmulator.processFilter t.m_coeffs
          (TubeEmulator.shapeSample DSPProcessor.sampleMath (DSPProcessor.sampleImpulse 1))
          (t.process DSPProcessor.sampleMath DSPProcessor.sampleImpulse (fun _ => 1)
            ((1 : Nat) : Int)).1.m_stateL).1 * 1.33
          * DSPProcessor.sampleMath.pow 10 (t.m_outputGainDb / 20) ∧
      (t.process DSPProcessor.sampleMath DSPProcessor.sampleImpulse (fun _ => 1)
          ((3 : Nat) : Int)).2.2 1 =
        (TubeEmulator.processFilter t.m_coeffs
          (TubeEmulator.shapeSample DSPProcessor.sampleMath ((fun _ => (1 : ℚ)) 1))
          (t.process DSPProcessor.sampleMath DSPProcessor.sampleImpulse (fun _ => 1)
            ((1 : Nat) : Int)).1.m_stateR).1 * 1.33
          * DSPProcessor.sampleMath.pow 10 (t.m_outputGainDb / 20)) ∧
    (DSPProcessor.construct ℚ).m_tubeEmulator.m_outputGainDb = 0 ∧
    DSPProcessor.sampleMath.pow 10
      ((DSPProcessor.construct ℚ).m_tubeEmulator.m_outputGainDb / 20) = 1 ∧
    ((DSPProcessor.construct ℚ).m_tubeEmulator.processMono DSPProcessor.sampleMath
        DSPProcessor.sampleImpulse ((3 : Nat) : Int)).2 1 =
      (TubeEmulator.processFilter (DSPProcessor.construct ℚ).m_tubeEmulator.m_coeffs
        (TubeEmulator.shapeSample DSPProcessor.sampleMath (DSPProcessor.sampleImpulse 1))
        ((DSPProcessor.construct ℚ).m_tubeEmulator.processMono DSPProcessor.sampleMath
          DSPProcessor.sampleImpulse ((1 : Nat) : Int)).1.m_stateL).1 * 1.33 ∧
    ((DSPProcessor.construct ℚ).m_tubeEmulator.process DSPProcessor.sampleMath
        DSPProcessor.sampleImpulse (fun _ => 1) ((3 : Nat) : Int)).2.1 1 =
      (TubeEmulator.processFilter (DSPProcessor.construct ℚ).m_tubeEmulator.m_coeffs
        (TubeEmulator.shapeSample DSPProcessor.sampleMath (DSPProcessor.sampleImpulse 1))
        ((DSPProcessor.construct ℚ).m_tubeEmulator.process DSPProcessor.sampleMath
          DSPProcessor.sampleImpulse (fun _ => 1) ((1 : Nat) : Int)).1.m_stateL).1 * 1.33 ∧
    ((DSPProcessor.construct ℚ).m_tubeEmulator.process DSPProcessor.sampleMath
        DSPProcessor.sampleImpulse (fun _ => 1) ((3 : Nat) : Int)).2.2 1 =
      (TubeEmulator.processFilter (DSPProcessor.construct ℚ).m_tubeEmulator.m_coeffs
        (TubeEmulator.shapeSample DSPProcessor.sampleMath ((fun _ => (1 : ℚ)) 1))
        ((DSPProcessor.construct ℚ).m_tubeEmulator.process DSPProcessor.sampleMath
          DSPProcessor.sampleImpulse (fun _ => 1) ((1 : Nat) : Int)).1.m_stateR).1 * 1.33 :=
  tube_output_scaling ℚ DSPProcessor.sampleMath rfl (DSPProcessor.construct ℚ)
    DSPProcessor.Reachable.construct DSPProcessor.sampleImpulse DSPProcessor.sampleImpulse
    (fun _ => 1) 3 1 (by decide)

/-- C20: with bypass off, for every `n` and every interleaved stereo buffer,
`process(buffer, n, 2)` stores at `2i` sample `i` of the tube stage's left result on the
even-offset samples and at `2i + 1` sample `i` of its right result on the odd-offset
samples (`i < n`), leaves the buffer untouched from offset `2n` on, and leaves the tube
stage as that run leaves it.  This holds for every `n`, at most 1024 (stack scratch) or
above (heap scratch).  The left result, and the left filter state, are what
`process(_, n, 1)` computes on the left samples alone from the same state. -/
theorem dsp_stereo_deinterleaved (K : Type) [LinearOrderedField K] (M : MathFns K)
    (d : DSPProcessor K) (hb : d.m_bypass = false) (buffer : Nat → K) (n : Nat) :
    (∀ i, i < n →
      (d.process M buffer (n : Int) 2).2 (i * 2) =
        (d.m_tubeEmulator.process M (fun k => buffer (k * 2)) (fun k => buffer (k * 2 + 1))
          (n : Int)).2.1 i ∧
      (d.process M buffer (n : Int) 2).2 (i * 2 + 1) =
        (d.m_tubeEmulator.process M (fun k => buffer (k * 2)) (fun k => buffer (k * 2 + 1))
          (n : Int)).2.2 i) ∧
    (∀ j, n * 2 ≤ j → (d.process M buffer (n : Int) 2).2 j = buffer j) ∧
    (d.process M buffer (n : Int) 2).1.m_tubeEmulator =
      (d.m_tubeEmulator.process M (fun k => buffer (k * 2)) (fun k => buffer (k * 2 + 1))
        (n : Int)).1 ∧
    (∀ i, i < n →
      (d.process M buffer (n : Int) 2).2 (i * 2) =
        (d.process M (fun k => buffer (k * 2)) (n : Int) 1).2 i) ∧
    (d.process M buffer (n : Int) 2).1.m_tubeEmulator.m_stateL =
      (d.process M (fun k => buffer (k * 2)) (n : Int) 1).1.m_tubeEmulator.m_stateL := by
  have hsplit := DSPProcessor.deinterleave_spec buffer (fun _ => 0, fun _ => 0) n
  have hcongr := TubeEmulator.processLoop_congr M (TubeEmulator.gain M d.m_tubeEmulator)
    d.m_tubeEmulator
    (DSPProcessor.deinterleave buffer (fun _ => 0, fun _ => 0) n).1
    (fun k => buffer (k * 2))
    (DSPProcessor.deinterleave buffer (fun _ => 0, fun _ => 0) n).2
    (fun k => buffer (k * 2 + 1)) n
    (fun i hi => (hsplit i hi).1) (fun i hi => (hsplit i hi).2) n (le_refl _)
  have hre := DSPProcessor.reinterleave_spec
    (TubeEmulator.processLoop M (TubeEmulator.gain M d.m_tubeEmulator)
      (d.m_tubeEmulator, (DSPProcessor.deinterleave buffer (fun _ => 0, fun _ => 0) n).1,
        (DSPProcessor.deinterleave buffer (fun _ => 0, fun _ => 0) n).2) n).2.1
    (TubeEmulator.processLoop M (TubeEmulator.gain M d.m_tubeEmulator)
      (d.m_tubeEmulator, (DSPProcessor.deinterleave buffer (fun _ => 0, fun _ => 0) n).1,
        (DSPProcessor.deinterleave buffer (fun _ => 0, fun _ => 0) n).2) n).2.2
    buffer n
  have hmono := TubeEmulator.processLoop_left_mono M (TubeEmulator.gain M d.m_tubeEmulator)
    d.m_tubeEmulator (fun k => buffer (k * 2)) (fun k => buffer (k * 2 + 1)) n
  have h12 : ¬ ((1 : Int) = 2) := by decide
  have hstereo : d.process M buffer (n : Int) 2 =
      ({ d with m_tubeEmulator :=
          (TubeEmulator.processLoop M (TubeEmulator.gain M d.m_tubeEmulator)
            (d.m_tubeEmulator,
              (DSPProcessor.deinterleave buffer (fun _ => 0, fun _ => 0) n).1,
              (DSPProcessor.deinterleave buffer (fun _ => 0, fun _ => 0) n).2) n).1 },
        DSPProcessor.reinterleave
          (TubeEmulator.processLoop M (TubeEmulator.gain M d.m_tubeEmulator)
            (d.m_tubeEmulator,
              (DSPProcessor.deinterleave buffer (fun _ => 0, fun _ => 0) n).1,
              (DSPProcessor.deinterleave buffer (fun _ => 0, fun _ => 0) n).2) n).2.1
          (TubeEmulator.processLoop M (TubeEmulator.gain M d.m_tubeEmulator)
            (d.m_tubeEmulator,
              (DSPProcessor.deinterleave buffer (fun _ => 0, fun _ => 0) n).1,
              (DSPProcessor.deinterleave buffer (fun _ => 0, fun _ => 0) n).2) n).2.2
          buffer n) := by
    simp only [DSPProcessor.process, hb, Bool.false_eq_true, if_false, if_true,
      DSPProcessor.processInterleaved, ite_self, TubeEmulator.process, Int.toNat_ofNat]
  have hmonoP : d.process M (fun k => buffer (k * 2)) (n : Int) 1 =
      ({ d with m_tubeEmulator :=
          (TubeEmulator.processMonoLoop M (TubeEmulator.gain M d.m_tubeEmulator)
            (d.m_tubeEmulator, fun k => buffer (k * 2)) n).1 },
        (TubeEmulator.processMonoLoop M (TubeEmulator.gain M d.m_tubeEmulator)
          (d.m_tubeEmulator, fun k => buffer (k * 2)) n).2) := by
    simp only [DSPProcessor.process, hb, Bool.false_eq_true, if_false, if_true, h12,
      TubeEmulator.processMono, Int.toNat_ofNat]
  have hleft : ∀ i, i < n →
      (d.process M buffer (n : Int) 2).2 (i * 2) =
        (d.m_tubeEmulator.process M (fun k => buffer (k * 2)) (fun k => buffer (k * 2 + 1))
          (n : Int)).2.1 i := by
    intro i hi
    rw [hstereo]
    simp only [TubeEmulator.process, Int.toNat_ofNat]
    rw [← hcongr.2.1 i hi]
    exact (hre.1 i hi).1
  refine ⟨?_, ?_, ?_, ?_, ?_⟩
  · intro i hi
    refine ⟨hleft i hi, ?_⟩
    rw [hstereo]
    simp only [TubeEmulator.process, Int.toNat_ofNat]
    rw [← hcongr.2.2 i hi]
    exact (hre.1 i hi).2
  · intro j hj
    rw [hstereo]
    exact hre.2 j hj
  · rw [hstereo]
    simp only [TubeEmulator.process, Int.toNat_ofNat]
    exact hcongr.1
  · intro i hi
    rw [hleft i hi, hmonoP]
    simp only [TubeEmulator.process, Int.toNat_ofNat]
    rw [hmono.2]
  · rw [hstereo, hmonoP]
    show (TubeEmulator.processLoop _ _ _ _).1.m_stateL = _
    rw [hcongr.1, hmono.1]

theorem dsp_stereo_deinterleaved_witness :
    (∀ i, i < 2 →
      ((DSPProcessor.construct ℚ).process DSPProcessor.sampleMath DSPProcessor.sampleImpulse
          ((2 : Nat) : Int) 2).2 (i * 2) =
        ((DSPProcessor.construct ℚ).m_tubeEmulator.process DSPProcessor.sampleMath
          (fun k => DSPProcessor.sampleImpulse (k * 2))
          (fun k => DSPProcessor.sampleImpulse (k * 2 + 1)) ((2 : Nat) : Int)).2.1 i ∧
      ((DSPProcessor.construct ℚ).process DSPProcessor.sampleMath DSPProcessor.sampleImpulse
          ((2 : Nat) : Int) 2).2 (i * 2 + 1) =
        ((DSPProcessor.construct ℚ).m_tubeEmulator.process DSPProcessor.sampleMath
          (fun k => DSPProcessor.sampleImpulse (k * 2))
          (fun k => DSPProcessor.sampleImpulse (k * 2 + 1)) ((2 : Nat) : Int)).2.2 i) ∧
    (∀ j, 2 * 2 ≤ j →
      ((DSPProcessor.construct ℚ).process DSPProcessor.sampleMath DSPProcessor.sampleImpulse
          ((2 : Nat) : Int) 2).2 j = DSPProcessor.sampleImpulse j) ∧
    ((DSPProcessor.construct ℚ).process DSPProcessor.sampleMath DSPProcessor.sampleImpulse
        ((2 : Nat) : Int) 2).1.m_tubeEmulator =
      ((DSPProcessor.construct ℚ).m_tubeEmulator.process DSPProcessor.sampleMath
        (fun k => DSPProcessor.sampleImpulse (k * 2))
        (fun k => DSPProcessor.sampleImpulse (k * 2 + 1)) ((2 : Nat) : Int)).1 ∧
    (∀ i, i < 2 →
      ((DSPProcessor.construct ℚ).process DSPProcessor.sampleMath DSPProcessor.sampleImpulse
          ((2 : Nat) : Int) 2).2 (i * 2) =
        ((DSPProcessor.construct ℚ).process DSPProcessor.sampleMath
          (fun k => DSPProcessor.sampleImpulse (k * 2)) ((2 : Nat) : Int) 1).2 i) ∧
    ((DSPProcessor.construct ℚ).process DSPProcessor.sampleMath DSPProcessor.sampleImpulse
        ((2 : Nat) : Int) 2).1.m_tubeEmulator.m_stateL =
      ((DSPProcessor.construct ℚ).process DSPProcessor.sampleMath
        (fun k => DSPProcessor.sampleImpulse (k * 2))
        ((2 : Nat) : Int) 1).1.m_tubeEmulator.m_stateL :=
  dsp_stereo_deinterleaved ℚ DSPProcessor.sampleMath (DSPProcessor.construct ℚ) rfl
    DSPProcessor.sampleImpulse 2

/-! ## Theorems: FilterBank -/

/-- C16: `processBiquadSample` returns `y = b0*x + z1` and leaves `z1 = b1*x - a1*y + z2`
(from the old `z2`) and `z2 = b2*x - a2*y`; the stage loop of `processMono` is the cascade
that feeds each stage's `y` to the next stage as `x`, in list order; and `processMono`
takes the samples in index order: sample `n` goes through the cascade in the state the
first `n` samples left, its output is stored at index `n`, and nothing else changes. -/
theorem filterBank_biquad_cascade (K : Type) [Field K] (state : BiquadState K)
    (x z1 z2 : K) (stages : List (BiquadState K)) (fb : FilterBank K) (buffer : Nat → K)
    (n : Nat) :
    FilterBank.processBiquadSample state x z1 z2 =
      (state.b0 * x + z1,
        state.b1 * x - state.a1 * (state.b0 * x + z1) + z2,
        state.b2 * x - state.a2 * (state.b0 * x + z1)) ∧
    stages.foldl FilterBank.monoStage (x, []) = FilterBank.cascade stages x ∧
    FilterBank.cascade (state :: stages) x =
      ((FilterBank.cascade stages (state.b0 * x + state.z1L)).1,
        { state with
          z1L := state.b1 * x - state.a1 * (state.b0 * x + state.z1L) + state.z2L
          z2L := state.b2 * x - state.a2 * (state.b0 * x + state.z1L) } ::
          (FilterBank.cascade stages (state.b0 * x + state.z1L)).2) ∧
    fb.processMono buffer 0 = (fb, buffer) ∧
    fb.processMono buffer ((n + 1 : Nat) : Int) =
      (⟨(FilterBank.cascade (fb.processMono buffer (n : Int)).1.m_stages
          ((fb.processMono buffer (n : Int)).2 n)).2⟩,
        Function.update (fb.processMono buffer (n : Int)).2 n
          (FilterBank.cascade (fb.processMono buffer (n : Int)).1.m_stages
            ((fb.processMono buffer (n : Int)).2 n)).1) := by
  refine ⟨rfl, FilterBank.monoStage_fold_eq_cascade stages x, rfl, ?_, ?_⟩
  · by_cases he : fb.m_stages.isEmpty = true
    · simp [FilterBank.processMono, he]
    · simp [FilterBank.processMono, he, FilterBank.monoLoop]
  · by_cases he : fb.m_stages.isEmpty = true
    · have hnil : fb.m_stages = [] := List.isEmpty_iff.mp he
      simp only [FilterBank.processMono, he, if_true, hnil, FilterBank.cascade,
        Function.update_eq_self]
      cases fb
      simp_all [FilterBank.cascade]
    · simp only [FilterBank.processMono, he, Bool.false_eq_true, if_false, Int.toNat_ofNat,
        FilterBank.monoLoop, FilterBank.monoSample, FilterBank.monoStage_fold_eq_cascade]

/-- C17: for every bank state, every left and right buffer and every sample count, the
left buffer and the left state `(z1L, z2L)` of every stage after `process(left, right, n)`
are those `processMono(left, n)` produces from the same starting state, whatever the right
buffer holds; the right buffer and the right state `(z1R, z2R)` are those `processMono`
produces on the right buffer with the same coefficients and the right state in the left
slots, whatever the left buffer holds. -/
theorem filterBank_channels_independent (K : Type) [Field K] (fb : FilterBank K)
    (left right : Nat → K) (numSamples : Int) :
    (fb.process left right numSamples).2.1 = (fb.processMono left numSamples).2 ∧
    (fb.process left right numSamples).1.m_stages.map BiquadState.leftPart
      = (fb.processMono left numSamples).1.m_stages.map BiquadState.leftPart ∧
    (fb.process left right numSamples).2.2
      = ((⟨fb.m_stages.map FilterBank.swapChannels⟩ : FilterBank K).processMono right
          numSamples).2 ∧
    (fb.process left right numSamples).1.m_stages.map BiquadState.rightPart
      = ((⟨fb.m_stages.map FilterBank.swapChannels⟩ : FilterBank K).processMono right
          numSamples).1.m_stages.map BiquadState.leftPart ∧
    (∀ right' : Nat → K,
      (fb.process left right' numSamples).2.1 = (fb.process left right numSamples).2.1 ∧
      (fb.process left right' numSamples).1.m_stages.map BiquadState.leftPart
        = (fb.process left right numSamples).1.m_stages.map BiquadState.leftPart) ∧
    (∀ left' : Nat → K,
      (fb.process left' right numSamples).2.2 = (fb.process left right numSamples).2.2 ∧
      (fb.process left' right numSamples).1.m_stages.map BiquadState.rightPart
        = (fb.process left right numSamples).1.m_stages.map BiquadState.rightPart) := by
  have h := FilterBank.process_eq_monos fb left right numSamples
  refine ⟨h.1, h.2.1, h.2.2.1, h.2.2.2, ?_, ?_⟩
  · intro right'
    have h' := FilterBank.process_eq_monos fb left right' numSamples
    exact ⟨h'.1.trans h.1.symm, h'.2.1.trans h.2.1.symm⟩
  · intro left'
    have h' := FilterBank.process_eq_monos fb left' right numSamples
    exact ⟨h'.2.2.1.trans h.2.2.1.symm, h'.2.2.2.trans h.2.2.2.symm⟩

/-! ## Theorems: AudioEngine -/

/-- C21: while the stream is running (`m_running` set), `setSampleRate`, `setBufferSize`
and `setChannels` change nothing, whatever the argument: the engine's sample rate, buffer
size and channel count and the attached processor (its sample rate and its filter state
included) are as before the call. -/
theorem audioEngine_setters_rejected_while_running (K : Type) [Field K] (e : AudioEngine K)
    (h : e.m_running = true) (rate frames channels : Int) :
    e.setSampleRate rate = e ∧ e.setBufferSize frames = e ∧ e.setChannels channels = e ∧
    (e.setSampleRate rate).m_sampleRate = e.m_sampleRate ∧
    (e.setBufferSize frames).m_bufferSize = e.m_bufferSize ∧
    (e.setChannels channels).m_channels = e.m_channels ∧
    (e.setSampleRate rate).m_dspProcessor = e.m_dspProcessor ∧
    (e.setBufferSize frames).m_dspProcessor = e.m_dspProcessor ∧
    (e.setChannels channels).m_dspProcessor = e.m_dspProcessor := by
  simp [AudioEngine.setSampleRate, AudioEngine.setBufferSize, AudioEngine.setChannels, h]

theorem audioEngine_setters_rejected_while_running_witness :
    AudioEngine.sampleRunning.setSampleRate 44100 = AudioEngine.sampleRunning ∧
    AudioEngine.sampleRunning.setBufferSize 64 = AudioEngine.sampleRunning ∧
    AudioEngine.sampleRunning.setChannels 1 = AudioEngine.sampleRunning ∧
    (AudioEngine.sampleRunning.setSampleRate 44100).m_sampleRate
      = AudioEngine.sampleRunning.m_sampleRate ∧
    (AudioEngine.sampleRunning.setBufferSize 64).m_bufferSize
      = AudioEngine.sampleRunning.m_bufferSize ∧
    (AudioEngine.sampleRunning.setChannels 1).m_channels
      = AudioEngine.sampleRunning.m_channels ∧
    (AudioEngine.sampleRunning.setSampleRate 44100).m_dspProcessor
      = AudioEngine.sampleRunning.m_dspProcessor ∧
    (AudioEngine.sampleRunning.setBufferSize 64).m_dspProcessor
      = AudioEngine.sampleRunning.m_dspProcessor ∧
    (AudioEngine.sampleRunning.setChannels 1).m_dspProcessor
      = AudioEngine.sampleRunning.m_dspProcessor :=
  audioEngine_setters_rejected_while_running ℚ AudioEngine.sampleRunning rfl 44100 64 1

/-! ## Theorems: sample-rate change and zero input -/

/-- C23, as stated, fails: the processor reached from construction by one mono frame of
value 1 has rate 48000 and a non-zero left filter state, and `setSampleRate(48000)` leaves
that state non-zero. -/
theorem dsp_setSampleRate_same_rate_keeps_state :
    DSPProcessor.Reachable DSPProcessor.sampleMath DSPProcessor.sampleAfterImpulse ∧
    DSPProcessor.sampleAfterImpulse.m_sampleRate = 48000 ∧
    (DSPProcessor.sampleAfterImpulse.setSampleRate 48000).m_tubeEmulator.m_stateL
      ≠ FilterState.zero ℚ := by
  refine ⟨DSPProcessor.sampleAfterImpulse_reachable, rfl, ?_⟩
  have hsame : DSPProcessor.sampleAfterImpulse.setSampleRate 48000
      = DSPProcessor.sampleAfterImpulse := by
    have hr : DSPProcessor.sampleAfterImpulse.m_sampleRate = 48000 := rfl
    simp [DSPProcessor.setSampleRate, hr]
  rw [hsame]
  intro h
  apply DSPProcessor.sampleAfterImpulse_state
  rw [h]
  rfl

/-- C23, amended: for every reachable processor and every rate `r`, after
`setSampleRate(r)` the processor and the tube stage have rate `r` and the tube stage holds
the coefficient row of `r`; when `r` differs from the rate before the call the filter
state of both channels is zero, and when `r` equals it the processor is unchanged (the
filter state is kept). -/
theorem dsp_setSampleRate_configures (K : Type) [LinearOrderedField K] (M : MathFns K)
    (d : DSPProcessor K) (hd : DSPProcessor.Reachable M d) (r : Int) :
    (d.setSampleRate r).m_sampleRate = r ∧
    (d.setSampleRate r).m_tubeEmulator.m_sampleRate = r ∧
    (d.setSampleRate r).m_tubeEmulator.m_coeffs = coefficientsFor K r ∧
    (d.m_sampleRate ≠ r →
      (d.setSampleRate r).m_tubeEmulator.m_stateL = FilterState.zero K ∧
      (d.setSampleRate r).m_tubeEmulator.m_stateR = FilterState.zero K) ∧
    (d.m_sampleRate = r → d.setSampleRate r = d) := by
  have hc := DSPProcessor.consistent_setSampleRate
    (DSPProcessor.consistent_of_reachable M hd) r
  have hrate : (d.setSampleRate r).m_sampleRate = r := by
    by_cases h : r = d.m_sampleRate
    · simp [DSPProcessor.setSampleRate, h]
    · simp [DSPProcessor.setSampleRate, h, DSPProcessor.reset]
  refine ⟨hrate, by rw [hc.rate, hrate], by rw [hc.coeffs, hrate], ?_, ?_⟩
  · intro hne
    have hne2 : r ≠ d.m_sampleRate := fun e => hne e.symm
    constructor <;>
      simp [DSPProcessor.setSampleRate, hne2, DSPProcessor.reset, TubeEmulator.reset]
  · intro he
    simp [DSPProcessor.setSampleRate, he]

theorem dsp_setSampleRate_configures_witness :
    (DSPProcessor.sampleAfterImpulse.setSampleRate 44100).m_sampleRate = 44100 ∧
    (DSPProcessor.sampleAfterImpulse.setSampleRate 44100).m_tubeEmulator.m_sampleRate
      = 44100 ∧
    (DSPProcessor.sampleAfterImpulse.setSampleRate 44100).m_tubeEmulator.m_coeffs
      = coefficientsFor ℚ 44100 ∧
    (DSPProcessor.sampleAfterImpulse.m_sampleRate ≠ 44100 →
      (DSPProcessor.sampleAfterImpulse.setSampleRate 44100).m_tubeEmulator.m_stateL
        = FilterState.zero ℚ ∧
      (DSPProcessor.sampleAfterImpulse.setSampleRate 44100).m_tubeEmulator.m_stateR
        = FilterState.zero ℚ) ∧
    (DSPProcessor.sampleAfterImpulse.m_sampleRate = 44100 →
      DSPProcessor.sampleAfterImpulse.setSampleRate 44100
        = DSPProcessor.sampleAfterImpulse) :=
  dsp_setSampleRate_configures ℚ DSPProcessor.sampleMath DSPProcessor.sampleAfterImpulse
    DSPProcessor.sampleAfterImpulse_reachable 44100

/-- C24, as stated, fails: the processor reached from construction by one mono frame of
value 1 has bypass off, and processing one all-zero mono frame next, with no reset in
between, writes a non-zero output sample (the filter memory rings on). -/
theorem dsp_zero_input_rings :
    DSPProcessor.Reachable DSPProcessor.sampleMath DSPProcessor.sampleAfterImpulse ∧
    DSPProcessor.sampleAfterImpulse.m_bypass = false ∧
    (DSPProcessor.sampleAfterImpulse.process DSPProcessor.sampleMath (fun _ => 0)
      ((1 : Nat) : Int) 1).2 0 ≠ 0 := by
  refine ⟨DSPProcessor.sampleAfterImpulse_reachable, rfl, ?_⟩
  rw [DSPProcessor.process_mono_eq DSPProcessor.sampleMath DSPProcessor.sampleAfterImpulse
    rfl (fun _ => 0) 1]
  show (TubeEmulator.processMonoLoop _ _ _ 1).2 0 ≠ 0
  rw [DSPProcessor.zero_input_first_mono DSPProcessor.sampleMath
    (by simp [DSPProcessor.sampleMath]) _ _ _ 1 (by decide) rfl]
  have hz := DSPProcessor.sampleAfterImpulse_state
  have hg : TubeEmulator.gain DSPProcessor.sampleMath
      DSPProcessor.sampleAfterImpulse.m_tubeEmulator = 1 := rfl
  rw [hg]
  intro h
  apply hz
  have h133 : (1.33 : ℚ) ≠ 0 := by norm_num
  simpa [h133] using h

/-- C24, amended: for every processor with bypass off, every frame count `n ≥ 1` and
channel count 1 or 2, processing an all-zero buffer writes as first sample of each
processed channel `z[0]` of that channel's filter state times 1.33 times the gain; the
output is all zero when the filter state of the processed channels is zero at the start
(a fresh or reset processor), and after earlier audio without reset it need not be. -/
theorem dsp_zero_input_response (K : Type) [LinearOrderedField K] (M : MathFns K)
    (hlog : M.log 1 = 0) (d : DSPProcessor K) (hb : d.m_bypass = false)
    (buffer : Nat → K) (n : Nat) (hn : 1 ≤ n) (numChannels : Int)
    (hc : numChannels = 1 ∨ numChannels = 2)
    (hbuf : ∀ i, i < n * numChannels.toNat → buffer i = 0) :
    (d.process M buffer (n : Int) numChannels).2 0 =
      d.m_tubeEmulator.m_stateL.z 0 * 1.33 * M.pow 10 (d.m_tubeEmulator.m_outputGainDb / 20) ∧
    (numChannels = 2 →
      (d.process M buffer (n : Int) numChannels).2 1 =
        d.m_tubeEmulator.m_stateR.z 0 * 1.33
          * M.pow 10 (d.m_tubeEmulator.m_outputGainDb / 20)) ∧
    (d.m_tubeEmulator.m_stateL = FilterState.zero K →
      (numChannels = 1 ∨ d.m_tubeEmulator.m_stateR = FilterState.zero K) →
      ∀ i, i < n * numChannels.toNat → (d.process M buffer (n : Int) numChannels).2 i = 0) := by
  have hn0 : 0 < n := hn
  refine ⟨?_, ?_, ?_⟩
  · rcases hc with h1 | h2
    · subst h1
      have h0 : buffer 0 = 0 := hbuf 0 (by simpa using hn0)
      rw [DSPProcessor.process_mono_eq M d hb buffer n]
      exact DSPProcessor.zero_input_first_mono M hlog _ _ _ n hn0 h0
    · subst h2
      have h2n : (2 : Int).toNat = 2 := rfl
      have h0 : buffer 0 = 0 := hbuf 0 (by rw [h2n]; omega)
      have h1 : buffer 1 = 0 := hbuf 1 (by rw [h2n]; omega)
      have hs := (DSPProcessor.process_stereo_eq M d hb buffer n).2.1 0 hn0
      have hf := DSPProcessor.zero_input_first_stereo M hlog
        (TubeEmulator.gain M d.m_tubeEmulator) d.m_tubeEmulator
        (fun k => buffer (k * 2)) (fun k => buffer (k * 2 + 1)) n hn0 h0 h1
      rw [show (0 : Nat) = 0 * 2 from rfl, hs.1, hf.1]
      rfl
  · intro h2
    subst h2
    have h2n : (2 : Int).toNat = 2 := rfl
    have h0 : buffer 0 = 0 := hbuf 0 (by rw [h2n]; omega)
    have h1 : buffer 1 = 0 := hbuf 1 (by rw [h2n]; omega)
    have hs := (DSPProcessor.process_stereo_eq M d hb buffer n).2.1 0 hn0
    have hf := DSPProcessor.zero_input_first_stereo M hlog
      (TubeEmulator.gain M d.m_tubeEmulator) d.m_tubeEmulator
      (fun k => buffer (k * 2)) (fun k => buffer (k * 2 + 1)) n hn0 h0 h1
    rw [show (1 : Nat) = 0 * 2 + 1 from rfl, hs.2, hf.2]
    rfl
  · intro hL hR i hi
    have hc' : numChannels = 1 ∨
        (numChannels = 2 ∧ d.m_tubeEmulator.m_stateR = FilterState.zero K) := by
      rcases hc with h1 | h2
      · exact Or.inl h1
      · rcases hR with h1 | hR
        · exact Or.inl h1
        · exact Or.inr ⟨h2, hR⟩
    rw [DSPProcessor.process_zero_state M hlog d hL hb buffer n numChannels hc' hbuf]
    exact hbuf i hi

theorem dsp_zero_input_response_witness :
    (DSPProcessor.sampleAfterImpulse.process DSPProcessor.sampleMath (fun _ => 0)
        ((3 : Nat) : Int) 2).2 0 =
      DSPProcessor.sampleAfterImpulse.m_tubeEmulator.m_stateL.z 0 * 1.33
        * DSPProcessor.sampleMath.pow 10
          (DSPProcessor.sampleAfterImpulse.m_tubeEmulator.m_outputGainDb / 20) ∧
    ((2 : Int) = 2 →
      (DSPProcessor.sampleAfterImpulse.process DSPProcessor.sampleMath (fun _ => 0)
          ((3 : Nat) : Int) 2).2 1 =
        DSPProcessor.sampleAfterImpulse.m_tubeEmulator.m_stateR.z 0 * 1.33
          * DSPProcessor.sampleMath.pow 10
            (DSPProcessor.sampleAfterImpulse.m_tubeEmulator.m_outputGainDb / 20)) ∧
    (DSPProcessor.sampleAfterImpulse.m_tubeEmulator.m_stateL = FilterState.zero ℚ →
      ((2 : Int) = 1 ∨
        DSPProcessor.sampleAfterImpulse.m_tubeEmulator.m_stateR = FilterState.zero ℚ) →
      ∀ i, i < 3 * (2 : Int).toNat →
        (DSPProcessor.sampleAfterImpulse.process DSPProcessor.sampleMath (fun _ => 0)
          ((3 : Nat) : Int) 2).2 i = 0) :=
  dsp_zero_input_response ℚ DSPProcessor.sampleMath (by simp [DSPProcessor.sampleMath])
    DSPProcessor.sampleAfterImpulse rfl (fun _ => 0) 3 (by decide) 2 (Or.inr rfl)
    (fun _ _ => rfl)

/-! ## Theorems: coefficient load by index, key set -/

/-- C25: let `v` be the kept values, `n = |v| ≥ 30` and `h = n / 2`.  The pre candidates
are the tuples `(v[5k], ..., v[5k+4])` with `5k + 4 < h`, the post candidates the tuples
`(v[h+5k], ..., v[h+5k+4])` with `h + 5k + 4 < n`.  Whenever each half has a candidate
with `|a1| < 2.0` and `|a2| < 1.0`, after the load (by `parseIDAFormat` or by
`loadFromFile`) the pre table of each of the six supported rates is the list of stable
pre candidates in order and the post table the list of stable post candidates in order. -/
theorem parameters_load_both_halves (K : Type) [LinearOrderedField K] (p : Parameters K)
    (allBytes : List Nat) (h30 : 30 ≤ (Parameters.keptValues K allBytes).length)
    (hpre : Parameters.stableCandidates (Parameters.keptValues K allBytes) 0
      ((Parameters.keptValues K allBytes).length / 2) ≠ [])
    (hpost : Parameters.stableCandidates (Parameters.keptValues K allBytes)
      ((Parameters.keptValues K allBytes).length / 2)
      (Parameters.keptValues K allBytes).length ≠ []) :
    ∀ rate ∈ Parameters.rates,
      (p.parseIDAFormat allBytes).2.m_preFilterCoeffs.value rate [] =
        Parameters.stableCandidates (Parameters.keptValues K allBytes) 0
          ((Parameters.keptValues K allBytes).length / 2) ∧
      (p.parseIDAFormat allBytes).2.m_postFilterCoeffs.value rate [] =
        Parameters.stableCandidates (Parameters.keptValues K allBytes)
          ((Parameters.keptValues K allBytes).length / 2)
          (Parameters.keptValues K allBytes).length ∧
      (p.loadFromFile (some allBytes)).2.m_preFilterCoeffs.value rate [] =
        Parameters.stableCandidates (Parameters.keptValues K allBytes) 0
          ((Parameters.keptValues K allBytes).length / 2) ∧
      (p.loadFromFile (some allBytes)).2.m_postFilterCoeffs.value rate [] =
        Parameters.stableCandidates (Parameters.keptValues K allBytes)
          ((Parameters.keptValues K allBytes).length / 2)
          (Parameters.keptValues K allBytes).length := by
  have he := Parameters.stableStages_eq_candidates (Parameters.keptValues K allBytes)
  have hpre' : Parameters.stableStages ((Parameters.keptValues K allBytes).take
      ((Parameters.keptValues K allBytes).length / 2)) ≠ [] := by rw [he.1]; exact hpre
  have hpost' : Parameters.stableStages ((Parameters.keptValues K allBytes).drop
      ((Parameters.keptValues K allBytes).length / 2)) ≠ [] := by rw [he.2]; exact hpost
  have hl := Parameters.loadFromFile_tables p allBytes
  intro rate hrate
  have h1 : (p.parseIDAFormat allBytes).2.m_preFilterCoeffs.value rate [] =
      Parameters.stableCandidates (Parameters.keptValues K allBytes) 0
        ((Parameters.keptValues K allBytes).length / 2) := by
    rw [Parameters.parseIDAFormat_replaced p allBytes h30 (Or.inl hpre'),
      Parameters.storeParsed_fold_pre _ _ hpre', if_pos hrate, he.1]
  have h2 : (p.parseIDAFormat allBytes).2.m_postFilterCoeffs.value rate [] =
      Parameters.stableCandidates (Parameters.keptValues K allBytes)
        ((Parameters.keptValues K allBytes).length / 2)
        (Parameters.keptValues K allBytes).length := by
    rw [Parameters.parseIDAFormat_replaced p allBytes h30 (Or.inl hpre'),
      Parameters.storeParsed_fold_post _ _ hpost', if_pos hrate, he.2]
  exact ⟨h1, h2, by rw [hl.1]; exact h1, by rw [hl.2]; exact h2⟩

theorem parameters_load_both_halves_witness :
      ((Parameters.construct ℚ).parseIDAFormat
          Parameters.bytesAllZero).2.m_preFilterCoeffs.value 96000 [] =
        Parameters.stableCandidates (Parameters.keptValues ℚ Parameters.bytesAllZero) 0
          ((Parameters.keptValues ℚ Parameters.bytesAllZero).length / 2) ∧
      ((Parameters.construct ℚ).parseIDAFormat
          Parameters.bytesAllZero).2.m_postFilterCoeffs.value 96000 [] =
        Parameters.stableCandidates (Parameters.keptValues ℚ Parameters.bytesAllZero)
          ((Parameters.keptValues ℚ Parameters.bytesAllZero).length / 2)
          (Parameters.keptValues ℚ Parameters.bytesAllZero).length ∧
      ((Parameters.construct ℚ).loadFromFile
          (some Parameters.bytesAllZero)).2.m_preFilterCoeffs.value 96000 [] =
        Parameters.stableCandidates (Parameters.keptValues ℚ Parameters.bytesAllZero) 0
          ((Parameters.keptValues ℚ Parameters.bytesAllZero).length / 2) ∧
      ((Parameters.construct ℚ).loadFromFile
          (some Parameters.bytesAllZero)).2.m_postFilterCoeffs.value 96000 [] =
        Parameters.stableCandidates (Parameters.keptValues ℚ Parameters.bytesAllZero)
          ((Parameters.keptValues ℚ Parameters.bytesAllZero).length / 2)
          (Parameters.keptValues ℚ Parameters.bytesAllZero).length :=
  parameters_load_both_halves ℚ (Parameters.construct ℚ) Parameters.bytesAllZero
    (by rw [Parameters.keptValues_bytesAllZero]; simp)
    (by rw [Parameters.keptValues_bytesAllZero]; exact (Parameters.stableCandidates_allZero ℚ).1)
    (by rw [Parameters.keptValues_bytesAllZero]; exact (Parameters.stableCandidates_allZero ℚ).2)
    96000 (by decide)

/-- C29: in every `Parameters` state reachable from construction by any sequence of loads,
the key list of the pre-filter map and of the post-filter map is exactly the six supported
rates and every stored table is non-empty; hence for every requested rate
`getPreFilterCoeffs` and `getPostFilterCoeffs` return a non-empty list, and since each map
holds the requested rate or 48000, the branches that take the first available entry or
the empty list are never reached. -/
theorem parameters_tables_populated (K : Type) [LinearOrderedField K] (p : Parameters K)
    (h : Parameters.Reachable p) :
    p.m_preFilterCoeffs.map Prod.fst = Parameters.rates ∧
    p.m_postFilterCoeffs.map Prod.fst = Parameters.rates ∧
    (∀ e ∈ p.m_preFilterCoeffs, e.2 ≠ []) ∧
    (∀ e ∈ p.m_postFilterCoeffs, e.2 ≠ []) ∧
    ∀ r : Int,
      p.getPreFilterCoeffs r ≠ [] ∧ p.getPostFilterCoeffs r ≠ [] ∧
      p.m_preFilterCoeffs.contains 48000 = true ∧
      p.m_postFilterCoeffs.contains 48000 = true ∧
      p.getPreFilterCoeffs r =
        (if p.m_preFilterCoeffs.contains r then p.m_preFilterCoeffs.value r []
         else p.m_preFilterCoeffs.value 48000 []) ∧
      p.getPostFilterCoeffs r =
        (if p.m_postFilterCoeffs.contains r then p.m_postFilterCoeffs.value r []
         else p.m_postFilterCoeffs.value 48000 []) := by
  obtain ⟨tpre, tpost, n1, n2, h1, h2⟩ := Parameters.populated_of_reachable h
  have h48 : (48000 : Int) ∈ Parameters.rates := by decide
  have c1 : p.m_preFilterCoeffs.contains 48000 = true := by
    rw [h1]; exact (Parameters.contains_map_const _ tpre 48000).mpr h48
  have c2 : p.m_postFilterCoeffs.contains 48000 = true := by
    rw [h2]; exact (Parameters.contains_map_const _ tpost 48000).mpr h48
  refine ⟨?_, ?_, ?_, ?_, ?_⟩
  · rw [h1, List.map_map]; exact List.map_id _
  · rw [h2, List.map_map]; exact List.map_id _
  · intro e he
    rw [h1] at he
    obtain ⟨r, _, rfl⟩ := List.mem_map.mp he
    exact n1
  · intro e he
    rw [h2] at he
    obtain ⟨r, _, rfl⟩ := List.mem_map.mp he
    exact n2
  · intro r
    have g1 : p.getPreFilterCoeffs r = tpre := by
      unfold Parameters.getPreFilterCoeffs
      rw [h1]; exact Parameters.lookup_uniform tpre [] r
    have g2 : p.getPostFilterCoeffs r = tpost := by
      unfold Parameters.getPostFilterCoeffs
      rw [h2]; exact Parameters.lookup_uniform tpost [] r
    refine ⟨by rw [g1]; exact n1, by rw [g2]; exact n2, c1, c2, ?_, ?_⟩
    · unfold Parameters.getPreFilterCoeffs
      rw [if_pos c1]
    · unfold Parameters.getPostFilterCoeffs
      rw [if_pos c2]

theorem parameters_tables_populated_witness :
    Parameters.Reachable Parameters.sampleLoaded ∧
    Parameters.sampleLoaded.m_preFilterCoeffs.map Prod.fst = Parameters.rates ∧
    Parameters.sampleLoaded.m_postFilterCoeffs.map Prod.fst = Parameters.rates ∧
    (∀ e ∈ Parameters.sampleLoaded.m_preFilterCoeffs, e.2 ≠ []) ∧
    (∀ e ∈ Parameters.sampleLoaded.m_postFilterCoeffs, e.2 ≠ []) ∧
    ∀ r : Int,
      Parameters.sampleLoaded.getPreFilterCoeffs r ≠ [] ∧
      Parameters.sampleLoaded.getPostFilterCoeffs r ≠ [] ∧
      Parameters.sampleLoaded.m_preFilterCoeffs.contains 48000 = true ∧
      Parameters.sampleLoaded.m_postFilterCoeffs.contains 48000 = true ∧
      Parameters.sampleLoaded.getPreFilterCoeffs r =
        (if Parameters.sampleLoaded.m_preFilterCoeffs.contains r
         then Parameters.sampleLoaded.m_preFilterCoeffs.value r []
         else Parameters.sampleLoaded.m_preFilterCoeffs.value 48000 []) ∧
      Parameters.sampleLoaded.getPostFilterCoeffs r =
        (if Parameters.sampleLoaded.m_postFilterCoeffs.contains r
         then Parameters.sampleLoaded.m_postFilterCoeffs.value r []
         else Parameters.sampleLoaded.m_postFilterCoeffs.value 48000 []) :=
  ⟨⟨[some Parameters.bytesAllZero, none], rfl⟩,
    parameters_tables_populated ℚ Parameters.sampleLoaded
      ⟨[some Parameters.bytesAllZero, none], rfl⟩⟩

/-! ## Theorems: domain of the logarithm in the shaper -/

/-- C30: in exact arithmetic `shapeSample` takes the logarithm at the argument
`logArgument x = 1 - 0.75 * x` and at no other: its result is the same when `log` is
replaced by the constant function of value `log (logArgument x)`, and it does depend on
the value of `log` there (two records of math functions that differ only at that argument,
with values `c ≠ c'` both at most `-(10 * |x|) - 1`, give different results).  This
argument is strictly positive if and only if `x < 4/3`; for every `x` in `[-1, 1]` it lies
in `[0.25, 1.75]`; and for every `x ≥ 4/3` it is non-positive, so the logarithm is then
taken of a non-positive number. -/
theorem shapeSample_log_domain (K : Type) [LinearOrderedField K]
    (M : MathFns K) (x : K) :
    TubeEmulator.shapeSample M x =
      TubeEmulator.shapeSample
        { M with log := fun _ => M.log (TubeEmulator.logArgument x) } x ∧
    (∀ c : K, (TubeEmulator.logProbe (TubeEmulator.logArgument x) c).log
      (TubeEmulator.logArgument x) = c) ∧
    (∀ c y : K, y ≠ TubeEmulator.logArgument x →
      (TubeEmulator.logProbe (TubeEmulator.logArgument x) c).log y = 0) ∧
    (∀ c c' : K, c ≤ -(10 * |x|) - 1 → c' ≤ -(10 * |x|) - 1 → c ≠ c' →
      TubeEmulator.shapeSample (TubeEmulator.logProbe (TubeEmulator.logArgument x) c) x ≠
        TubeEmulator.shapeSample
          (TubeEmulator.logProbe (TubeEmulator.logArgument x) c') x) ∧
    TubeEmulator.logArgument x = 1 - 0.75 * x ∧
    (0 < TubeEmulator.logArgument x ↔ x < 4 / 3) ∧
    (-1 ≤ x → x ≤ 1 →
      0.25 ≤ TubeEmulator.logArgument x ∧ TubeEmulator.logArgument x ≤ 1.75) ∧
    (4 / 3 ≤ x → TubeEmulator.logArgument x ≤ 0) := by
  refine ⟨rfl, ?_, ?_, ?_, ?_, ?_, ?_, ?_⟩
  · intro c
    simp [TubeEmulator.logProbe]
  · intro c y hy
    simp [TubeEmulator.logProbe, hy]
  · intro c c' hc hc' hne heq
    rw [TubeEmulator.shapeSample_logProbe x c (TubeEmulator.shapeSample_logProbe_branch x c hc),
      TubeEmulator.shapeSample_logProbe x c'
        (TubeEmulator.shapeSample_logProbe_branch x c' hc')] at heq
    apply hne
    linarith
  · unfold TubeEmulator.logArgument; ring
  · unfold TubeEmulator.logArgument
    constructor
    · intro h; norm_num at h ⊢; linarith
    · intro h; norm_num at h ⊢; linarith
  · intro h1 h2
    unfold TubeEmulator.logArgument
    constructor <;> norm_num <;> linarith
  · intro h
    unfold TubeEmulator.logArgument
    norm_num at h ⊢; linarith

/-! ## Theorems: difference equation of one biquad stage -/

/-- C27: in exact arithmetic, for every coefficient tuple `(b0, b1, b2, a1, a2)` and every
input `x[0..n)`, a bank of one biquad stage started from zero state and run by
`processMono` over `n` samples leaves in the buffer the output `y` with
`y[k] = b0*x[k] + b1*x[k-1] + b2*x[k-2] - a1*y[k-1] - a2*y[k-2]` for every `k < n`, terms
of negative index taken as 0. -/
theorem biquad_difference_equation (K : Type) [Field K] (fc : FilterCoeffs K)
    (x : Nat → K) (n : Nat) :
    ∀ k, k < n →
      (((FilterBank.construct K).setCoefficients [fc]).processMono x (n : Int)).2 k =
        fc.b0 * x k + fc.b1 * FilterBank.delayed x k 1 + fc.b2 * FilterBank.delayed x k 2
          - fc.a1 * FilterBank.delayed
              (((FilterBank.construct K).setCoefficients [fc]).processMono x (n : Int)).2 k 1
          - fc.a2 * FilterBank.delayed
              (((FilterBank.construct K).setCoefficients [fc]).processMono x (n : Int)).2 k 2
    := by
  have hp : (((FilterBank.construct K).setCoefficients [fc]).processMono x (n : Int)).2 =
      (FilterBank.monoLoop
        (((FilterBank.construct K).setCoefficients [fc]).m_stages, x) n).2 := by
    simp [FilterBank.processMono, FilterBank.setCoefficients]
  rw [hp]
  exact (FilterBank.single_stage_invariant fc x n).2.2

theorem biquad_difference_equation_witness :
    (((FilterBank.construct ℚ).setCoefficients [FilterBank.sampleCoeffs]).processMono
        FilterBank.sampleRamp ((3 : Nat) : Int)).2 2 =
      FilterBank.sampleCoeffs.b0 * FilterBank.sampleRamp 2
        + FilterBank.sampleCoeffs.b1 * FilterBank.delayed FilterBank.sampleRamp 2 1
        + FilterBank.sampleCoeffs.b2 * FilterBank.delayed FilterBank.sampleRamp 2 2
        - FilterBank.sampleCoeffs.a1 * FilterBank.delayed
            (((FilterBank.construct ℚ).setCoefficients [FilterBank.sampleCoeffs]).processMono
              FilterBank.sampleRamp ((3 : Nat) : Int)).2 2 1
        - FilterBank.sampleCoeffs.a2 * FilterBank.delayed
            (((FilterBank.construct ℚ).setCoefficients [FilterBank.sampleCoeffs]).processMono
              FilterBank.sampleRamp ((3 : Nat) : Int)).2 2 2 :=
  biquad_difference_equation ℚ FilterBank.sampleCoeffs FilterBank.sampleRamp 3 2 (by decide)

/-! ## Theorems: first in, first out -/

/-- C28: for every `DSPProcessor` state with bypass disabled, channel count `c` in
`{1, 2}`, buffer `A` of `n1` frames and buffer `B` of `n2` frames, with `C` their
concatenation (`n1 + n2` frames): `process` on `A` and then on `B` leaves the same
processor, filter state included, as one `process` on `C`, and the output samples of `C`
are those of `A` followed by those of `B`. -/
theorem dsp_process_streaming (K : Type) [LinearOrderedField K] (M : MathFns K)
    (d : DSPProcessor K) (hb : d.m_bypass = false) (c : Nat) (hc : c = 1 ∨ c = 2)
    (A B C : Nat → K) (n1 n2 : Nat)
    (hA : ∀ j, j < n1 * c → C j = A j) (hB : ∀ j, j < n2 * c → C (n1 * c + j) = B j) :
    (d.process M C ((n1 + n2 : Nat) : Int) (c : Int)).1 =
      ((d.process M A (n1 : Int) (c : Int)).1.process M B (n2 : Int) (c : Int)).1 ∧
    (∀ j, j < n1 * c →
      (d.process M C ((n1 + n2 : Nat) : Int) (c : Int)).2 j =
        (d.process M A (n1 : Int) (c : Int)).2 j) ∧
    ∀ j, j < n2 * c →
      (d.process M C ((n1 + n2 : Nat) : Int) (c : Int)).2 (n1 * c + j) =
        ((d.process M A (n1 : Int) (c : Int)).1.process M B (n2 : Int) (c : Int)).2 j := by
  rcases hc with rfl | rfl
  · simp only [Nat.cast_one, Nat.mul_one] at hA hB ⊢
    exact DSPProcessor.process_stream_mono M d hb A B C n1 n2 hA hB
  · simp only [Nat.cast_ofNat] at hA hB ⊢
    exact DSPProcessor.process_stream_stereo M d hb A B C n1 n2 hA hB

theorem dsp_process_streaming_witness :
    ((DSPProcessor.construct ℚ).m_bypass = false ∧ ((2 : Nat) = 1 ∨ (2 : Nat) = 2) ∧
      (∀ j, j < 1 * 2 → DSPProcessor.sampleImpulse j = DSPProcessor.sampleImpulse j) ∧
      (∀ j, j < 1 * 2 → DSPProcessor.sampleImpulse (1 * 2 + j) = (fun _ => (0 : ℚ)) j)) ∧
    ((DSPProcessor.construct ℚ).process DSPProcessor.sampleMath DSPProcessor.sampleImpulse
        ((1 + 1 : Nat) : Int) ((2 : Nat) : Int)).1 =
      (((DSPProcessor.construct ℚ).process DSPProcessor.sampleMath
          DSPProcessor.sampleImpulse ((1 : Nat) : Int) ((2 : Nat) : Int)).1.process
        DSPProcessor.sampleMath (fun _ => (0 : ℚ)) ((1 : Nat) : Int) ((2 : Nat) : Int)).1 ∧
    (∀ j, j < 1 * 2 →
      ((DSPProcessor.construct ℚ).process DSPProcessor.sampleMath DSPProcessor.sampleImpulse
          ((1 + 1 : Nat) : Int) ((2 : Nat) : Int)).2 j =
        ((DSPProcessor.construct ℚ).process DSPProcessor.sampleMath
          DSPProcessor.sampleImpulse ((1 : Nat) : Int) ((2 : Nat) : Int)).2 j) ∧
    ∀ j, j < 1 * 2 →
      ((DSPProcessor.construct ℚ).process DSPProcessor.sampleMath DSPProcessor.sampleImpulse
          ((1 + 1 : Nat) : Int) ((2 : Nat) : Int)).2 (1 * 2 + j) =
        (((DSPProcessor.construct ℚ).process DSPProcessor.sampleMath
            DSPProcessor.sampleImpulse ((1 : Nat) : Int) ((2 : Nat) : Int)).1.process
          DSPProcessor.sampleMath (fun _ => (0 : ℚ)) ((1 : Nat) : Int) ((2 : Nat) : Int)).2 j :=
  ⟨⟨rfl, Or.inr rfl, fun _ _ => rfl, fun j _ => by simp [DSPProcessor.sampleImpulse]⟩,
    dsp_process_streaming ℚ DSPProcessor.sampleMath (DSPProcessor.construct ℚ) rfl 2
      (Or.inr rfl) DSPProcessor.sampleImpulse (fun _ => 0) DSPProcessor.sampleImpulse 1 1
      (fun _ _ => rfl) (fun j _ => by simp [DSPProcessor.sampleImpulse])⟩

end TubeAmp
